import Mathlib

/-!
# School-maping: the education-layer module

A shallow embedding of `src/Java files/education-layers.js`: the amenity filter, the bounded
TTL cache and its key, the Overpass fetch with endpoint failover and its normalisation of
elements into point features, the layer lifecycle functions, the debounced view coordinator,
the security helpers and the popup; and of the parts of `ui-controls.js`, `map-setup.js` and
`hash-sync.js` that switch the layer, replace the base style and read and write the location
hash.

Conventions of the embedding
* a JavaScript `Map` and a plain object are association lists in insertion order;
* `Date.now()` is an explicit `Int` argument (milliseconds);
* `null`/`undefined` results are `Option.none`; thrown errors are `Except.error`;
* the renderer (`map`) is a record of the education source's data and the ids of the layers.
-/

namespace SchoolMap

/-! ## JavaScript values and objects -/

/-- The primitive JavaScript values a tag or a feature property can hold. -/
inductive JsVal where
  | undefined : JsVal
  | null : JsVal
  | bool (b : Bool) : JsVal
  | num (n : Int) : JsVal
  | str (s : String) : JsVal
deriving DecidableEq, Repr

/-- JavaScript truthiness (`if (v)`, `v || w`, `v ? a : b`). -/
def JsVal.truthy : JsVal → Bool
  | .undefined => false
  | .null => false
  | .bool b => b
  | .num n => n != 0
  | .str s => s != ""

/-- The JavaScript `a || b`. -/
def JsVal.or (a b : JsVal) : JsVal := if a.truthy then a else b

/-- Insertion-ordered association list: a JavaScript object or `Map`. -/
abbrev Assoc (β : Type) := List (String × β)

/-- Embeds `m.get(k)` / `o[k]`: the value stored under `k`, if any. -/
def assocGet {β : Type} : Assoc β → String → Option β
  | [], _ => none
  | (k', v) :: rest, k => if k' = k then some v else assocGet rest k

/-- Embeds `m.set(k, v)` / `o[k] = v`: an existing key keeps its position, a new key goes last. -/
def assocSet {β : Type} : Assoc β → String → β → Assoc β
  | [], k, v => [(k, v)]
  | (k', v') :: rest, k, v =>
      if k' = k then (k, v) :: rest else (k', v') :: assocSet rest k v

/-- Embeds `m.delete(k)`. -/
def assocDelete {β : Type} (m : Assoc β) (k : String) : Assoc β :=
  m.filter (fun p => decide (p.1 ≠ k))

/-- Property read `o.k` on an object: a missing key reads as `undefined`. -/
def objGet (o : Assoc JsVal) (k : String) : JsVal :=
  (assocGet o k).getD JsVal.undefined

/-! ## Features and collections -/

/-- A GeoJSON point feature: `{ type:'Feature', geometry:{type:'Point', coordinates}, properties }`. -/
structure Feature where
  coordinates : Rat × Rat
  properties : Option (Assoc JsVal)
deriving DecidableEq

/-- A GeoJSON feature collection `{ type:'FeatureCollection', features }`; a missing `features`
field is the empty list, as `gj.features || []` reads it. -/
structure FeatureCollection where
  features : List Feature
deriving DecidableEq

/-- The collection `{ type:'FeatureCollection', features: [] }`. -/
def emptyCollection : FeatureCollection := ⟨[]⟩

/-- The expression `f.properties?.amenity`. -/
def featureAmenity (f : Feature) : JsVal :=
  match f.properties with
  | none => JsVal.undefined
  | some p => objGet p "amenity"

/-- The expression `f.properties?.id`, the feature identifier. -/
def featureId (f : Feature) : JsVal :=
  match f.properties with
  | none => JsVal.undefined
  | some p => objGet p "id"

/-- Embeds `selectedSet.has(v)` for a set of strings (the checked checkbox values): membership by
SameValueZero, so only a string value can be a member. -/
def setHas (selected : List String) : JsVal → Bool
  | .str s => decide (s ∈ selected)
  | _ => false

/-- Embeds `filterGeoJSONByAmenity(gj, selectedSet)`. -/
def filterGeoJSONByAmenity (gj : FeatureCollection) (selectedSet : List String) :
    FeatureCollection :=
  if selectedSet.isEmpty then emptyCollection
  else ⟨gj.features.filter (fun f => setHas selectedSet (featureAmenity f))⟩

/-! ## The bounded TTL cache -/

/-- Embeds `CACHE_TTL_MS = 10 * 60 * 1000`: ten minutes. -/
def CACHE_TTL_MS : Int := 10 * 60 * 1000

/-- Embeds `CACHE_MAX = 25`. -/
def CACHE_MAX : Nat := 25

/-- A cache entry `{ gj, t }`. -/
structure CacheEntry where
  gj : FeatureCollection
  t : Int
deriving DecidableEq

/-- The module-level `bboxCache = new Map()`. -/
abbrev BboxCache := Assoc CacheEntry

/-- One round of the scan in `cacheSet`, on the pair `(oldestKey, oldestT)`:
`if (v.t < oldestT){ oldestT = v.t; oldestKey = k; }`. `oldestKey = null` is `none`, and
`oldestT = Infinity` is `none` (every timestamp is below it). -/
def oldestStep (acc : Option String × Option Int) (kv : String × CacheEntry) :
    Option String × Option Int :=
  match acc.2 with
  | none => (some kv.1, some kv.2.t)
  | some oldestT => if kv.2.t < oldestT then (some kv.1, some kv.2.t) else acc

/-- The loop `for (const [k, v] of bboxCache.entries())` of `cacheSet`. -/
def findOldest (c : BboxCache) : Option String × Option Int :=
  c.foldl oldestStep (none, none)

/-- Embeds `cacheSet(key, gj)` with `Date.now() = now`. The guard `if (oldestKey)` is a truthiness
test: it fails for `null` and for the empty string. -/
def cacheSet (c : BboxCache) (key : String) (gj : FeatureCollection) (now : Int) : BboxCache :=
  let c1 := assocSet c key ⟨gj, now⟩
  if c1.length > CACHE_MAX then
    match (findOldest c1).1 with
    | some oldestKey => if oldestKey ≠ "" then assocDelete c1 oldestKey else c1
    | none => c1
  else c1

/-- Embeds `cacheGet(key)` with `Date.now() = now`: the new cache and the returned value
(`none` for `null`). -/
def cacheGet (c : BboxCache) (key : String) (now : Int) :
    BboxCache × Option FeatureCollection :=
  match assocGet c key with
  | none => (c, none)
  | some hit =>
      if now - hit.t > CACHE_TTL_MS then (assocDelete c key, none)
      else (assocSet (assocDelete c key) key hit, some hit.gj)

/-- A call on the cache: `cacheSet(key, gj)` or `cacheGet(key)`, with the clock reading. -/
inductive CacheOp where
  | set (key : String) (gj : FeatureCollection) (now : Int) : CacheOp
  | get (key : String) (now : Int) : CacheOp

/-- The key a `cacheSet` call inserts. -/
def CacheOp.setKey : CacheOp → Option String
  | .set key _ _ => some key
  | .get _ _ => none

/-- The cache after one call. -/
def CacheOp.run (c : BboxCache) : CacheOp → BboxCache
  | .set key gj now => cacheSet c key gj now
  | .get key now => (cacheGet c key now).1

/-- The cache after a sequence of calls. -/
def runCacheOps (c : BboxCache) (ops : List CacheOp) : BboxCache :=
  ops.foldl CacheOp.run c

/-- The state invariant of the cache: at most `CACHE_MAX` entries, no empty key, and no key
twice (so the length of the list is the `size` of the `Map`). -/
def CacheInv (c : BboxCache) : Prop :=
  c.length ≤ CACHE_MAX ∧ (∀ p ∈ c, p.1 ≠ "") ∧ (c.map Prod.fst).Nodup

/-- Twenty-five distinct non-empty keys. -/
def sampleKeys : List String :=
  ["a", "b", "c", "d", "e", "f", "g", "h", "i", "j", "k", "l", "m", "n", "o", "p", "q", "r",
   "s", "t", "u", "v", "w", "x", "y"]

/-- A `cacheSet` under the empty key at time 0, then one under each of the sample keys at
time 1. -/
def overflowOps : List CacheOp :=
  CacheOp.set "" emptyCollection 0 :: sampleKeys.map (fun k => CacheOp.set k emptyCollection 1)

/-! ## The Overpass fetch and its normalisation -/

/-- Embeds `OVERPASS_ENDPOINTS`. -/
def OVERPASS_ENDPOINTS : List String :=
  ["https://overpass-api.de/api/interpreter",
   "https://overpass.kumi.systems/api/interpreter",
   "https://overpass.openstreetmap.ru/api/interpreter"]

/-- The seven amenity values of the Overpass query (and of the `.amenity` checkboxes). -/
def AMENITY_CATEGORIES : List String :=
  ["school", "kindergarten", "college", "university", "music_school", "language_school",
   "driving_school"]

/-- The `center` object of a way or relation in an Overpass response. -/
structure Center where
  lon : Option Rat
  lat : Option Rat
deriving DecidableEq

/-- An element of an Overpass response (`out center tags`). A missing or `null` field is
`none`. -/
structure Element where
  type : String
  id : Nat
  lon : Option Rat
  lat : Option Rat
  center : Option Center
  tags : Option (Assoc JsVal)
deriving DecidableEq

/-- The parsed response body `data`; `elements` may be missing. -/
structure OverpassData where
  elements : Option (List Element)
deriving DecidableEq

/-- The `coords` of an element:
`el.type === 'node' ? [el.lon, el.lat] : [el.center?.lon, el.center?.lat]`. -/
def elementCoords (el : Element) : Option Rat × Option Rat :=
  if el.type = "node" then (el.lon, el.lat)
  else (el.center.bind Center.lon, el.center.bind Center.lat)

/-- The category of an element: `tags.amenity || (tags.school ? 'school' : undefined)`. -/
def elementAmenity (tags : Assoc JsVal) : JsVal :=
  JsVal.or (objGet tags "amenity")
    (if (objGet tags "school").truthy then JsVal.str "school" else JsVal.undefined)

/-- The callback of `(data.elements || []).map(...)`: `none` is the `return null` taken when a
coordinate is `null` or `undefined`. The properties are `{ ...tags, amenity, id }`. -/
def elementToFeature (el : Element) : Option Feature :=
  match elementCoords el with
  | (some lon, some lat) =>
      let tags := el.tags.getD []
      let amenity := elementAmenity tags
      some { coordinates := (lon, lat)
             properties := some (assocSet (assocSet tags "amenity" amenity) "id"
               (JsVal.str (el.type ++ "/" ++ toString el.id))) }
  | _ => none

/-- The collection built from a parsed response:
`(data.elements || []).map(...).filter(Boolean)`. -/
def normalizeElements (data : OverpassData) : FeatureCollection :=
  ⟨(data.elements.getD []).filterMap elementToFeature⟩

/-- A thrown JavaScript error, by its `name` and `message`. -/
structure JsError where
  name : String
  message : String
deriving DecidableEq

/-- The `DOMException` with which `fetch` and `res.json()` reject once the signal is aborted. -/
def abortError : JsError := ⟨"AbortError", "The operation was aborted."⟩

/-- The body of a response as `await res.json()` and the mapping over `data.elements` see it:
either one of them throws (`SyntaxError` on a body that is not JSON, `TypeError` on a value of
the wrong shape, `AbortError` when the signal is aborted while the body is read), or the body
parses to well-formed data. -/
inductive Body where
  | throws (e : JsError) : Body
  | json (data : OverpassData) : Body

/-- What one call `fetch(url, { ..., signal })` does: the promise rejects (transport error, or
`AbortError`), or it resolves to a response with a status and a body. -/
inductive EndpointOutcome where
  | rejected (e : JsError) : EndpointOutcome
  | response (status : Nat) (body : Body) : EndpointOutcome

/-- Embeds `res.ok`: the status is in the range 200 to 299. -/
def statusOk (status : Nat) : Bool := decide (200 ≤ status) && decide (status ≤ 299)

/-- The body of the `try` block for one endpoint: the collection returned, or the error that
becomes `lastErr` (the `HTTP` error set before `continue`, or the error caught). -/
def tryEndpoint : EndpointOutcome → Except JsError FeatureCollection
  | .rejected e => .error e
  | .response status body =>
      if statusOk status then
        match body with
        | .throws e => .error e
        | .json data => .ok (normalizeElements data)
      else .error ⟨"Error", "HTTP " ++ toString status⟩

/-- What a run of `fetchEducationGeoJSON` did: the endpoints `fetch` was called on, in call
order, and the value returned or the error thrown. -/
structure FetchRun where
  contacted : List String
  result : Except JsError FeatureCollection

/-- The loop `for (const url of OVERPASS_ENDPOINTS)` followed by
`throw lastErr || new Error('Overpass failed')`. `outcome url` is what the call to `url` does. -/
def fetchLoop (outcome : String → EndpointOutcome) :
    List String → Option JsError → List String → FetchRun
  | [], lastErr, contacted =>
      ⟨contacted, .error (lastErr.getD ⟨"Error", "Overpass failed"⟩)⟩
  | url :: rest, _, contacted =>
      match tryEndpoint (outcome url) with
      | .ok gj => ⟨contacted ++ [url], .ok gj⟩
      | .error e => fetchLoop outcome rest (some e) (contacted ++ [url])

/-- Embeds `fetchEducationGeoJSON(bbox, signal)`. The bounding box only parameterises the query text
and the signal only acts through the outcomes of the `fetch` calls. -/
def fetchEducationGeoJSON (outcome : String → EndpointOutcome) : FetchRun :=
  fetchLoop outcome OVERPASS_ENDPOINTS none []

/-- Whether a result is a thrown error. -/
def isError {ε α : Type} : Except ε α → Bool
  | .error _ => true
  | .ok _ => false

/-- The outcomes once the signal is aborted during the call to the first endpoint: that call
and every later `fetch` with the same signal reject with `AbortError`. -/
def abortedOutcome : String → EndpointOutcome :=
  fun _ => EndpointOutcome.rejected abortError

/-- A sample response: a way tagged `school=yes` without an amenity tag, and a node without
coordinates. -/
def sampleData : OverpassData :=
  ⟨some [⟨"way", 7, none, none, some ⟨some 35, some 32⟩, some [("school", JsVal.str "yes")]⟩,
         ⟨"node", 8, none, some 32, none, some [("amenity", JsVal.str "college")]⟩]⟩

/-- Sample outcomes: the first endpoint answers `504`, the call to the second is rejected by
the network, the third answers `200` with `sampleData`. -/
def sampleOutcome : String → EndpointOutcome := fun url =>
  if url = "https://overpass-api.de/api/interpreter" then
    EndpointOutcome.response 504 (Body.throws ⟨"SyntaxError", "Unexpected token"⟩)
  else if url = "https://overpass.kumi.systems/api/interpreter" then
    EndpointOutcome.rejected ⟨"TypeError", "Failed to fetch"⟩
  else EndpointOutcome.response 200 (Body.json sampleData)

/-- The identifiers of the features of a collection, in order. -/
def featureIds (gj : FeatureCollection) : List JsVal := gj.features.map featureId

/-- Whether the category tag of a feature is set: `f.properties?.amenity !== undefined`. -/
def categorySet (f : Feature) : Bool := featureAmenity f != JsVal.undefined

/-- A way that carries an empty `amenity` tag and `school=yes`. -/
def emptyAmenityElement : Element :=
  ⟨"way", 1, none, none, some ⟨some 35, some 32⟩,
    some [("amenity", JsVal.str ""), ("school", JsVal.str "yes")]⟩

/-- A response holding one way matched by `way["school"]` whose amenity is not one of the
seven categories. -/
def libraryData : OverpassData :=
  ⟨some [⟨"way", 1, none, none, some ⟨some 35, some 32⟩,
    some [("amenity", JsVal.str "library"), ("school", JsVal.str "yes")]⟩]⟩

/-! ## The renderer and the layer lifecycle -/

/-- Embeds `EDU_SOURCE_ID`. -/
def EDU_SOURCE_ID : String := "education"
/-- Embeds `EDU_CLUSTER_LAYER`. -/
def EDU_CLUSTER_LAYER : String := "edu-clusters"
/-- Embeds `EDU_CLUSTER_COUNT`. -/
def EDU_CLUSTER_COUNT : String := "edu-cluster-count"
/-- Embeds `EDU_POINTS_LAYER`. -/
def EDU_POINTS_LAYER : String := "edu-points"
/-- Embeds `EDU_LABELS_LAYER`. -/
def EDU_LABELS_LAYER : String := "edu-labels"

/-- Modelled from the spec: the renderer `map` of `map-setup.js` (MapLibre), which is not part
of the sources. It holds the data of the source `EDU_SOURCE_ID` when that source exists, the
ids of the existing layers in creation order, and the number of rejected additions (adding a
source or layer whose id already exists is an error). -/
structure Renderer where
  source : Option FeatureCollection
  layers : List String
  errors : Nat
deriving DecidableEq

/-- Modelled from the spec: the renderer call `map.getLayer(id)`, as a truth value. -/
def Renderer.getLayer (r : Renderer) (id : String) : Bool := decide (id ∈ r.layers)

/-- Modelled from the spec: the renderer call `map.addLayer({ id, ... })`. -/
def Renderer.addLayer (r : Renderer) (id : String) : Renderer :=
  if id ∈ r.layers then { r with errors := r.errors + 1 }
  else { r with layers := r.layers ++ [id] }

/-- Modelled from the spec: the renderer call `map.removeLayer(id)`. -/
def Renderer.removeLayer (r : Renderer) (id : String) : Renderer :=
  { r with layers := r.layers.filter (fun l => decide (l ≠ id)) }

/-- Modelled from the spec: the renderer call `map.addSource(EDU_SOURCE_ID, { type:'geojson', data, ... })`. -/
def Renderer.addSource (r : Renderer) (data : FeatureCollection) : Renderer :=
  match r.source with
  | some _ => { r with errors := r.errors + 1 }
  | none => { r with source := some data }

/-- Modelled from the spec: the renderer call `map.removeSource(EDU_SOURCE_ID)`. -/
def Renderer.removeSource (r : Renderer) : Renderer := { r with source := none }

/-- Modelled from the spec: the renderer call `src.setData(data)` on the existing source. -/
def Renderer.setData (r : Renderer) (data : FeatureCollection) : Renderer :=
  match r.source with
  | some _ => { r with source := some data }
  | none => r

/-- A fetch started by the timer callback: the id of its `AbortController`, the cache key of
its view, whether its signal has been aborted and whether its promise has settled. -/
structure Fetch where
  id : Nat
  key : String
  aborted : Bool
  settled : Bool
deriving DecidableEq

/-- The module-level state of `education-layers.js` together with what it reads from its
collaborators: the renderer, the checked `.amenity` checkboxes (`selection`), the flags
`showLabels` and `eduEnabled` of `ui-controls.js`, the zoom of the map, and the fetches
started so far. `loadTimer` tells whether a debounce timer is pending and
`inflightController` names the controller held, if any. -/
structure EduState where
  currentEduGeoJSON : FeatureCollection
  filteredEduGeoJSON : FeatureCollection
  eventsBound : Bool
  loadTimer : Bool
  inflightController : Option Nat
  bboxCache : BboxCache
  map : Renderer
  selection : List String
  showLabels : Bool
  eduEnabled : Bool
  zoom : Rat
  fetches : List Fetch
deriving DecidableEq

/-- The state when the module is loaded: empty collections and cache, nothing rendered. -/
def initialState (selection : List String) : EduState :=
  { currentEduGeoJSON := emptyCollection
    filteredEduGeoJSON := emptyCollection
    eventsBound := false
    loadTimer := false
    inflightController := none
    bboxCache := []
    map := ⟨none, [], 0⟩
    selection := selection
    showLabels := true
    eduEnabled := true
    zoom := 12
    fetches := [] }

/-- Embeds `removeEducationLayers()`. -/
def removeEducationLayers (s : EduState) : EduState :=
  let r := [EDU_LABELS_LAYER, EDU_CLUSTER_COUNT, EDU_CLUSTER_LAYER, EDU_POINTS_LAYER].foldl
    (fun r id => if r.getLayer id then r.removeLayer id else r) s.map
  { s with map := if r.source.isSome then r.removeSource else r }

/-- Embeds `inflightController.abort()`: the signal of the controller `id` is aborted. -/
def abortFetch (fetches : List Fetch) (id : Nat) : List Fetch :=
  fetches.map (fun f => if f.id = id then { f with aborted := true } else f)

/-- Embeds `clearEducationData()`. -/
def clearEducationData (s : EduState) : EduState :=
  let s1 := removeEducationLayers s
  let s2 := { s1 with currentEduGeoJSON := emptyCollection, filteredEduGeoJSON := emptyCollection,
                      loadTimer := false }
  let s3 := match s2.inflightController with
    | some id => { s2 with fetches := abortFetch s2.fetches id, inflightController := none }
    | none => s2
  { s3 with bboxCache := [] }

/-- Embeds `addOrUpdateEduLabels()` on the renderer. -/
def addOrUpdateEduLabels (r : Renderer) : Renderer :=
  let r1 := if r.getLayer EDU_LABELS_LAYER then r.removeLayer EDU_LABELS_LAYER else r
  if r1.source.isSome then r1.addLayer EDU_LABELS_LAYER else r1

/-- Embeds `addEduLayers()` on the renderer. -/
def addEduLayers (r : Renderer) (showLabels : Bool) : Renderer :=
  if r.getLayer EDU_CLUSTER_LAYER then r
  else
    let r1 := ((r.addLayer EDU_CLUSTER_LAYER).addLayer EDU_CLUSTER_COUNT).addLayer EDU_POINTS_LAYER
    if showLabels then addOrUpdateEduLabels r1 else r1

/-- Embeds `applyAmenityFilter()`; `getAmenitySelection()` reads `selection`. -/
def applyAmenityFilter (s : EduState) : EduState :=
  match s.map.source with
  | none => s
  | some _ =>
      let filtered := filterGeoJSONByAmenity s.currentEduGeoJSON s.selection
      let r := s.map.setData filtered
      let r1 :=
        if s.showLabels then
          (if r.getLayer EDU_LABELS_LAYER then r else addOrUpdateEduLabels r)
        else
          (if r.getLayer EDU_LABELS_LAYER then r.removeLayer EDU_LABELS_LAYER else r)
      { s with filteredEduGeoJSON := filtered, map := r1 }

/-- Embeds `ensureEducationLayers(geojson)`; a collection is an object, so the guard
`if (!geojson) return` does not fire. -/
def ensureEducationLayers (s : EduState) (geojson : FeatureCollection) : EduState :=
  let s1 := { s with currentEduGeoJSON := geojson }
  let r := match s1.map.source with
    | some _ => s1.map.setData geojson
    | none => addEduLayers (s1.map.addSource geojson) s1.showLabels
  let s2 := { s1 with map := r, eventsBound := true }
  applyAmenityFilter s2

/-- A `change` event of an `.amenity` checkbox: the checked set becomes `selection`, and the
listener bound by `setupEducationLayers` runs `applyAmenityFilter`. -/
def toggleAmenity (s : EduState) (selection : List String) : EduState :=
  applyAmenityFilter { s with selection := selection }

/-! ## The view coordinator -/

/-- The callback of the debounce timer in `loadEducationForView`, up to its `await`: `key` is
`bboxKey(map.getBounds())` and `now` the clock reading. On a cache hit the cached collection
is handed to `ensureEducationLayers`; on a miss the controller held, if any, is aborted, a new
one is created and a fetch is started with its signal. -/
def timerFires (s : EduState) (key : String) (now : Int) : EduState :=
  let s0 := { s with loadTimer := false }
  match cacheGet s0.bboxCache key now with
  | (c, some cached) => ensureEducationLayers { s0 with bboxCache := c } cached
  | (c, none) =>
      let s1 := { s0 with bboxCache := c }
      let fetches := match s1.inflightController with
        | some old => abortFetch s1.fetches old
        | none => s1.fetches
      let id := s1.fetches.length
      { s1 with inflightController := some id
                fetches := fetches ++ [⟨id, key, false, false⟩] }

/-- Marks the fetch `id` as settled. -/
def settleFetch (fetches : List Fetch) (id : Nat) : List Fetch :=
  fetches.map (fun f => if f.id = id then { f with settled := true } else f)

/-- The fetch `id`, if it was started and has not settled. -/
def pendingFetch (s : EduState) (id : Nat) : Option Fetch :=
  s.fetches.find? (fun f => f.id = id && !f.settled)

/-- The rest of the timer callback once `await fetchEducationGeoJSON(...)` of the fetch `id`
returns `gj`: `cacheSet(key, gj)`, `ensureEducationLayers(gj)`, then the `finally` block. -/
def fetchResolves (s : EduState) (id : Nat) (gj : FeatureCollection) (now : Int) : EduState :=
  match pendingFetch s id with
  | none => s
  | some f =>
      let s1 := { s with bboxCache := cacheSet s.bboxCache f.key gj now }
      let s2 := ensureEducationLayers s1 gj
      { s2 with inflightController := none, fetches := settleFetch s2.fetches id }

/-- The rest of the timer callback once `await fetchEducationGeoJSON(...)` of the fetch `id`
throws: the `catch` block only notifies, then the `finally` block runs. -/
def fetchRejects (s : EduState) (id : Nat) (_err : JsError) : EduState :=
  match pendingFetch s id with
  | none => s
  | some _ => { s with inflightController := none, fetches := settleFetch s.fetches id }

/-- A step of the coordinator. -/
inductive CoordEvent where
  | timerFires (key : String) (now : Int) : CoordEvent
  | fetchResolves (id : Nat) (gj : FeatureCollection) (now : Int) : CoordEvent
  | fetchRejects (id : Nat) (err : JsError) : CoordEvent

/-- The state after one step. -/
def CoordEvent.step (s : EduState) : CoordEvent → EduState
  | .timerFires key now => SchoolMap.timerFires s key now
  | .fetchResolves id gj now => SchoolMap.fetchResolves s id gj now
  | .fetchRejects id err => SchoolMap.fetchRejects s id err

/-- The state after a sequence of steps. -/
def runCoord (s : EduState) (evs : List CoordEvent) : EduState :=
  evs.foldl CoordEvent.step s

/-- The fetches that are outstanding and whose signal has not been aborted. -/
def liveFetches (s : EduState) : List Fetch :=
  s.fetches.filter (fun f => !f.settled && !f.aborted)

/-- A collection with one feature of category `'school'`. -/
def schoolCollection : FeatureCollection :=
  ⟨[⟨(35, 32), some [("amenity", JsVal.str "school"), ("id", JsVal.str "node/1")]⟩]⟩

/-- A collection with one feature of category `'college'`. -/
def collegeCollection : FeatureCollection :=
  ⟨[⟨(34, 31), some [("amenity", JsVal.str "college"), ("id", JsVal.str "node/2")]⟩]⟩

/-- A reachable state without data source: `'school'` is checked, `schoolCollection` is
rendered, then the layers are removed (as when the layer is switched off). -/
def removedState : EduState :=
  removeEducationLayers (ensureEducationLayers (initialState ["school"]) schoolCollection)

/-- Steps in which an evaluation served from the cache overtakes a pending fetch: the view
`"kB"` is fetched and cached; a fetch (id 1) starts for the view `"kA"`; the view returns to
`"kB"` and is served by a cache hit; then the fetch for `"kA"` resolves. -/
def staleAfterCacheHit : List CoordEvent :=
  [CoordEvent.timerFires "kB" 0,
   CoordEvent.fetchResolves 0 collegeCollection 1,
   CoordEvent.timerFires "kA" 2,
   CoordEvent.timerFires "kB" 3,
   CoordEvent.fetchResolves 1 schoolCollection 4]

/-- Steps in which the `finally` block of an aborted fetch clears the controller of its
successor: a fetch (id 0) starts for `"k1"`; the timer fires for `"k2"`, aborting it and
starting fetch 1; fetch 0 rejects with `AbortError`; the timer fires for `"k3"` and starts
fetch 2. -/
def clobberedController : List CoordEvent :=
  [CoordEvent.timerFires "k1" 0,
   CoordEvent.timerFires "k2" 1,
   CoordEvent.fetchRejects 0 abortError,
   CoordEvent.timerFires "k3" 2]

/-- The steps of `clobberedController`, after which the fetch for `"k3"` resolves and then
the older fetch for `"k2"` resolves. -/
def staleAfterClobber : List CoordEvent :=
  clobberedController ++
    [CoordEvent.fetchResolves 2 collegeCollection 3,
     CoordEvent.fetchResolves 1 schoolCollection 4]

/-! ## The cache key -/

/-- The bounds of the viewport as `map.getBounds()` reports them, in degrees. -/
structure LngLatBounds where
  south : Rat
  west : Rat
  north : Rat
  east : Rat
deriving DecidableEq

/-- A number of the language other than `NaN`: a finite number, given by its exact value
(the two zeros are one value, both are written `0` in a string), `Infinity` or `-Infinity`. -/
inductive JsNumber where
  | finite (q : Rat) : JsNumber
  | posInf : JsNumber
  | negInf : JsNumber
deriving DecidableEq

/-- The integer nearest to `z`, a tie going to the even one: the rounding of IEEE 754
arithmetic. -/
def roundHalfEven (z : Rat) : Int :=
  if z - ⌊z⌋ < 1 / 2 then ⌊z⌋
  else if 1 / 2 < z - ⌊z⌋ then ⌊z⌋ + 1
  else if ⌊z⌋ % 2 = 0 then ⌊z⌋ else ⌊z⌋ + 1

/-- The exponent of the spacing of the binary64 numbers around `q`: `e - 52` when
`2^e ≤ |q| < 2^(e+1)`, and `-1074`, the spacing of the subnormal numbers, below `2^(-1022)`. -/
def quantumExponent (q : Rat) : Int := max (Int.log 2 |q|) (-1022) - 52

/-- The exact value `q` rounded to binary64 with an unbounded exponent range upwards: the
multiple of the spacing nearest to `q`, a tie going to the even multiple. -/
def roundValue (q : Rat) : Rat :=
  (roundHalfEven (q / (2 : Rat) ^ quantumExponent q) : Rat) * (2 : Rat) ^ quantumExponent q

/-- The binary64 number that an arithmetic operation of the language returns when its exact
result is `q`: `roundValue q`, or an infinity when that is `2^1024` or more in magnitude. -/
def roundBinary64 (q : Rat) : JsNumber :=
  if (2 : Rat) ^ 1024 ≤ roundValue q then JsNumber.posInf
  else if roundValue q ≤ -(2 : Rat) ^ 1024 then JsNumber.negInf
  else JsNumber.finite (roundValue q)

/-- The finite number that a decimal literal of value `q` denotes (far below the overflow
threshold): the binary64 number nearest to `q`. -/
def numberLiteral (q : Rat) : Rat := roundValue q

/-- Embeds `Math.round(x)` on a finite number `x`: the integer nearest to `x`, a tie going
upwards. The language defines the result exactly, without intermediate rounding. -/
def mathRound (x : Rat) : Int := ⌊x + 1 / 2⌋

/-- Embeds `Math.round(x)` on a number: the infinities are returned unchanged. -/
def JsNumber.round : JsNumber → JsNumber
  | .finite q => .finite (mathRound q)
  | .posInf => .posInf
  | .negInf => .negInf

/-- Embeds `x / c` for a positive finite constant `c`, in binary64. -/
def JsNumber.over (x : JsNumber) (c : Rat) : JsNumber :=
  match x with
  | .finite q => roundBinary64 (q / c)
  | .posInf => .posInf
  | .negInf => .negInf

/-- The helper `r = x => Math.round(x * 200) / 200` of `bboxKey` on a finite number `x`: the
product and the quotient are rounded to binary64 as the language does. -/
def roundCorner (x : Rat) : JsNumber := ((roundBinary64 (x * 200)).round).over 200

/-- The rounded zoom `Math.round(map.getZoom() * 10) / 10` of `bboxKey`, in binary64. -/
def roundZoom (zoom : Rat) : JsNumber := ((roundBinary64 (zoom * 10)).round).over 10

/-- Embeds `bboxKey(b)` with `map.getZoom() = zoom`. The template literal writes the five
numbers `z`, `r(south)`, `r(west)`, `r(north)`, `r(east)` in this order, separated by `:` and
`,`; the conversion of a number to a string gives different strings for different values of
`JsNumber`, so two keys are the same string exactly when these five numbers agree. The key
is kept as that list. -/
def bboxKey (zoom : Rat) (b : LngLatBounds) : List JsNumber :=
  [roundZoom zoom, roundCorner b.south, roundCorner b.west, roundCorner b.north,
   roundCorner b.east]

/-- Every corner of the bounds is at most `limit` in magnitude. -/
def LngLatBounds.within (b : LngLatBounds) (limit : Rat) : Prop :=
  |b.south| ≤ limit ∧ |b.west| ≤ limit ∧ |b.north| ≤ limit ∧ |b.east| ≤ limit

/-- The bounds `{s:31.0, w:34.7, n:31.1, e:34.9}`, each corner the number its literal
denotes. -/
def sampleBounds : LngLatBounds :=
  ⟨numberLiteral 31, numberLiteral 34.7, numberLiteral 31.1, numberLiteral 34.9⟩

/-- The bounds `b` moved by `d` degrees in latitude and longitude: each corner is the
binary64 sum of the corner of `b` and `d` (far below the overflow threshold). -/
def shiftBounds (b : LngLatBounds) (d : Rat) : LngLatBounds :=
  ⟨roundValue (b.south + d), roundValue (b.west + d), roundValue (b.north + d),
   roundValue (b.east + d)⟩

/-- The bounds with the given literal as south corner and the other corners of
`sampleBounds`. -/
def nearTieBounds (south : Rat) : LngLatBounds :=
  ⟨numberLiteral south, numberLiteral 34.7, numberLiteral 31.1, numberLiteral 34.9⟩

/-- A cache holding an entry of timestamp 10 under each of the twenty-five sample keys. -/
def fullCache : BboxCache := sampleKeys.map (fun k => (k, ⟨emptyCollection, 10⟩))

/-- A cache of twenty-five entries whose oldest one, of timestamp 0, is stored under the empty
key; the others have timestamp 1. -/
def emptyKeyCache : BboxCache :=
  ("", ⟨emptyCollection, 0⟩) :: (sampleKeys.take 24).map (fun k => (k, ⟨emptyCollection, 1⟩))

/-! ## Loading for the view, the controls and the base style -/

/-- Embeds `loadEducationForView()` up to `setTimeout`: the two guards are tested when the
function is called; when both pass, the pending timer is cleared and a new one is set. A
guard that fails returns before `clearTimeout(loadTimer)`, so a timer set earlier stays
pending. -/
def loadEducationForView (s : EduState) : EduState :=
  if !s.eduEnabled then removeEducationLayers s
  else if s.zoom < 10 then removeEducationLayers s
  else { s with loadTimer := true }

/-- The set `ALLOWED_PROJECTIONS` of `map-setup.js` and `hash-sync.js`. -/
def ALLOWED_PROJECTIONS : List String := ["mercator", "globe"]

/-- The own keys of the object `STYLES` of `ui-controls.js`; the `[data-style]` buttons carry
these names. -/
def STYLE_NAMES : List String := ["standard", "satellite", "osm"]

/-- The names of the properties every plain object inherits from `Object.prototype`: for
these `STYLES[name]` is truthy too. -/
def OBJECT_PROTOTYPE_KEYS : List String :=
  ["constructor", "__proto__", "hasOwnProperty", "isPrototypeOf", "propertyIsEnumerable",
   "toLocaleString", "toString", "valueOf", "__defineGetter__", "__defineSetter__",
   "__lookupGetter__", "__lookupSetter__"]

/-- The zoom limit `state.minZoom` of `map-setup.js`. -/
def MIN_ZOOM : Rat := 6

/-- The zoom limit `state.maxZoom = 19.2` of `map-setup.js`. -/
def MAX_ZOOM : Rat := mkRat 96 5

/-- The conversions between numbers and strings of the JavaScript runtime, taken as
parameters: `parseFloat s` is the number `parseFloat(s)` when `isFinite` holds of it and
`none` otherwise, and `toFixed x d` is the string `x.toFixed(d)`. -/
structure Platform where
  parseFloat : String → Option Rat
  toFixed : Rat → Nat → String

/-- The state of the page: the module state of `education-layers.js` (with `eduEnabled`,
`showLabels` and the zoom of the map), the centre of the map, `state.currentProjection` of
`map-setup.js`, the projection last applied to the map, whether the style is loaded, the
projections whose `apply` waits for the next `idle` event, the number of `style.load`
handlers registered by `setBase`, the `[data-style]` button that is `active`, the `active`
class of the two toggle buttons, and the location hash. The hash is `none` when
`location.hash` is empty and otherwise the entries `new URLSearchParams(location.hash.slice(1))`
yields. -/
structure AppState where
  edu : EduState
  center : Rat × Rat
  currentProjection : String
  mapProjection : String
  styleLoaded : Bool
  idleCallbacks : List String
  styleLoadCallbacks : Nat
  activeStyle : Option String
  toggleLabelsActive : Bool
  toggleEduActive : Bool
  locationHash : Option (Assoc String)
deriving DecidableEq

/-- The page after `setupMap()`, `setupControls()` and `setupEducationLayers()`: centre
`[34.78, 31.8]`, zoom `Math.max(5, MIN_ZOOM)`, projection `mercator`, the standard style. -/
def initialApp (selection : List String) : AppState :=
  { edu := { initialState selection with zoom := 6 }
    center := (mkRat 3478 100, mkRat 318 10)
    currentProjection := "mercator"
    mapProjection := "mercator"
    styleLoaded := true
    idleCallbacks := []
    styleLoadCallbacks := 0
    activeStyle := some "standard"
    toggleLabelsActive := true
    toggleEduActive := true
    locationHash := none }

/-- Embeds `getProjectionMode()`. -/
def getProjectionMode (a : AppState) : String := a.currentProjection

/-- The closure `apply` of `setProjectionMode`: `map.setProjection(proj)`, falling back to
`mercator` when the renderer rejects the value (it accepts the allowed projections). -/
def applyProjection (a : AppState) (proj : String) : AppState :=
  { a with mapProjection := if proj ∈ ALLOWED_PROJECTIONS then proj else "mercator" }

/-- Embeds `setProjectionMode(mode)`: `state.currentProjection` is not assigned. -/
def setProjectionMode (a : AppState) (mode : String) : AppState :=
  let proj := if mode = "" then "mercator" else mode
  if !a.styleLoaded then { a with idleCallbacks := a.idleCallbacks ++ [proj] }
  else applyProjection a proj

/-- The `idle` event of the map: the deferred `apply` closures run, in order. -/
def onIdle (a : AppState) : AppState :=
  { (a.idleCallbacks.foldl applyProjection a) with idleCallbacks := [] }

/-- Embeds `setShowLabelsState(v)`. -/
def setShowLabelsState (a : AppState) (v : Bool) : AppState :=
  let e := { a.edu with showLabels := v }
  let r := if v then addOrUpdateEduLabels e.map
    else if e.map.getLayer EDU_LABELS_LAYER then e.map.removeLayer EDU_LABELS_LAYER else e.map
  { a with edu := { e with map := r }, toggleLabelsActive := v }

/-- Embeds `setEduEnabledState(v)`. -/
def setEduEnabledState (a : AppState) (v : Bool) : AppState :=
  let e := { a.edu with eduEnabled := v }
  { a with edu := if !v then removeEducationLayers e else loadEducationForView e
           toggleEduActive := v }

/-- Embeds `setBase(name)`: nothing happens when `STYLES[name]` is falsy; otherwise
`map.setStyle` replaces the style, which destroys every source and layer, the button of that
name (if any) becomes the active one, and a `style.load` handler is registered. -/
def setBase (a : AppState) (name : String) : AppState :=
  if name ∈ STYLE_NAMES ∨ name ∈ OBJECT_PROTOTYPE_KEYS then
    { a with edu := { a.edu with map := { a.edu.map with source := none, layers := [] } }
             styleLoaded := false
             activeStyle := if name ∈ STYLE_NAMES then some name else none
             styleLoadCallbacks := a.styleLoadCallbacks + 1 }
  else a

/-- Embeds `writeHash()`: whatever the hash was, afterwards it is the serialisation of the
seven parameters. -/
def writeHash (pf : Platform) (a : AppState) : AppState :=
  let safeProj := if getProjectionMode a ∈ ALLOWED_PROJECTIONS then getProjectionMode a
    else "mercator"
  let params : Assoc String :=
    [("lng", pf.toFixed a.center.1 5),
     ("lat", pf.toFixed a.center.2 5),
     ("z", pf.toFixed a.edu.zoom 2),
     ("proj", safeProj),
     ("base", a.activeStyle.getD "standard"),
     ("labels", if a.toggleLabelsActive then "1" else "0"),
     ("edu", if a.toggleEduActive then "1" else "0")]
  { a with locationHash := some params }

/-- The part of the handler `setBase` registers with `map.once('style.load', ...)` that
restores the education layers: `if (eduEnabled) ensureEducationLayers(getCurrentEdu())`,
`if (showLabels) addOrUpdateEduLabels()`, `if (eduEnabled) loadEducationForView()`. -/
def restoreEducation (e : EduState) : EduState :=
  let e1 := if e.eduEnabled then ensureEducationLayers e e.currentEduGeoJSON else e
  let e2 := if e1.showLabels then { e1 with map := addOrUpdateEduLabels e1.map } else e1
  if e2.eduEnabled then loadEducationForView e2 else e2

/-- The handler `setBase` registers with `map.once('style.load', ...)`: the projection
`getProjectionMode()` is re-applied (a rejected value is ignored by the `try`), the education
layers are restored, and `emitStateChanged()` of `events.js` dispatches the `statechanged`
event, which `main.js` handles with `writeHash`. -/
def baseStyleLoaded (pf : Platform) (a : AppState) : AppState :=
  let a1 := if getProjectionMode a ∈ ALLOWED_PROJECTIONS
    then applyProjection a (getProjectionMode a) else a
  writeHash pf { a1 with edu := restoreEducation a1.edu }

/-- The `style.load` event of the map: the handler of `setupMap` re-applies the projection
`getProjectionMode()` when it is an allowed one, then the handlers registered by `setBase`
run once each. -/
def onStyleLoad (pf : Platform) (a : AppState) : AppState :=
  let a0 := { a with styleLoaded := true }
  let a1 := if getProjectionMode a0 ∈ ALLOWED_PROJECTIONS
    then applyProjection a0 (getProjectionMode a0) else a0
  Nat.iterate (baseStyleLoaded pf) a1.styleLoadCallbacks { a1 with styleLoadCallbacks := 0 }

/-- Modelled from the spec: the renderer call `map.jumpTo({ center, zoom })`, which moves the
view and keeps the zoom within the zoom limits. -/
def jumpTo (a : AppState) (center : Rat × Rat) (zoom : Rat) : AppState :=
  { a with center := center, edu := { a.edu with zoom := max MIN_ZOOM (min MAX_ZOOM zoom) } }

/-- The ASCII lower-casing of a string; on the names of the allowed projections it agrees
with `toLowerCase()`. -/
def asciiLower (s : String) : String := ⟨s.data.map Char.toLower⟩

/-- The argument `ALLOWED_PROJECTIONS.has(proj) ? proj : 'mercator'` that `readHash` passes
to `setProjectionMode`, with `proj = (p.get('proj') || 'mercator').toLowerCase()`. -/
def hashProjection (p : Assoc String) : String :=
  let proj := asciiLower (match assocGet p "proj" with
    | some v => if v = "" then "mercator" else v
    | none => "mercator")
  if proj ∈ ALLOWED_PROJECTIONS then proj else "mercator"

/-- Embeds `readHash()`. -/
def readHash (pf : Platform) (a : AppState) : AppState :=
  match a.locationHash with
  | none => a
  | some p =>
      let lng := (assocGet p "lng").bind pf.parseFloat
      let lat := (assocGet p "lat").bind pf.parseFloat
      let z := (assocGet p "z").bind pf.parseFloat
      let a1 := match lng, lat, z with
        | some lng, some lat, some z => jumpTo a (lng, lat) z
        | _, _, _ => a
      let a2 := match assocGet p "base" with
        | some base => if base = "" then a1 else setBase a1 base
        | none => a1
      let proj := asciiLower (match assocGet p "proj" with
        | some v => if v = "" then "mercator" else v
        | none => "mercator")
      let a3 := setProjectionMode a2 (if proj ∈ ALLOWED_PROJECTIONS then proj else "mercator")
      let a4 := setShowLabelsState a3 (decide (assocGet p "labels" ≠ some "0"))
      setEduEnabledState a4 (decide (assocGet p "edu" ≠ some "0"))

/-- An event of the page. -/
inductive AppOp where
  | ensure (gj : FeatureCollection) : AppOp
  | removeLayers : AppOp
  | clearData : AppOp
  | toggleAmenity (selection : List String) : AppOp
  | updateLabels : AppOp
  | loadForView : AppOp
  | coord (e : CoordEvent) : AppOp
  | setShowLabels (v : Bool) : AppOp
  | setEduEnabled (v : Bool) : AppOp
  | setBase (name : String) : AppOp
  | styleLoad : AppOp
  | idle : AppOp
  | moveTo (center : Rat × Rat) (zoom : Rat) : AppOp
  | setHash (hash : Option (Assoc String)) : AppOp
  | readHash : AppOp
  | writeHash : AppOp

/-- The page after one event. -/
def AppOp.run (pf : Platform) (a : AppState) : AppOp → AppState
  | .ensure gj => { a with edu := ensureEducationLayers a.edu gj }
  | .removeLayers => { a with edu := removeEducationLayers a.edu }
  | .clearData => { a with edu := clearEducationData a.edu }
  | .toggleAmenity selection => { a with edu := SchoolMap.toggleAmenity a.edu selection }
  | .updateLabels => { a with edu := { a.edu with map := addOrUpdateEduLabels a.edu.map } }
  | .loadForView => { a with edu := loadEducationForView a.edu }
  | .coord e => { a with edu := e.step a.edu }
  | .setShowLabels v => setShowLabelsState a v
  | .setEduEnabled v => setEduEnabledState a v
  | .setBase name => SchoolMap.setBase a name
  | .styleLoad => onStyleLoad pf a
  | .idle => onIdle a
  | .moveTo center zoom => jumpTo a center zoom
  | .setHash hash => { a with locationHash := hash }
  | .readHash => SchoolMap.readHash pf a
  | .writeHash => SchoolMap.writeHash pf a

/-- The page after a sequence of events. -/
def runApp (pf : Platform) (a : AppState) (ops : List AppOp) : AppState :=
  ops.foldl (AppOp.run pf) a

/-- A finite table of the number conversions, agreeing with `parseFloat` and `toFixed` on the
numbers of the sample hash. -/
def samplePlatform : Platform :=
  { parseFloat := fun s =>
      if s = "34.78000" then some (mkRat 3478 100)
      else if s = "31.80000" then some (mkRat 318 10)
      else if s = "8.00" then some 8
      else none
    toFixed := fun x d =>
      if x = mkRat 3478 100 ∧ d = 5 then "34.78000"
      else if x = mkRat 318 10 ∧ d = 5 then "31.80000"
      else if x = 8 ∧ d = 2 then "8.00"
      else "6.00" }

/-- Events in which the layer is switched off while the debounce timer is pending: the view
settles at zoom 12 and `loadEducationForView` sets the timer; the layer is switched off; the
timer fires; the fetch it starts resolves. -/
def disabledWhilePending : List AppOp :=
  [AppOp.moveTo (mkRat 3478 100, mkRat 318 10) 12,
   AppOp.loadForView,
   AppOp.setEduEnabled false,
   AppOp.coord (CoordEvent.timerFires "k" 0),
   AppOp.coord (CoordEvent.fetchResolves 0 schoolCollection 1)]

/-- Events in which the map is zoomed out while the debounce timer is pending: the timer is
set at zoom 12; the view moves to zoom 8, where `loadEducationForView` returns at its zoom
guard; the timer fires. -/
def zoomedOutWhilePending : List AppOp :=
  [AppOp.moveTo (mkRat 3478 100, mkRat 318 10) 12,
   AppOp.loadForView,
   AppOp.moveTo (mkRat 3478 100, mkRat 318 10) 8,
   AppOp.loadForView,
   AppOp.coord (CoordEvent.timerFires "k" 0)]

/-- The ids of the four education layers. -/
def eduLayerIds : List String :=
  [EDU_LABELS_LAYER, EDU_CLUSTER_COUNT, EDU_CLUSTER_LAYER, EDU_POINTS_LAYER]

/-- The invariant of the renderer: without the education source there is no education layer;
no layer id occurs twice; no addition has been rejected; and with the source the cluster,
cluster-count and point layers exist. -/
def RendererInv (r : Renderer) : Prop :=
  (r.source = none → ∀ id ∈ eduLayerIds, id ∉ r.layers)
    ∧ r.layers.Nodup
    ∧ r.errors = 0
    ∧ (r.source ≠ none →
        EDU_CLUSTER_LAYER ∈ r.layers ∧ EDU_CLUSTER_COUNT ∈ r.layers
          ∧ EDU_POINTS_LAYER ∈ r.layers)

/-- The hash `lng=34.78000&lat=31.80000&z=8.00&proj=globe&base=osm&labels=0&edu=1`, as the
entries of its `URLSearchParams`. -/
def sampleHash : Assoc String :=
  [("lng", "34.78000"), ("lat", "31.80000"), ("z", "8.00"), ("proj", "globe"),
   ("base", "osm"), ("labels", "0"), ("edu", "1")]

/-- The initial page with the location hash `sampleHash`. -/
def sampleHashPage : AppState :=
  { initialApp AMENITY_CATEGORIES with locationHash := some sampleHash }

/-- A page on which the labels and the education layer have been switched off and the globe
projection applied, with the location hash `#x=1`, which carries no recognised key. -/
def switchedOffPage : AppState :=
  { applyProjection
      (setEduEnabledState (setShowLabelsState (initialApp AMENITY_CATEGORIES) false) false)
      "globe" with locationHash := some [("x", "1")] }

/-! ## The security helpers and the popup -/

/-- Embeds `s.replaceAll(c, r)` for a pattern of one character `c` and a replacement `r`
without `$`: every occurrence of `c` becomes `r`. -/
def replaceAllChar (c : Char) (r : String) (s : String) : String :=
  ⟨s.data.flatMap (fun ch => if ch = c then r.data else [ch])⟩

/-- Embeds `esc(s)` on a string: the five `replaceAll` calls, in the order of the source. -/
def esc (s : String) : String :=
  replaceAllChar '\'' "&#39;"
    (replaceAllChar '"' "&quot;"
      (replaceAllChar '>' "&gt;"
        (replaceAllChar '<' "&lt;"
          (replaceAllChar '&' "&amp;" s))))

/-- The white space of JavaScript (`trim()` and `\s`): the characters `WhiteSpace` and
`LineTerminator` of the language. -/
def isJsWhitespace (c : Char) : Bool :=
  [9, 10, 11, 12, 13, 32, 160, 5760, 8232, 8233, 8239, 8287, 12288, 65279].contains c.toNat
    || (decide (8192 ≤ c.toNat) && decide (c.toNat ≤ 8202))

/-- Embeds `s.trim()`. -/
def jsTrim (s : String) : String :=
  ⟨((s.data.dropWhile isJsWhitespace).reverse.dropWhile isJsWhitespace).reverse⟩

/-- Embeds `s.startsWith(t)`. -/
def jsStartsWith (s t : String) : Bool := t.data.isPrefixOf s.data

/-- The class `\w` of a regular expression without the `u` flag: an ASCII letter, digit or
underscore (the flag `i` adds no character to it). -/
def isWordChar (c : Char) : Bool := c.isAlphanum || c == '_'

/-- Embeds `/^\w+:/i.test(u)`: a non-empty run of word characters followed by a colon at the
start of `u`. -/
def hasScheme (u : String) : Bool :=
  !(u.data.takeWhile isWordChar).isEmpty
    && (u.data.dropWhile isWordChar).head? == some ':'

/-- Embeds `safeUrl(u)` on a string. -/
def safeUrl (u : String) : String :=
  let u := jsTrim u
  if u = "" then ""
  else if jsStartsWith u "http://" || jsStartsWith u "https://" then u
  else if hasScheme u then ""
  else "https://" ++ u

/-- Embeds `safeTel(t)` on a string: the characters outside `[\d+\-()\s]` are removed. -/
def safeTel (t : String) : String :=
  jsTrim ⟨(jsTrim t).data.filter (fun c =>
    c.isDigit || c == '+' || c == '-' || c == '(' || c == ')' || isJsWhitespace c)⟩

/-- The `length` of a JavaScript string: the number of UTF-16 code units. -/
def utf16Length (s : String) : Nat :=
  (s.data.map (fun c => if c.toNat < 65536 then 1 else 2)).sum

/-- Embeds `safeEmail(e)` on a string. -/
def safeEmail (e : String) : String :=
  let e := jsTrim e
  if !e.data.contains '@' || decide (utf16Length e > 200) then "" else e

/-- Embeds `String(v)` for a primitive value. -/
def jsToString : JsVal → String
  | .undefined => "undefined"
  | .null => "null"
  | .bool true => "true"
  | .bool false => "false"
  | .num n => toString n
  | .str s => s

/-- The string a helper with the default parameter `s = ''` works on: `''` for `undefined`,
`String(v)` otherwise. -/
def argString : JsVal → String
  | .undefined => ""
  | v => jsToString v

/-- The concatenation of a list of strings, as `rows.join('')`. -/
def joinStrings (l : List String) : String := l.foldr (fun a b => a ++ b) ""

/-- The `nameRaw` of `formatEduPopup`: the first truthy one of the name properties, else a
text built from the city, else `'Education place'`. -/
def popupName (p : Assoc JsVal) : JsVal :=
  (["name:he", "name", "official_name:he", "official_name", "short_name:he", "short_name",
    "alt_name:he", "alt_name", "operator", "brand", "ref", "addr:housename"].map
      (objGet p)).foldr JsVal.or
    (if (objGet p "addr:city").truthy
      then JsVal.str ("School in " ++ jsToString (objGet p "addr:city"))
      else JsVal.str "Education place")

/-- The `addressText` of `formatEduPopup`, from the escaped street, house number and city. -/
def addressText (street house city : String) : String :=
  String.intercalate " " ([street, house].filter (fun x => x != ""))
    ++ (if city != "" then (if street != "" || house != "" then ", " else "") ++ city
        else "")

/-- The `rows` of `formatEduPopup`, in the order in which they are pushed. -/
def popupRows (p : Assoc JsVal) : List String :=
  let typeRaw := (objGet p "amenity").or ((objGet p "education").or (JsVal.str ""))
  let cityRaw := (objGet p "addr:city").or (JsVal.str "")
  let streetRaw := (objGet p "addr:street").or (JsVal.str "")
  let houseRaw := (objGet p "addr:housenumber").or (JsVal.str "")
  let operatorRaw := (objGet p "operator").or (JsVal.str "")
  let phoneRaw := (objGet p "phone").or ((objGet p "contact:phone").or (JsVal.str ""))
  let websiteRaw := (objGet p "website").or ((objGet p "contact:website").or (JsVal.str ""))
  let hoursRaw := (objGet p "opening_hours").or (JsVal.str "")
  let emailRaw := (objGet p "email").or ((objGet p "contact:email").or (JsVal.str ""))
  let address := addressText (esc (argString streetRaw)) (esc (argString houseRaw))
    (esc (argString cityRaw))
  let phone := safeTel (argString phoneRaw)
  let email := safeEmail (argString emailRaw)
  let website := safeUrl (argString websiteRaw)
  (if typeRaw.truthy then ["<div><b>Type:</b> " ++ esc (argString typeRaw) ++ "</div>"]
    else [])
  ++ (if address != "" then ["<div><b>Address:</b> " ++ address ++ "</div>"] else [])
  ++ (if operatorRaw.truthy
      then ["<div><b>Operator:</b> " ++ esc (argString operatorRaw) ++ "</div>"] else [])
  ++ (if phone != ""
      then ["<div><b>Phone:</b> <a href=\"tel:" ++ esc phone ++ "\">" ++ esc phone
        ++ "</a></div>"] else [])
  ++ (if email != ""
      then ["<div><b>Email:</b> <a href=\"mailto:" ++ esc email ++ "\">" ++ esc email
        ++ "</a></div>"] else [])
  ++ (if website != ""
      then ["<div><b>Website:</b> <a href=\"" ++ esc website
        ++ "\" target=\"_blank\" rel=\"noopener\">" ++ esc website ++ "</a></div>"] else [])
  ++ (if hoursRaw.truthy then ["<div><b>Hours:</b> " ++ esc (argString hoursRaw) ++ "</div>"]
      else [])

/-- Embeds `formatEduPopup(p)`. -/
def formatEduPopup (p : Assoc JsVal) : String :=
  "<div style=\"min-width:240px;direction:rtl\">\n    <div style=\"font-weight:700;margin-bottom:6px\">"
    ++ esc (argString (popupName p)) ++ "</div>\n    "
    ++ (if joinStrings (popupRows p) != "" then joinStrings (popupRows p)
        else "<div>No additional data</div>")
    ++ "\n  </div>"

/-- The text `esc` puts for one character, read off its five replacements. -/
def escChar (c : Char) : List Char :=
  if c = '&' then "&amp;".data
  else if c = '<' then "&lt;".data
  else if c = '>' then "&gt;".data
  else if c = '"' then "&quot;".data
  else if c = '\'' then "&#39;".data
  else [c]

/-- What follows the ampersand in the five entities `&amp;`, `&lt;`, `&gt;`, `&quot;`,
`&#39;`. -/
def entityTails : List (List Char) :=
  ["amp;".data, "lt;".data, "gt;".data, "quot;".data, "#39;".data]

/-- The check that a text holds none of `<`, `>`, `"`, `'` and holds `&` only as the first
character of one of the five entities. -/
def wellEscaped : List Char → Bool
  | [] => true
  | c :: rest =>
      (if c = '&' then entityTails.any (fun e => e.isPrefixOf rest)
        else !(c == '<' || c == '>' || c == '"' || c == '\''))
      && wellEscaped rest

/-- A piece of the popup: text of the fixed template, or an interpolated value. -/
inductive Seg where
  | lit (t : String) : Seg
  | val (v : String) : Seg

/-- The text of a piece. -/
def Seg.text : Seg → String
  | .lit t => t
  | .val v => v

/-- The texts of the fixed template of `formatEduPopup`. -/
def TEMPLATE_PIECES : List String :=
  ["<div style=\"min-width:240px;direction:rtl\">\n    <div style=\"font-weight:700;margin-bottom:6px\">",
   "</div>\n    ", "\n  </div>", "<div>No additional data</div>",
   "<div><b>Type:</b> ", "</div>", "<div><b>Address:</b> ", " ", ", ",
   "<div><b>Operator:</b> ", "<div><b>Phone:</b> <a href=\"tel:", "\">", "</a></div>",
   "<div><b>Email:</b> <a href=\"mailto:", "<div><b>Website:</b> <a href=\"",
   "\" target=\"_blank\" rel=\"noopener\">", "<div><b>Hours:</b> "]

/-- A piece is in order when it is a text of the fixed template or an output of `esc`. -/
def SegOk : Seg → Prop
  | .lit t => t ∈ TEMPLATE_PIECES
  | .val v => ∃ x, v = esc x

/-- The pieces of `addressText`. -/
def addressSegs (street house city : String) : List Seg :=
  (if street != "" then
      (if house != "" then [Seg.val street, Seg.lit " ", Seg.val house] else [Seg.val street])
    else (if house != "" then [Seg.val house] else []))
  ++ (if city != "" then
        (if street != "" || house != "" then [Seg.lit ", "] else []) ++ [Seg.val city]
      else [])

/-- The pieces of the rows of the popup, row by row as in `popupRows`. -/
def rowsSegs (p : Assoc JsVal) : List Seg :=
  let typeRaw := (objGet p "amenity").or ((objGet p "education").or (JsVal.str ""))
  let cityRaw := (objGet p "addr:city").or (JsVal.str "")
  let streetRaw := (objGet p "addr:street").or (JsVal.str "")
  let houseRaw := (objGet p "addr:housenumber").or (JsVal.str "")
  let operatorRaw := (objGet p "operator").or (JsVal.str "")
  let phoneRaw := (objGet p "phone").or ((objGet p "contact:phone").or (JsVal.str ""))
  let websiteRaw := (objGet p "website").or ((objGet p "contact:website").or (JsVal.str ""))
  let hoursRaw := (objGet p "opening_hours").or (JsVal.str "")
  let emailRaw := (objGet p "email").or ((objGet p "contact:email").or (JsVal.str ""))
  let address := addressText (esc (argString streetRaw)) (esc (argString houseRaw))
    (esc (argString cityRaw))
  let phone := safeTel (argString phoneRaw)
  let email := safeEmail (argString emailRaw)
  let website := safeUrl (argString websiteRaw)
  (if typeRaw.truthy
    then [Seg.lit "<div><b>Type:</b> ", Seg.val (esc (argString typeRaw)), Seg.lit "</div>"]
    else [])
  ++ (if address != "" then
        [Seg.lit "<div><b>Address:</b> "]
          ++ addressSegs (esc (argString streetRaw)) (esc (argString houseRaw))
              (esc (argString cityRaw))
          ++ [Seg.lit "</div>"]
      else [])
  ++ (if operatorRaw.truthy
      then [Seg.lit "<div><b>Operator:</b> ", Seg.val (esc (argString operatorRaw)),
        Seg.lit "</div>"] else [])
  ++ (if phone != ""
      then [Seg.lit "<div><b>Phone:</b> <a href=\"tel:", Seg.val (esc phone), Seg.lit "\">",
        Seg.val (esc phone), Seg.lit "</a></div>"] else [])
  ++ (if email != ""
      then [Seg.lit "<div><b>Email:</b> <a href=\"mailto:", Seg.val (esc email),
        Seg.lit "\">", Seg.val (esc email), Seg.lit "</a></div>"] else [])
  ++ (if website != ""
      then [Seg.lit "<div><b>Website:</b> <a href=\"", Seg.val (esc website),
        Seg.lit "\" target=\"_blank\" rel=\"noopener\">", Seg.val (esc website),
        Seg.lit "</a></div>"] else [])
  ++ (if hoursRaw.truthy
      then [Seg.lit "<div><b>Hours:</b> ", Seg.val (esc (argString hoursRaw)),
        Seg.lit "</div>"] else [])

/-- The pieces of the popup. -/
def popupSegs (p : Assoc JsVal) : List Seg :=
  [Seg.lit "<div style=\"min-width:240px;direction:rtl\">\n    <div style=\"font-weight:700;margin-bottom:6px\">",
   Seg.val (esc (argString (popupName p))), Seg.lit "</div>\n    "]
  ++ (if joinStrings (popupRows p) != "" then rowsSegs p
      else [Seg.lit "<div>No additional data</div>"])
  ++ [Seg.lit "\n  </div>"]

/-! ## The names of authorities: `side-menu.js`, `sheet-db.js`, `municipal-info.js` -/

/-- Embeds `s.replace(/\s+/g, " ")` on the characters of `s`: every maximal run of white
space becomes one space. `inRun` tells that the previous character was white space. -/
def collapseWhitespace (inRun : Bool) : List Char → List Char
  | [] => []
  | c :: rest =>
      if isJsWhitespace c then
        (if inRun then collapseWhitespace true rest else ' ' :: collapseWhitespace true rest)
      else c :: collapseWhitespace false rest

/-- Embeds `norm(s)` of `side-menu.js` on a string: `s.replace(/\s+/g, " ").trim()`. -/
def norm (s : String) : String := jsTrim ⟨collapseWhitespace false s.data⟩

/-- Embeds `s.split(sep)[0]` for a separator of one character: the text before its first
occurrence. -/
def beforeFirst (sep : Char) (s : String) : String :=
  ⟨s.data.takeWhile (fun c => c != sep)⟩

/-- The match of the pattern `w\s+` at the start of a text, for a word `w`: the text after
the word and the white space that follows it, or `none` when the pattern does not match. -/
def stripWordWs (w : String) (s : List Char) : Option (List Char) :=
  if w.data.isPrefixOf s then
    match s.drop w.data.length with
    | c :: rest => if isJsWhitespace c then some (rest.dropWhile isJsWhitespace) else none
    | [] => none
  else none

/-- Embeds `normalizeCityName(name)` on a string. -/
def normalizeCityName (name : String) : String :=
  let s1 := norm name
  let s2 := jsTrim (beforeFirst '-' s1)
  let s3 := jsTrim (beforeFirst '–' s2)
  let s4 : String := match (stripWordWs "מועצה" s3.data).bind (stripWordWs "מקומית") with
    | some r => ⟨r⟩
    | none => s3
  let s5 : String := match stripWordWs "עיריית" s4.data with
    | some r => ⟨r⟩
    | none => s4
  let s6 : String := ⟨s5.data.filter (fun c => !(c == '׳' || c == '״' || c == '"'))⟩
  match stripWordWs "קריית" s6.data with
  | some r => ⟨"קרית ".data ++ r⟩
  | none => s6

/-- A row of the directory as `parseYouthDepartmentsFromHtml` builds it. -/
structure YouthRow where
  city : String
  district : String
  sector : String
  manager : String
  phone : String
  email : String
deriving DecidableEq

/-- The last step of `parseYouthDepartmentsFromHtml`: the rows are put in the map `uniq`
under their city unless the city is already there, and the values of the map are returned. -/
def uniqByCity (parsed : List YouthRow) : List YouthRow :=
  (parsed.foldl (fun uniq r =>
    if (assocGet uniq r.city).isSome then uniq else assocSet uniq r.city r) []).map Prod.snd

/-- The `coordinates` of a GeoJSON geometry: a missing or `null` value, a position (an array
that starts with two numbers), or an array of such values. -/
inductive Coords where
  | null : Coords
  | point (x y : Rat) : Coords
  | nested (items : List Coords) : Coords

mutual
/-- The positions the closure `walk` of `bboxFromCoords` pushes to `flat`. -/
def Coords.flat : Coords → List (Rat × Rat)
  | .null => []
  | .point x y => [(x, y)]
  | .nested items => flatList items
/-- The loop `for (const x of c) walk(x)`. -/
def flatList : List Coords → List (Rat × Rat)
  | [] => []
  | c :: cs => c.flat ++ flatList cs
end

/-- A bounding box `[[minX, minY], [maxX, maxY]]`. -/
abbrev Bbox := (Rat × Rat) × (Rat × Rat)

/-- One round of the loop `for (const [x, y] of flat)` of `bboxFromCoords`. -/
def bboxStep (b : Bbox) (p : Rat × Rat) : Bbox :=
  let minX := if p.1 < b.1.1 then p.1 else b.1.1
  let minY := if p.2 < b.1.2 then p.2 else b.1.2
  let maxX := if p.1 > b.2.1 then p.1 else b.2.1
  let maxY := if p.2 > b.2.2 then p.2 else b.2.2
  ((minX, minY), (maxX, maxY))

/-- Embeds `bboxFromCoords(coords)`; `none` is `null`. -/
def bboxFromCoords (coords : Coords) : Option Bbox :=
  match coords.flat with
  | [] => none
  | p0 :: rest => some ((p0 :: rest).foldl bboxStep ((p0.1, p0.2), (p0.1, p0.2)))

/-- A feature of the municipal boundaries: its properties and the coordinates of its
geometry. -/
structure MuniFeature where
  properties : Option (Assoc JsVal)
  coordinates : Coords

/-- One round of the loop of `buildMunicipalBboxIndex` over the features. -/
def bboxIndexStep (featureKey : String) (index : Assoc Bbox) (f : MuniFeature) : Assoc Bbox :=
  let rawName := objGet (f.properties.getD []) featureKey
  if !rawName.truthy then index
  else
    let key := normalizeCityName (jsToString rawName)
    match bboxFromCoords f.coordinates with
    | none => index
    | some bb => if (assocGet index key).isSome then index else assocSet index key bb

/-- Embeds `buildMunicipalBboxIndex(geojsonUrl, featureKey)` on the features of the loaded
file (`gj.features`, or no feature when that is not an array). -/
def buildMunicipalBboxIndex (feats : List MuniFeature) (featureKey : String) : Assoc Bbox :=
  feats.foldl (bboxIndexStep featureKey) []

/-- A cell `td` of the sheet: its `textContent` and the `href` of its first link, if any. -/
structure Cell where
  textContent : String
  href : Option String
deriving DecidableEq

/-- Embeds the closure `cellText` of `loadYouthDeptDB`. -/
def cellText (td : Cell) : String :=
  match td.href with
  | some h => if jsStartsWith h "mailto:" then jsTrim ⟨h.data.drop 7⟩ else jsTrim td.textContent
  | none => jsTrim td.textContent

/-- Embeds `normalizeName(s)` of `sheet-db.js` on a string: trimmed, runs of white space
collapsed, the dashes `־`, `–`, `—` turned to `-` and the quote `״` to `"`. -/
def normalizeName (s : String) : String :=
  ⟨((collapseWhitespace false (jsTrim s).data).map
      (fun c => if c == '־' || c == '–' || c == '—' then '-' else c)).map
    (fun c => if c == '"' || c == '״' then '"' else c)⟩

/-- The object `{ byName, headers }` returned by `loadYouthDeptDB`. -/
structure YouthDB where
  byName : Assoc (Assoc String)
  headers : List String
deriving DecidableEq

/-- The test that finds the header row: some cell reads `מס"ד` or `מס״ד`. -/
def isHeaderRow (tds : List Cell) : Bool :=
  tds.any (fun td => jsTrim td.textContent == "מס\"ד" || jsTrim td.textContent == "מס״ד")

/-- One round of the loop of `loadYouthDeptDB` over the rows after the header row. -/
def byNameStep (headers : List String) (byName : Assoc (Assoc String)) (tds : List Cell) :
    Assoc (Assoc String) :=
  if tds.length < headers.length then byName
  else
    let row : Assoc String :=
      (headers.zip tds).foldl (fun row ht => assocSet row ht.1 (cellText ht.2)) []
    let name := jsTrim ((assocGet row "רשות").getD "")
    if name = "" then byName
    else assocSet byName (normalizeName name) row

/-- Embeds `loadYouthDeptDB(htmlUrl)` on the rows `tbody tr` of the table `table.waffle` of
the loaded document; `none` stands for the errors thrown when the table or the header row is
missing. -/
def loadYouthDeptDB (table : Option (List (List Cell))) : Option YouthDB :=
  match table with
  | none => none
  | some rows =>
      match rows.dropWhile (fun tds => !isHeaderRow tds) with
      | [] => none
      | header :: dataRows =>
          let headers := header.map (fun td => jsTrim td.textContent)
          some ⟨dataRows.foldl (byNameStep headers) [], headers⟩

/-- The string `String(v ?? '')`. -/
def nullishString : JsVal → String
  | .undefined => ""
  | .null => ""
  | v => jsToString v

/-- Embeds the closure `getRow` of `bindMunicipalInfoPopups` over the object `db` returned
by `loadYouthDeptDB`; `none` is the `null` or `undefined` answer. That object has no
`byLamas`, so `db.byLamas.get(lamas)` throws a `TypeError`. -/
def getRow (db : YouthDB) (featureKey sheetKey : String) (properties : Option (Assoc JsVal)) :
    Except JsError (Option (Assoc String)) :=
  let p := properties.getD []
  if sheetKey = "lamas" then
    let lamas := jsTrim (nullishString (objGet p featureKey))
    if lamas = "" then .ok none
    else .error ⟨"TypeError", "Cannot read properties of undefined (reading 'get')"⟩
  else
    let name := jsTrim (nullishString (objGet p featureKey))
    if name = "" then .ok none
    else
      match assocGet db.byName ⟨collapseWhitespace false (jsTrim name).data⟩ with
      | some row => .ok (some row)
      | none => .ok (assocGet db.byName name)

/-- A text cell without link. -/
def textCell (t : String) : Cell := ⟨t, none⟩

/-- A sheet in which two data rows carry the authority name `חיפה`. -/
def duplicateTable : List (List Cell) :=
  [[textCell "מס\"ד", textCell "רשות", textCell "מחוז"],
   [textCell "1", textCell "חיפה", textCell "צפון"],
   [textCell "2", textCell "חיפה", textCell "חיפה"]]

/-- A sheet whose only data row carries a name written with an en dash. -/
def dashTable : List (List Cell) :=
  [[textCell "מס\"ד", textCell "רשות", textCell "מחוז"],
   [textCell "1", textCell "תל אביב–יפו", textCell "תל אביב"]]

/-- Two boundary features whose names both normalise to `חיפה`. -/
def haifaFeatures : List MuniFeature :=
  [⟨some [("name", JsVal.str "עיריית חיפה")],
      Coords.nested [Coords.nested [Coords.point 34 32, Coords.point 35 33]]⟩,
   ⟨some [("name", JsVal.str "חיפה")],
      Coords.nested [Coords.nested [Coords.point 1 2, Coords.point 3 4]]⟩]

/-- Two parsed rows of the directory with the same city. -/
def duplicateCities : List YouthRow :=
  [⟨"חיפה", "צפון", "", "", "", ""⟩, ⟨"חיפה", "חיפה", "", "", "", ""⟩]

/-- The properties of a boundary feature whose name is written with an en dash. -/
def dashProperties : Assoc JsVal := [("name", JsVal.str "תל אביב–יפו")]

/-! ## Theorems -/

theorem setHas_iff (S : List String) (v : JsVal) :
    setHas S v = true ↔ v ∈ S.map JsVal.str := by
  cases v <;> simp [setHas]

theorem setHas_nil (v : JsVal) : setHas [] v = false := by
  cases v <;> simp [setHas]

theorem filter_features_eq (gj : FeatureCollection) (S : List String) :
    (filterGeoJSONByAmenity gj S).features
      = gj.features.filter (fun f => setHas S (featureAmenity f)) := by
  unfold filterGeoJSONByAmenity
  cases S with
  | nil => simp [emptyCollection, setHas_nil]
  | cons a S => simp

/-- C1: `filterGeoJSONByAmenity gj S` keeps exactly the features of `gj` whose amenity is a
member of `S`, in input order (it is the order-preserving sublist selected by membership), and
for the empty selection it has no feature. -/
theorem filterGeoJSONByAmenity_spec (gj : FeatureCollection) (S : List String) :
    (filterGeoJSONByAmenity gj S).features
        = gj.features.filter (fun f => decide (featureAmenity f ∈ S.map JsVal.str))
      ∧ List.Sublist (filterGeoJSONByAmenity gj S).features gj.features
      ∧ (∀ f, f ∈ (filterGeoJSONByAmenity gj S).features
            ↔ f ∈ gj.features ∧ featureAmenity f ∈ S.map JsVal.str)
      ∧ (filterGeoJSONByAmenity gj []).features = [] := by
  have h := filter_features_eq gj S
  refine ⟨?_, ?_, ?_, ?_⟩
  · rw [h]
    apply List.filter_congr
    intro f _
    rw [Bool.eq_iff_iff, setHas_iff, decide_eq_true_iff]
  · rw [h]; exact List.filter_sublist _
  · intro f
    rw [h, List.mem_filter, setHas_iff]
  · rfl

/-! ### The cache -/

theorem assocSet_length_le {β : Type} (m : Assoc β) (k : String) (v : β) :
    (assocSet m k v).length ≤ m.length + 1 := by
  induction m with
  | nil => simp [assocSet]
  | cons p rest ih =>
      obtain ⟨k', v'⟩ := p
      by_cases h : k' = k
      · simp [assocSet, h]
      · simp only [assocSet, h, if_false, List.length_cons]
        omega

theorem mem_assocSet {β : Type} (m : Assoc β) (k : String) (v : β) (p : String × β)
    (hp : p ∈ assocSet m k v) : p = (k, v) ∨ p ∈ m := by
  induction m with
  | nil => simp [assocSet] at hp; exact Or.inl hp
  | cons q rest ih =>
      obtain ⟨k', v'⟩ := q
      by_cases h : k' = k
      · simp only [assocSet, h, if_true, List.mem_cons] at hp
        rcases hp with hp | hp
        · exact Or.inl hp
        · exact Or.inr (List.mem_cons_of_mem _ hp)
      · simp only [assocSet, h, if_false, List.mem_cons] at hp
        rcases hp with hp | hp
        · subst hp; exact Or.inr (List.mem_cons_self _ _)
        · rcases ih hp with h1 | h1
          · exact Or.inl h1
          · exact Or.inr (List.mem_cons_of_mem _ h1)

theorem assocSet_keys {β : Type} (m : Assoc β) (k : String) (v : β) :
    (assocSet m k v).map Prod.fst
      = if k ∈ m.map Prod.fst then m.map Prod.fst else m.map Prod.fst ++ [k] := by
  induction m with
  | nil => simp [assocSet]
  | cons q rest ih =>
      obtain ⟨k', v'⟩ := q
      by_cases h : k' = k
      · subst h; simp [assocSet]
      · have h' : ¬ k = k' := fun e => h e.symm
        simp only [assocSet, h, if_false, List.map_cons, ih, List.mem_cons, h', false_or]
        split <;> simp

theorem assocSet_keys_nodup {β : Type} (m : Assoc β) (k : String) (v : β)
    (hm : (m.map Prod.fst).Nodup) : ((assocSet m k v).map Prod.fst).Nodup := by
  rw [assocSet_keys]
  split
  · exact hm
  · rename_i hk
    rw [List.nodup_append]
    refine ⟨hm, List.nodup_singleton k, ?_⟩
    intro a ha hb
    simp only [List.mem_singleton] at hb
    subst hb
    exact hk ha

theorem assocDelete_keys_nodup {β : Type} (m : Assoc β) (k : String)
    (hm : (m.map Prod.fst).Nodup) : ((assocDelete m k).map Prod.fst).Nodup := by
  unfold assocDelete
  exact (List.Sublist.map Prod.fst (List.filter_sublist m)).nodup hm

theorem assocDelete_length_le {β : Type} (m : Assoc β) (k : String) :
    (assocDelete m k).length ≤ m.length :=
  List.length_filter_le _ _

theorem assocDelete_length_lt {β : Type} (m : Assoc β) (k : String) (p : String × β)
    (hp : p ∈ m) (hk : p.1 = k) : (assocDelete m k).length < m.length := by
  unfold assocDelete
  induction m with
  | nil => simp at hp
  | cons q rest ih =>
      by_cases hq : q.1 = k
      · have : List.filter (fun p => decide (p.1 ≠ k)) (q :: rest)
            = List.filter (fun p => decide (p.1 ≠ k)) rest := by
          simp [List.filter_cons, hq]
        rw [this]
        exact Nat.lt_succ_of_le (List.length_filter_le _ _)
      · have hp' : p ∈ rest := by
          rcases List.mem_cons.1 hp with h | h
          · subst h; exact absurd hk hq
          · exact h
        have : List.filter (fun p => decide (p.1 ≠ k)) (q :: rest)
            = q :: List.filter (fun p => decide (p.1 ≠ k)) rest := by
          simp [List.filter_cons, hq]
        rw [this]
        simp only [List.length_cons]
        exact Nat.succ_lt_succ (ih hp')

theorem mem_assocDelete {β : Type} (m : Assoc β) (k : String) (p : String × β)
    (hp : p ∈ assocDelete m k) : p ∈ m ∧ p.1 ≠ k := by
  unfold assocDelete at hp
  simpa using List.mem_filter.1 hp

/-- The scan ends on the key already held or on the key of one of the scanned entries. -/
theorem foldl_oldestStep_key (m : BboxCache) (acc : Option String × Option Int) :
    (m.foldl oldestStep acc).1 = acc.1 ∨ ∃ p ∈ m, (m.foldl oldestStep acc).1 = some p.1 := by
  induction m generalizing acc with
  | nil => exact Or.inl rfl
  | cons q rest ih =>
      simp only [List.foldl_cons]
      rcases ih (oldestStep acc q) with h | ⟨p, hp, h⟩
      · have hq : (oldestStep acc q).1 = acc.1 ∨ (oldestStep acc q).1 = some q.1 := by
          unfold oldestStep
          split
          · exact Or.inr rfl
          · split
            · exact Or.inr rfl
            · exact Or.inl rfl
        rcases hq with hq | hq
        · exact Or.inl (h.trans hq)
        · exact Or.inr ⟨q, List.mem_cons_self _ _, h.trans hq⟩
      · exact Or.inr ⟨p, List.mem_cons_of_mem _ hp, h⟩

/-- On a non-empty map the scan finds the key of one of its entries. -/
theorem findOldest_mem (m : BboxCache) (hm : m ≠ []) :
    ∃ p ∈ m, (findOldest m).1 = some p.1 := by
  cases m with
  | nil => exact absurd rfl hm
  | cons q rest =>
      unfold findOldest
      simp only [List.foldl_cons]
      have h0 : oldestStep (none, none) q = (some q.1, some q.2.t) := rfl
      rw [h0]
      rcases foldl_oldestStep_key rest (some q.1, some q.2.t) with h | ⟨p, hp, h⟩
      · exact ⟨q, List.mem_cons_self _ _, h⟩
      · exact ⟨p, List.mem_cons_of_mem _ hp, h⟩

theorem cacheSet_inv (c : BboxCache) (key : String) (gj : FeatureCollection) (now : Int)
    (hc : CacheInv c) (hkey : key ≠ "") : CacheInv (cacheSet c key gj now) := by
  obtain ⟨hlen, hne, hnd⟩ := hc
  have hlen1 := assocSet_length_le c key ⟨gj, now⟩
  have hne1 : ∀ p ∈ assocSet c key ⟨gj, now⟩, p.1 ≠ "" := by
    intro p hp
    rcases mem_assocSet _ _ _ _ hp with h | h
    · rw [h]; exact hkey
    · exact hne p h
  have hnd1 := assocSet_keys_nodup c key ⟨gj, now⟩ hnd
  unfold cacheSet
  simp only
  split
  · rename_i hgt
    have hnil : assocSet c key ⟨gj, now⟩ ≠ [] := by
      intro h; rw [h] at hgt; simp at hgt
    obtain ⟨p, hp, hfo⟩ := findOldest_mem _ hnil
    rw [hfo]
    simp only [hne1 p hp, ne_eq, not_false_eq_true, if_true]
    refine ⟨?_, ?_, assocDelete_keys_nodup _ _ hnd1⟩
    · have := assocDelete_length_lt _ p.1 p hp rfl
      omega
    · intro q hq
      exact hne1 q (mem_assocDelete _ _ _ hq).1
  · rename_i hle
    exact ⟨by omega, hne1, hnd1⟩

theorem assocGet_some_mem {β : Type} (m : Assoc β) (k : String) (v : β)
    (h : assocGet m k = some v) : (k, v) ∈ m := by
  induction m with
  | nil => simp [assocGet] at h
  | cons q rest ih =>
      obtain ⟨k', v'⟩ := q
      by_cases hk : k' = k
      · simp only [assocGet, hk, if_true, Option.some.injEq] at h
        rw [hk, h]; exact List.mem_cons_self _ _
      · simp only [assocGet, hk, if_false] at h
        exact List.mem_cons_of_mem _ (ih h)

theorem cacheGet_inv (c : BboxCache) (key : String) (now : Int) (hc : CacheInv c) :
    CacheInv (cacheGet c key now).1 := by
  obtain ⟨hlen, hne, hnd⟩ := hc
  unfold cacheGet
  cases hg : assocGet c key with
  | none => exact ⟨hlen, hne, hnd⟩
  | some hit =>
      have hmem := assocGet_some_mem c key hit hg
      have hlt := assocDelete_length_lt c key (key, hit) hmem rfl
      have hneD : ∀ p ∈ assocDelete c key, p.1 ≠ "" := fun p hp =>
        hne p (mem_assocDelete _ _ _ hp).1
      have hndD := assocDelete_keys_nodup c key hnd
      simp only
      split
      · exact ⟨by simp only; omega, hneD, hndD⟩
      · refine ⟨?_, ?_, assocSet_keys_nodup _ _ _ hndD⟩
        · have := assocSet_length_le (assocDelete c key) key hit
          simp only; omega
        · intro p hp
          rcases mem_assocSet _ _ _ _ hp with h | h
          · rw [h]; exact hne _ hmem
          · exact hneD p h

theorem runCacheOps_inv (ops : List CacheOp) (c : BboxCache) (hc : CacheInv c)
    (hops : ∀ op ∈ ops, op.setKey ≠ some "") : CacheInv (runCacheOps c ops) := by
  induction ops generalizing c with
  | nil => exact hc
  | cons op rest ih =>
      unfold runCacheOps
      simp only [List.foldl_cons]
      apply ih
      · cases op with
        | set key gj now =>
            apply cacheSet_inv c key gj now hc
            intro h
            exact hops (CacheOp.set key gj now) (List.mem_cons_self _ _) (by simp [CacheOp.setKey, h])
        | get key now => exact cacheGet_inv c key now hc
      · intro op' h'
        exact hops op' (List.mem_cons_of_mem _ h')

theorem cacheInv_empty : CacheInv [] := by
  refine ⟨by simp, ?_, by simp⟩
  intro p hp
  simp at hp

/-- C2: the size cap of `cacheSet` fails for the empty key. A `cacheSet` under the empty key
at time 0 followed by twenty-five `cacheSet` calls under other keys at time 1 leaves 26
entries in the cache, the oldest one, under the empty key, still among them: the search
finds it, but the guard `if (oldestKey)` takes the empty string for "no key" and nothing is
deleted, against the comment `Cap size: delete oldest entry`. -/
theorem cacheSet_emptyKey_overflows :
    (runCacheOps [] overflowOps).length = 26
      ∧ ¬ (runCacheOps [] overflowOps).length ≤ CACHE_MAX
      ∧ findOldest (runCacheOps [] overflowOps) = (some "", some 0)
      ∧ assocGet (runCacheOps [] overflowOps) "" = some ⟨emptyCollection, 0⟩ := by
  decide

/-- The cap holds when the keys are non-empty strings, as every key built by `bboxKey` is:
starting from the empty cache, after any sequence of `cacheSet` and `cacheGet` calls (any
collections, any clock readings) whose `cacheSet` keys are non-empty, and after one more
`cacheSet` under a non-empty key, the cache holds at most `CACHE_MAX = 25` entries, each key
once. -/
theorem cacheSet_size_le_max (ops : List CacheOp) (key : String) (gj : FeatureCollection)
    (now : Int) (hops : ∀ op ∈ ops, op.setKey ≠ some "") (hkey : key ≠ "") :
    (cacheSet (runCacheOps [] ops) key gj now).length ≤ CACHE_MAX
      ∧ ((cacheSet (runCacheOps [] ops) key gj now).map Prod.fst).Nodup
      ∧ (runCacheOps [] ops).length ≤ CACHE_MAX := by
  have h0 := runCacheOps_inv ops [] cacheInv_empty hops
  have h1 := cacheSet_inv _ key gj now h0 hkey
  exact ⟨h1.1, h1.2.2, h0.1⟩

/-- Witness for `cacheSet_size_le_max`: twenty-five insertions under the sample keys, a read,
and a twenty-sixth insertion under the key `"z"`. -/
theorem cacheSet_size_le_max_witness :
    (cacheSet (runCacheOps [] (sampleKeys.map (fun k => CacheOp.set k emptyCollection 1)
        ++ [CacheOp.get "a" 2])) "z" emptyCollection 3).length ≤ CACHE_MAX :=
  (cacheSet_size_le_max (sampleKeys.map (fun k => CacheOp.set k emptyCollection 1)
        ++ [CacheOp.get "a" 2]) "z" emptyCollection 3 (by decide) (by decide)).1


theorem assocGet_assocSet_self {β : Type} (m : Assoc β) (k : String) (v : β) :
    assocGet (assocSet m k v) k = some v := by
  induction m with
  | nil => simp [assocSet, assocGet]
  | cons q rest ih =>
      obtain ⟨k', v'⟩ := q
      by_cases h : k' = k
      · simp [assocSet, assocGet, h]
      · simp [assocSet, assocGet, h, ih]

theorem assocGet_assocDelete {β : Type} (m : Assoc β) (k' k : String) :
    assocGet (assocDelete m k') k = if k' = k then none else assocGet m k := by
  unfold assocDelete
  induction m with
  | nil => simp [assocGet]
  | cons q rest ih =>
      obtain ⟨k0, v0⟩ := q
      by_cases h0 : k0 = k'
      · subst h0
        simp only [List.filter_cons, ne_eq, not_true_eq_false, decide_False, Bool.false_eq_true,
          if_false, ih]
        by_cases h : k0 = k
        · simp [h]
        · simp [h, assocGet]
      · simp only [List.filter_cons, ne_eq, h0, not_false_eq_true, decide_True, if_true,
          assocGet, ih]
        by_cases h : k' = k
        · subst h; simp [h0]
        · simp [h]

/-- What `cacheSet` leaves under the key it was called with: the new entry, or nothing when
that entry was the one evicted. -/
theorem assocGet_cacheSet_self (c : BboxCache) (key : String) (gj : FeatureCollection)
    (T : Int) :
    assocGet (cacheSet c key gj T) key = some ⟨gj, T⟩
      ∨ assocGet (cacheSet c key gj T) key = none := by
  have h := assocGet_assocSet_self c key (⟨gj, T⟩ : CacheEntry)
  unfold cacheSet
  simp only
  split
  · split
    · split
      · rw [assocGet_assocDelete]
        split
        · exact Or.inr rfl
        · exact Or.inl h
      · exact Or.inl h
    · exact Or.inl h
  · exact Or.inl h

/-- C3: the entry that `cacheSet` stored under `key` at time `T` is either gone (evicted) or
`⟨gj, T⟩`; and for every cache `c` that holds `⟨gj, T⟩` under `key`, `cacheGet` at time `now`
returns `gj` when `now - T ≤ CACHE_TTL_MS = 600000` and nothing when `now - T > CACHE_TTL_MS`:
a read at `T + TTL - 1` returns `gj`, a read at `T + TTL + 1` returns nothing. -/
theorem cacheGet_ttl (c0 c : BboxCache) (key : String) (gj : FeatureCollection) (T now : Int)
    (h : assocGet c key = some ⟨gj, T⟩) :
    (assocGet (cacheSet c0 key gj T) key = some ⟨gj, T⟩
        ∨ assocGet (cacheSet c0 key gj T) key = none)
      ∧ CACHE_TTL_MS = 600000
      ∧ (now - T ≤ CACHE_TTL_MS → (cacheGet c key now).2 = some gj)
      ∧ (now - T > CACHE_TTL_MS → (cacheGet c key now).2 = none)
      ∧ (cacheGet c key (T + CACHE_TTL_MS - 1)).2 = some gj
      ∧ (cacheGet c key (T + CACHE_TTL_MS + 1)).2 = none := by
  have key_le : ∀ n : Int, n - T ≤ CACHE_TTL_MS → (cacheGet c key n).2 = some gj := by
    intro n hn
    unfold cacheGet
    rw [h]
    simp only
    rw [if_neg (by omega)]
  have key_gt : ∀ n : Int, n - T > CACHE_TTL_MS → (cacheGet c key n).2 = none := by
    intro n hn
    unfold cacheGet
    rw [h]
    simp only
    rw [if_pos hn]
  refine ⟨assocGet_cacheSet_self c0 key gj T, by decide, key_le now, key_gt now, ?_, ?_⟩
  · exact key_le _ (by omega)
  · exact key_gt _ (by omega)

/-- Witness for `cacheGet_ttl`: an entry stored at time 1000 in the empty cache. -/
theorem cacheGet_ttl_witness :
    assocGet (cacheSet [] "k" emptyCollection 1000) "k" = some ⟨emptyCollection, 1000⟩
      ∧ (cacheGet (cacheSet [] "k" emptyCollection 1000) "k" (1000 + CACHE_TTL_MS - 1)).2
          = some emptyCollection
      ∧ (cacheGet (cacheSet [] "k" emptyCollection 1000) "k" (1000 + CACHE_TTL_MS + 1)).2
          = none :=
  ⟨by decide,
   (cacheGet_ttl [] (cacheSet [] "k" emptyCollection 1000) "k" emptyCollection 1000 0
      (by decide)).2.2.2.2.1,
   (cacheGet_ttl [] (cacheSet [] "k" emptyCollection 1000) "k" emptyCollection 1000 0
      (by decide)).2.2.2.2.2⟩

/-! ### The fetch -/

theorem fetchLoop_first_ok (outcome : String → EndpointOutcome) (pre : List String)
    (url : String) (post : List String) (gj : FeatureCollection) (lastErr : Option JsError)
    (contacted : List String)
    (hpre : ∀ u ∈ pre, isError (tryEndpoint (outcome u)) = true)
    (hurl : tryEndpoint (outcome url) = .ok gj) :
    (fetchLoop outcome (pre ++ url :: post) lastErr contacted).result = .ok gj
      ∧ (fetchLoop outcome (pre ++ url :: post) lastErr contacted).contacted
          = contacted ++ pre ++ [url] := by
  induction pre generalizing lastErr contacted with
  | nil => simp [fetchLoop, hurl]
  | cons u pre ih =>
      have hu := hpre u (List.mem_cons_self _ _)
      cases htry : tryEndpoint (outcome u) with
      | ok g => rw [htry] at hu; simp [isError] at hu
      | error e =>
          simp only [List.cons_append, fetchLoop, htry]
          have := ih (some e) (contacted ++ [u]) (fun v hv => hpre v (List.mem_cons_of_mem _ hv))
          simpa using this

theorem fetchLoop_all_fail (outcome : String → EndpointOutcome) (urls : List String)
    (lastErr : Option JsError) (contacted : List String)
    (hall : ∀ u ∈ urls, isError (tryEndpoint (outcome u)) = true) :
    (fetchLoop outcome urls lastErr contacted).contacted = contacted ++ urls
      ∧ (fetchLoop outcome urls lastErr contacted).result
          = (match urls.getLast? with
             | some u => tryEndpoint (outcome u)
             | none => .error (lastErr.getD ⟨"Error", "Overpass failed"⟩)) := by
  induction urls generalizing lastErr contacted with
  | nil => simp [fetchLoop]
  | cons u rest ih =>
      have hu := hall u (List.mem_cons_self _ _)
      cases htry : tryEndpoint (outcome u) with
      | ok g => rw [htry] at hu; simp [isError] at hu
      | error e =>
          simp only [fetchLoop, htry]
          have h := ih (some e) (contacted ++ [u]) (fun v hv => hall v (List.mem_cons_of_mem _ hv))
          refine ⟨by simpa using h.1, ?_⟩
          rw [h.2]
          cases rest with
          | nil => simp [htry]
          | cons r rest' =>
              rw [List.getLast?_cons_cons]
              cases hl : (r :: rest').getLast? with
              | none => simp at hl
              | some x => rfl

theorem fetchLoop_error_iff (outcome : String → EndpointOutcome) (urls : List String)
    (lastErr : Option JsError) (contacted : List String) :
    isError (fetchLoop outcome urls lastErr contacted).result = true
      ↔ ∀ u ∈ urls, isError (tryEndpoint (outcome u)) = true := by
  induction urls generalizing lastErr contacted with
  | nil => simp [fetchLoop, isError]
  | cons u rest ih =>
      cases htry : tryEndpoint (outcome u) with
      | ok g => simp [fetchLoop, htry, isError]
      | error e =>
          simp only [fetchLoop, htry, List.forall_mem_cons, ih]
          simp [isError]

/-- C7: for every assignment of outcomes to the endpoints of `OVERPASS_ENDPOINTS`,
`fetchEducationGeoJSON` returns the normalised collection of the first endpoint, in list
order, whose call succeeds (all endpoints before it having failed), having contacted exactly
the endpoints up to and including that one; when all fail it has contacted all three and
throws the error of the last one; it throws if and only if all endpoints fail. An endpoint
fails on a rejected call, on a status outside 200-299 and on a body that does not parse to
well-formed data, and succeeds otherwise with the normalised collection. -/
theorem fetchEducationGeoJSON_failover (outcome : String → EndpointOutcome) :
    (∀ pre url post gj, OVERPASS_ENDPOINTS = pre ++ url :: post →
        (∀ u ∈ pre, isError (tryEndpoint (outcome u)) = true) →
        tryEndpoint (outcome url) = .ok gj →
        (fetchEducationGeoJSON outcome).result = .ok gj
          ∧ (fetchEducationGeoJSON outcome).contacted = pre ++ [url])
      ∧ ((∀ u ∈ OVERPASS_ENDPOINTS, isError (tryEndpoint (outcome u)) = true) →
          (fetchEducationGeoJSON outcome).contacted = OVERPASS_ENDPOINTS
            ∧ (fetchEducationGeoJSON outcome).result
                = tryEndpoint (outcome "https://overpass.openstreetmap.ru/api/interpreter"))
      ∧ (isError (fetchEducationGeoJSON outcome).result = true
          ↔ ∀ u ∈ OVERPASS_ENDPOINTS, isError (tryEndpoint (outcome u)) = true)
      ∧ (∀ e, tryEndpoint (EndpointOutcome.rejected e) = .error e)
      ∧ (∀ status body, statusOk status = false →
          tryEndpoint (EndpointOutcome.response status body)
            = .error ⟨"Error", "HTTP " ++ toString status⟩)
      ∧ (∀ status e, statusOk status = true →
          tryEndpoint (EndpointOutcome.response status (Body.throws e)) = .error e)
      ∧ (∀ status data, statusOk status = true →
          tryEndpoint (EndpointOutcome.response status (Body.json data))
            = .ok (normalizeElements data)) := by
  refine ⟨?_, ?_, ?_, ?_, ?_, ?_, ?_⟩
  · intro pre url post gj hsplit hpre hurl
    unfold fetchEducationGeoJSON
    rw [hsplit]
    simpa using fetchLoop_first_ok outcome pre url post gj none [] hpre hurl
  · intro hall
    have h := fetchLoop_all_fail outcome OVERPASS_ENDPOINTS none [] hall
    unfold fetchEducationGeoJSON
    refine ⟨by simpa using h.1, ?_⟩
    rw [h.2]
    rfl
  · exact fetchLoop_error_iff outcome OVERPASS_ENDPOINTS none []
  · intro e; rfl
  · intro status body h; simp [tryEndpoint, h]
  · intro status e h; simp [tryEndpoint, h]
  · intro status data h; simp [tryEndpoint, h]

/-- Witness for `fetchEducationGeoJSON_failover`: with `sampleOutcome` the first two endpoints
fail and the third one's collection is returned. -/
theorem fetchEducationGeoJSON_failover_witness :
    (fetchEducationGeoJSON sampleOutcome).result = .ok (normalizeElements sampleData)
      ∧ (fetchEducationGeoJSON sampleOutcome).contacted = OVERPASS_ENDPOINTS :=
  (fetchEducationGeoJSON_failover sampleOutcome).1
    ["https://overpass-api.de/api/interpreter", "https://overpass.kumi.systems/api/interpreter"]
    "https://overpass.openstreetmap.ru/api/interpreter" [] (normalizeElements sampleData)
    (by decide) (by decide) (by rfl)

/-- C8 (the code at the failing input): when the signal is aborted during the call to the
first endpoint, so that this call and every later `fetch` with the signal reject with
`AbortError`, the loop treats the rejection like an endpoint error: it goes on to call `fetch`
for the second and the third endpoint before it throws the `AbortError`. -/
theorem fetchEducationGeoJSON_abort_fails_over :
    (fetchEducationGeoJSON abortedOutcome).contacted = OVERPASS_ENDPOINTS
      ∧ (fetchEducationGeoJSON abortedOutcome).contacted.length = 3
      ∧ (fetchEducationGeoJSON abortedOutcome).result = .error abortError := by
  refine ⟨by decide, by decide, by rfl⟩

/-! ### Normalisation of elements -/

theorem assocGet_assocSet_ne {β : Type} (m : Assoc β) (k' k : String) (v : β) (h : k' ≠ k) :
    assocGet (assocSet m k' v) k = assocGet m k := by
  induction m with
  | nil => simp [assocSet, assocGet, h]
  | cons q rest ih =>
      obtain ⟨k0, v0⟩ := q
      by_cases h0 : k0 = k'
      · subst h0; simp [assocSet, assocGet, h]
      · simp [assocSet, assocGet, h0, ih]

/-- The feature built from an element with coordinates, and its category and identifier. -/
theorem elementToFeature_some (el : Element) (lon lat : Rat)
    (hc : elementCoords el = (some lon, some lat)) :
    ∃ f, elementToFeature el = some f
      ∧ featureAmenity f = elementAmenity (el.tags.getD [])
      ∧ featureId f = JsVal.str (el.type ++ "/" ++ toString el.id) := by
  have hf : elementToFeature el = some
      { coordinates := (lon, lat)
        properties := some (assocSet (assocSet (el.tags.getD []) "amenity"
          (elementAmenity (el.tags.getD []))) "id"
          (JsVal.str (el.type ++ "/" ++ toString el.id))) } := by
    simp only [elementToFeature, hc]
  refine ⟨_, hf, ?_, ?_⟩
  · simp only [featureAmenity, objGet]
    rw [assocGet_assocSet_ne _ _ _ _ (by decide), assocGet_assocSet_self]
    rfl
  · simp only [featureId, objGet]
    rw [assocGet_assocSet_self]
    rfl

theorem elementToFeature_amenity (el : Element) (f : Feature)
    (h : elementToFeature el = some f) :
    featureAmenity f = elementAmenity (el.tags.getD []) := by
  unfold elementToFeature at h
  split at h
  · rename_i lon lat hc
    obtain ⟨g, hg, ha, _⟩ := elementToFeature_some el lon lat hc
    simp only [elementToFeature, hc] at hg
    rw [Option.some.injEq] at h hg
    rw [← h, hg]
    exact ha
  · exact absurd h (by simp)

theorem mem_filter_of_amenity (gj : FeatureCollection) (S : List String) (f : Feature)
    (a : String) (hf : f ∈ gj.features) (ha : featureAmenity f = JsVal.str a) (hS : a ∈ S) :
    f ∈ (filterGeoJSONByAmenity gj S).features := by
  rw [filter_features_eq, List.mem_filter]
  exact ⟨hf, by rw [ha]; simp [setHas, hS]⟩

theorem not_mem_filter_of_undefined (gj : FeatureCollection) (S : List String) (f : Feature)
    (ha : featureAmenity f = JsVal.undefined) :
    f ∉ (filterGeoJSONByAmenity gj S).features := by
  rw [filter_features_eq, List.mem_filter]
  rintro ⟨_, h⟩
  rw [ha] at h
  simp [setHas] at h

/-- C9 (as stated, refuted): the way `emptyAmenityElement` has usable coordinates and an
explicit amenity tag (the empty string), yet the category of its feature is `'school'`, not
the value of that tag: `tags.amenity || ...` takes a falsy amenity tag for a missing one. -/
theorem amenity_present_not_kept :
    ¬ (∀ (el : Element) (f : Feature) (v : JsVal), elementToFeature el = some f →
        assocGet (el.tags.getD []) "amenity" = some v → featureAmenity f = v) := by
  intro h
  have h1 := h emptyAmenityElement
    ⟨(35, 32), some [("amenity", JsVal.str "school"), ("school", JsVal.str "yes"),
      ("id", JsVal.str "way/1")]⟩ (JsVal.str "") (by rfl) (by rfl)
  revert h1
  decide

/-- C9 (amended): for every element with usable coordinates, the feature built has category
equal to the element's amenity tag when that tag is truthy (present and not empty), else
`'school'` when the school tag is truthy, else `undefined`; a feature built from an element
without amenity tag and with a truthy school tag is kept by the filter under every selection
that holds `'school'`, and a feature with `undefined` category is kept under no selection. -/
theorem elementToFeature_category (el : Element) (lon lat : Rat)
    (hc : elementCoords el = (some lon, some lat)) :
    ∃ f, elementToFeature el = some f
      ∧ ((objGet (el.tags.getD []) "amenity").truthy = true →
          featureAmenity f = objGet (el.tags.getD []) "amenity")
      ∧ ((objGet (el.tags.getD []) "amenity").truthy = false →
          (objGet (el.tags.getD []) "school").truthy = true →
          featureAmenity f = JsVal.str "school")
      ∧ ((objGet (el.tags.getD []) "amenity").truthy = false →
          (objGet (el.tags.getD []) "school").truthy = false →
          featureAmenity f = JsVal.undefined)
      ∧ (assocGet (el.tags.getD []) "amenity" = none →
          (objGet (el.tags.getD []) "school").truthy = true →
          ∀ (gj : FeatureCollection) (S : List String), f ∈ gj.features → "school" ∈ S →
            f ∈ (filterGeoJSONByAmenity gj S).features)
      ∧ (featureAmenity f = JsVal.undefined →
          ∀ (gj : FeatureCollection) (S : List String),
            f ∉ (filterGeoJSONByAmenity gj S).features) := by
  obtain ⟨f, hf, ha, _⟩ := elementToFeature_some el lon lat hc
  refine ⟨f, hf, ?_, ?_, ?_, ?_, ?_⟩
  · intro h1
    rw [ha]; simp [elementAmenity, JsVal.or, h1]
  · intro h1 h2
    rw [ha]; simp [elementAmenity, JsVal.or, h1, h2]
  · intro h1 h2
    rw [ha]; simp [elementAmenity, JsVal.or, h1, h2]
  · intro h1 h2 gj S hmem hS
    apply mem_filter_of_amenity gj S f "school" hmem _ hS
    have h0 : (objGet (el.tags.getD []) "amenity").truthy = false := by
      simp [objGet, h1, JsVal.truthy]
    rw [ha]; simp [elementAmenity, JsVal.or, h0, h2]
  · intro h1 gj S
    exact not_mem_filter_of_undefined gj S f h1

/-- Witness for `elementToFeature_category`: the way of `sampleData`, tagged `school=yes`
only, becomes a feature of category `'school'`. -/
theorem elementToFeature_category_witness :
    ∃ f, elementToFeature
          ⟨"way", 7, none, none, some ⟨some 35, some 32⟩, some [("school", JsVal.str "yes")]⟩
        = some f ∧ featureAmenity f = JsVal.str "school" := by
  obtain ⟨f, hf, _, h2, _⟩ := elementToFeature_category
    ⟨"way", 7, none, none, some ⟨some 35, some 32⟩, some [("school", JsVal.str "yes")]⟩
    35 32 (by rfl)
  exact ⟨f, hf, h2 (by decide) (by decide)⟩

theorem truthy_ne_undefined (v : JsVal) (h : v.truthy = true) : v ≠ JsVal.undefined := by
  intro e; rw [e] at h; simp [JsVal.truthy] at h

/-- C10 (as stated, refuted): the way of `libraryData` is normalised to a feature whose
category is set (`'library'`), but filtering with the full category set drops it, so its
identifier `way/1` is among the identifiers of the features with a set category and not among
those of the filtered collection. -/
theorem filter_full_drops_set_category :
    ¬ (∀ (data : OverpassData) (i : JsVal),
        i ∈ featureIds (filterGeoJSONByAmenity (normalizeElements data) AMENITY_CATEGORIES)
          ↔ i ∈ featureIds ⟨(normalizeElements data).features.filter categorySet⟩) := by
  intro h
  have h1 := (h libraryData (JsVal.str "way/1")).2 (by decide)
  revert h1
  decide

/-- C10 (amended): for every service response in which every truthy amenity tag is one of the
seven categories, filtering the normalised collection with the full category set returns
exactly the features whose category tag is set, so the two have the same feature
identifiers. -/
theorem filter_full_eq_categorySet (data : OverpassData)
    (h : ∀ el ∈ data.elements.getD [], (objGet (el.tags.getD []) "amenity").truthy = true →
      objGet (el.tags.getD []) "amenity" ∈ AMENITY_CATEGORIES.map JsVal.str) :
    (filterGeoJSONByAmenity (normalizeElements data) AMENITY_CATEGORIES).features
        = (normalizeElements data).features.filter categorySet
      ∧ ∀ i, i ∈ featureIds (filterGeoJSONByAmenity (normalizeElements data) AMENITY_CATEGORIES)
          ↔ i ∈ featureIds ⟨(normalizeElements data).features.filter categorySet⟩ := by
  have key : (filterGeoJSONByAmenity (normalizeElements data) AMENITY_CATEGORIES).features
        = (normalizeElements data).features.filter categorySet := by
    rw [filter_features_eq]
    apply List.filter_congr
    intro f hf
    simp only [normalizeElements, List.mem_filterMap] at hf
    obtain ⟨el, hel, hfe⟩ := hf
    have ha := elementToFeature_amenity el f hfe
    have hel' := h el hel
    unfold categorySet
    rw [ha]
    unfold elementAmenity JsVal.or
    cases h1 : (objGet (el.tags.getD []) "amenity").truthy
    · cases h2 : (objGet (el.tags.getD []) "school").truthy
      · simp [setHas]
      · simp only [Bool.false_eq_true, if_false, if_true]
        decide
    · simp only [if_true]
      have hne := truthy_ne_undefined _ h1
      have hin := (setHas_iff AMENITY_CATEGORIES _).2 (hel' h1)
      rw [hin]
      simp [hne]
  refine ⟨key, ?_⟩
  intro i
  unfold featureIds
  rw [key]

/-- Witness for `filter_full_eq_categorySet`: in `sampleData` no amenity tag lies outside the
seven categories. -/
theorem filter_full_eq_categorySet_witness :
    (filterGeoJSONByAmenity (normalizeElements sampleData) AMENITY_CATEGORIES).features
      = (normalizeElements sampleData).features.filter categorySet :=
  (filter_full_eq_categorySet sampleData (by decide)).1

/-! ### The layer lifecycle -/

theorem addLayer_source (r : Renderer) (id : String) : (r.addLayer id).source = r.source := by
  unfold Renderer.addLayer; split <;> rfl

theorem addOrUpdateEduLabels_source (r : Renderer) :
    (addOrUpdateEduLabels r).source = r.source := by
  unfold addOrUpdateEduLabels
  simp only
  split <;> split <;> simp [addLayer_source, Renderer.removeLayer]

theorem addEduLayers_source (r : Renderer) (b : Bool) : (addEduLayers r b).source = r.source := by
  unfold addEduLayers
  split
  · rfl
  · simp only
    split <;> simp [addOrUpdateEduLabels_source, addLayer_source]

/-- With a source present `applyAmenityFilter` recomputes the filtered collection and hands
it to the source. -/
theorem applyAmenityFilter_of_source (s : EduState) (d : FeatureCollection)
    (h : s.map.source = some d) :
    (applyAmenityFilter s).filteredEduGeoJSON
        = filterGeoJSONByAmenity s.currentEduGeoJSON s.selection
      ∧ (applyAmenityFilter s).map.source
        = some (filterGeoJSONByAmenity s.currentEduGeoJSON s.selection)
      ∧ (applyAmenityFilter s).currentEduGeoJSON = s.currentEduGeoJSON
      ∧ (applyAmenityFilter s).selection = s.selection := by
  have hset : (s.map.setData (filterGeoJSONByAmenity s.currentEduGeoJSON s.selection)).source
      = some (filterGeoJSONByAmenity s.currentEduGeoJSON s.selection) := by
    simp [Renderer.setData, h]
  unfold applyAmenityFilter
  rw [h]
  refine ⟨rfl, ?_, rfl, rfl⟩
  simp only
  split <;> split <;> simp [addOrUpdateEduLabels_source, Renderer.removeLayer, hset]

theorem applyAmenityFilter_of_no_source (s : EduState) (h : s.map.source = none) :
    applyAmenityFilter s = s := by
  unfold applyAmenityFilter
  rw [h]

theorem ensureEducationLayers_spec (s : EduState) (gj : FeatureCollection) :
    (ensureEducationLayers s gj).currentEduGeoJSON = gj
      ∧ (ensureEducationLayers s gj).selection = s.selection
      ∧ (ensureEducationLayers s gj).filteredEduGeoJSON
          = filterGeoJSONByAmenity gj s.selection
      ∧ (ensureEducationLayers s gj).map.source
          = some (filterGeoJSONByAmenity gj s.selection) := by
  unfold ensureEducationLayers
  simp only
  have hsrc : ∃ d, (match s.map.source with
      | some _ => s.map.setData gj
      | none => addEduLayers (s.map.addSource gj) s.showLabels).source = some d := by
    cases h : s.map.source with
    | none => exact ⟨gj, by simp [addEduLayers_source, Renderer.addSource, h]⟩
    | some d => exact ⟨gj, by simp [Renderer.setData, h]⟩
  obtain ⟨d, hd⟩ := hsrc
  have := applyAmenityFilter_of_source
    { s with currentEduGeoJSON := gj
             map := (match s.map.source with
               | some _ => s.map.setData gj
               | none => addEduLayers (s.map.addSource gj) s.showLabels)
             eventsBound := true } d hd
  exact ⟨this.2.2.1, this.2.2.2, this.1, this.2.1⟩

theorem removeEducationLayers_spec (s : EduState) :
    (removeEducationLayers s).map.source = none
      ∧ (removeEducationLayers s).currentEduGeoJSON = s.currentEduGeoJSON
      ∧ (removeEducationLayers s).filteredEduGeoJSON = s.filteredEduGeoJSON
      ∧ (removeEducationLayers s).selection = s.selection := by
  unfold removeEducationLayers
  refine ⟨?_, rfl, rfl, rfl⟩
  simp only
  split
  · rfl
  · rename_i h
    simpa using h

theorem clearEducationData_spec (s : EduState) :
    (clearEducationData s).map.source = none
      ∧ (clearEducationData s).currentEduGeoJSON = emptyCollection
      ∧ (clearEducationData s).filteredEduGeoJSON = emptyCollection := by
  have h := (removeEducationLayers_spec s).1
  unfold clearEducationData
  simp only
  split <;> exact ⟨h, rfl, rfl⟩

theorem filter_emptyCollection (S : List String) :
    filterGeoJSONByAmenity emptyCollection S = emptyCollection := by
  unfold filterGeoJSONByAmenity
  split <;> rfl

/-- C6 (as stated, refuted): in the reachable state `removedState` (no data source) a checkbox
toggle that unchecks `'school'` runs `applyAmenityFilter`, which returns at its guard
`if (!src) return`: `filteredEduGeoJSON` still holds the school feature, while the filter of
`currentEduGeoJSON` by the now empty selection has no feature. -/
theorem applyAmenityFilter_stale_without_source :
    (toggleAmenity removedState []).filteredEduGeoJSON = schoolCollection
      ∧ filterGeoJSONByAmenity (toggleAmenity removedState []).currentEduGeoJSON
          (toggleAmenity removedState []).selection = emptyCollection
      ∧ (toggleAmenity removedState []).filteredEduGeoJSON
          ≠ filterGeoJSONByAmenity (toggleAmenity removedState []).currentEduGeoJSON
              (toggleAmenity removedState []).selection := by
  decide

/-- C6 (amended): after each of `ensureEducationLayers`, `applyAmenityFilter` on a checkbox
toggle, `clearEducationData` and `removeEducationLayers`, whenever the data source exists its
data is `filteredEduGeoJSON` and `filteredEduGeoJSON` is the filter of `currentEduGeoJSON` by
the current selection. After `ensureEducationLayers` the source exists and the equation holds;
after `clearEducationData` the equation holds with both collections empty; a toggle without a
data source changes nothing but the selection, and `removeEducationLayers` removes the source
and leaves both collections as they were. -/
theorem filtered_consistent_with_source (s : EduState) (gj : FeatureCollection)
    (sel : List String) :
    (∀ s', s' ∈ [ensureEducationLayers s gj, toggleAmenity s sel, clearEducationData s,
          removeEducationLayers s] →
        ∀ d, s'.map.source = some d →
          d = s'.filteredEduGeoJSON
            ∧ s'.filteredEduGeoJSON
                = filterGeoJSONByAmenity s'.currentEduGeoJSON s'.selection)
      ∧ ((ensureEducationLayers s gj).map.source
            = some (ensureEducationLayers s gj).filteredEduGeoJSON
          ∧ (ensureEducationLayers s gj).filteredEduGeoJSON
              = filterGeoJSONByAmenity (ensureEducationLayers s gj).currentEduGeoJSON
                  (ensureEducationLayers s gj).selection)
      ∧ ((clearEducationData s).filteredEduGeoJSON
            = filterGeoJSONByAmenity (clearEducationData s).currentEduGeoJSON
                (clearEducationData s).selection)
      ∧ (s.map.source = none → toggleAmenity s sel = { s with selection := sel })
      ∧ ((removeEducationLayers s).map.source = none
          ∧ (removeEducationLayers s).currentEduGeoJSON = s.currentEduGeoJSON
          ∧ (removeEducationLayers s).filteredEduGeoJSON = s.filteredEduGeoJSON) := by
  have he := ensureEducationLayers_spec s gj
  have hc := clearEducationData_spec s
  have hr := removeEducationLayers_spec s
  have hens : (ensureEducationLayers s gj).map.source
        = some (ensureEducationLayers s gj).filteredEduGeoJSON
      ∧ (ensureEducationLayers s gj).filteredEduGeoJSON
          = filterGeoJSONByAmenity (ensureEducationLayers s gj).currentEduGeoJSON
              (ensureEducationLayers s gj).selection := by
    rw [he.1, he.2.1, he.2.2.1, he.2.2.2]
    exact ⟨rfl, rfl⟩
  refine ⟨?_, hens, ?_, ?_, hr.1, hr.2.1, hr.2.2.1⟩
  · intro s' hs' d hd
    simp only [List.mem_cons, List.mem_singleton, List.not_mem_nil, or_false] at hs'
    rcases hs' with h | h | h | h
    · subst h
      rw [hens.1] at hd
      exact ⟨(Option.some.inj hd).symm, hens.2⟩
    · subst h
      cases hsrc : s.map.source with
      | none =>
          have h1 : ({ s with selection := sel } : EduState).map.source = none := hsrc
          unfold toggleAmenity at hd
          rw [applyAmenityFilter_of_no_source _ h1] at hd
          rw [h1] at hd
          exact absurd hd (by simp)
      | some d0 =>
          have h1 : ({ s with selection := sel } : EduState).map.source = some d0 := hsrc
          have h2 := applyAmenityFilter_of_source _ d0 h1
          unfold toggleAmenity at hd ⊢
          rw [h2.2.1] at hd
          rw [h2.1, h2.2.2.1, h2.2.2.2]
          exact ⟨(Option.some.inj hd).symm, rfl⟩
    · subst h
      rw [hc.1] at hd
      exact absurd hd (by simp)
    · subst h
      rw [hr.1] at hd
      exact absurd hd (by simp)
  · rw [hc.2.1, hc.2.2, filter_emptyCollection]
  · intro hsrc
    unfold toggleAmenity
    exact applyAmenityFilter_of_no_source _ hsrc

/-- Witness for `filtered_consistent_with_source`: a toggle in `removedState`, which has no
data source, only records the selection. -/
theorem filtered_consistent_with_source_witness :
    removedState.map.source = none
      ∧ toggleAmenity removedState [] = { removedState with selection := [] } :=
  ⟨by decide,
   (filtered_consistent_with_source removedState emptyCollection []).2.2.2.1 (by decide)⟩

/-! ### The view coordinator -/

/-- C4 (the code at the failing inputs): in `staleAfterCacheHit` the evaluation of `"kB"` at
time 3 is a cache hit, which returns before the controller of the pending fetch for `"kA"` is
aborted; when that fetch resolves its collection is written to the cache and handed to
`ensureEducationLayers`, replacing the collection of the most recent evaluation. In
`staleAfterClobber` the same happens between two fetches: the fetch for `"k2"` is never
aborted and its result, arriving after the one for `"k3"`, is cached and rendered. -/
theorem stale_result_applied :
    (runCoord (initialState AMENITY_CATEGORIES) (staleAfterCacheHit.take 4)).currentEduGeoJSON
        = collegeCollection
      ∧ (liveFetches (runCoord (initialState AMENITY_CATEGORIES)
            (staleAfterCacheHit.take 4))).map Fetch.key = ["kA"]
      ∧ (runCoord (initialState AMENITY_CATEGORIES) staleAfterCacheHit).currentEduGeoJSON
        = schoolCollection
      ∧ (runCoord (initialState AMENITY_CATEGORIES) staleAfterCacheHit).map.source
        = some schoolCollection
      ∧ assocGet (runCoord (initialState AMENITY_CATEGORIES) staleAfterCacheHit).bboxCache "kA"
        = some ⟨schoolCollection, 4⟩
      ∧ (runCoord (initialState AMENITY_CATEGORIES) (staleAfterClobber.take 5)).currentEduGeoJSON
        = collegeCollection
      ∧ (runCoord (initialState AMENITY_CATEGORIES) staleAfterClobber).currentEduGeoJSON
        = schoolCollection
      ∧ assocGet (runCoord (initialState AMENITY_CATEGORIES) staleAfterClobber).bboxCache "k2"
        = some ⟨schoolCollection, 4⟩ := by
  decide

/-- C5 (the code at the failing input): after `clobberedController` two fetches, for `"k2"`
and for `"k3"`, are outstanding and neither signal has been aborted: the `finally` block of
the aborted fetch 0 set `inflightController = null` while it held the controller of fetch 1,
so the timer callback for `"k3"` found nothing to abort. -/
theorem two_live_fetches :
    (liveFetches (runCoord (initialState AMENITY_CATEGORIES) clobberedController)).map Fetch.key
        = ["k2", "k3"]
      ∧ (liveFetches (runCoord (initialState AMENITY_CATEGORIES) clobberedController)).length = 2
      ∧ (runCoord (initialState AMENITY_CATEGORIES)
            (clobberedController.take 3)).inflightController = none
      ∧ (liveFetches (runCoord (initialState AMENITY_CATEGORIES)
            (clobberedController.take 3))).map Fetch.key = ["k2"] := by
  decide

/-! ### The cache key -/

theorem roundHalfEven_le (z : Rat) (A : Int) (h : z ≤ A) : roundHalfEven z ≤ A := by
  have hf := Int.floor_le z
  have h1 : ⌊z⌋ ≤ A := by exact_mod_cast hf.trans h
  unfold roundHalfEven
  split
  · exact h1
  · rename_i hlt
    have hpos : (⌊z⌋ : Rat) < z := by linarith [not_lt.1 hlt]
    have h2 : ⌊z⌋ < A := by exact_mod_cast lt_of_lt_of_le hpos h
    split
    · omega
    · split
      · exact h1
      · omega

theorem le_roundHalfEven (z : Rat) (A : Int) (h : (A : Rat) ≤ z) : A ≤ roundHalfEven z := by
  have h1 : A ≤ ⌊z⌋ := Int.le_floor.2 h
  unfold roundHalfEven
  split_ifs <;> omega

theorem quantumExponent_le (q : Rat) (K : Nat) (hK : K ≤ 52)
    (hq : |q| < (2 : Rat) ^ (53 - (K : Int))) : quantumExponent q ≤ -(K : Int) := by
  unfold quantumExponent
  have hlog : Int.log 2 |q| ≤ 52 - (K : Int) := by
    rcases eq_or_ne q 0 with h0 | h0
    · subst h0
      simp only [abs_zero, Int.log_zero_right]
      omega
    · have hpos : 0 < |q| := abs_pos.2 h0
      have h2 : |q| < ((2 : Nat) : Rat) ^ (53 - (K : Int)) := by simpa using hq
      have := (Int.lt_zpow_iff_log_lt (by norm_num : 1 < 2) hpos).1 h2
      omega
  have : max (Int.log 2 |q|) (-1022) ≤ 52 - (K : Int) := max_le hlog (by omega)
  omega

theorem roundValue_grid (q : Rat) (K : Nat) (m : Int) (hK : K ≤ 52)
    (hq : |q| < (2 : Rat) ^ (53 - (K : Int))) :
    (q ≤ (m : Rat) / 2 ^ K → roundValue q ≤ (m : Rat) / 2 ^ K)
      ∧ ((m : Rat) / 2 ^ K ≤ q → (m : Rat) / 2 ^ K ≤ roundValue q) := by
  have hqe := quantumExponent_le q K hK hq
  obtain ⟨d, hd⟩ : ∃ d : Nat, quantumExponent q = -(K : Int) - d :=
    ⟨(-(K : Int) - quantumExponent q).toNat, by omega⟩
  have hu : (0 : Rat) < 2 ^ quantumExponent q := zpow_pos (by norm_num) _
  have ha : (m : Rat) / 2 ^ K = ((m * 2 ^ d : Int) : Rat) * 2 ^ quantumExponent q := by
    rw [hd]
    push_cast
    rw [zpow_sub₀ (by norm_num), zpow_neg, zpow_natCast, zpow_natCast]
    field_simp
    ring
  unfold roundValue
  rw [ha]
  constructor
  · intro h
    have h1 : q / 2 ^ quantumExponent q ≤ ((m * 2 ^ d : Int) : Rat) := by
      rw [div_le_iff₀ hu]
      exact h
    have h2 := roundHalfEven_le _ _ h1
    exact mul_le_mul_of_nonneg_right (by exact_mod_cast h2) hu.le
  · intro h
    have h1 : ((m * 2 ^ d : Int) : Rat) ≤ q / 2 ^ quantumExponent q := by
      rw [le_div_iff₀ hu]
      exact h
    have h2 := le_roundHalfEven _ _ h1
    exact mul_le_mul_of_nonneg_right (by exact_mod_cast h2) hu.le

theorem roundValue_abs_le (q : Rat) (N : Int) (hN : (N : Rat) ≤ 2 ^ 52) (hq : |q| ≤ N) :
    |roundValue q| ≤ N := by
  have hlt : |q| < (2 : Rat) ^ (53 - ((0 : Nat) : Int)) := by
    have : (2 : Rat) ^ (53 - ((0 : Nat) : Int)) = 2 ^ 53 := by norm_num
    rw [this]
    have : (2 : Rat) ^ 52 < 2 ^ 53 := by norm_num
    linarith
  have h1 := (roundValue_grid q 0 N (by omega) hlt).1
  have h2 := (roundValue_grid q 0 (-N) (by omega) hlt).2
  have hq' := abs_le.1 hq
  rw [abs_le]
  constructor
  · have := h2 (by push_cast; simp only [pow_zero, div_one]; linarith)
    push_cast at this
    simpa using this
  · have := h1 (by simp only [pow_zero, div_one]; linarith)
    simpa using this

theorem roundBinary64_finite (q : Rat) (hq : |q| ≤ 2 ^ 52) :
    roundBinary64 q = JsNumber.finite (roundValue q) := by
  have h := roundValue_abs_le q (2 ^ 52) (by norm_num) (by push_cast; exact hq)
  have h' := abs_le.1 h
  have hbig : (2 : Rat) ^ 52 < 2 ^ 1024 := by
    apply pow_lt_pow_right₀ (by norm_num) (by norm_num)
  push_cast at h'
  unfold roundBinary64
  rw [if_neg (by linarith), if_neg (by linarith)]

theorem mathRound_le (z : Rat) (n : Int) (h : z ≤ n) : mathRound z ≤ n := by
  unfold mathRound
  have : ⌊z + 1 / 2⌋ < n + 1 := by
    rw [Int.floor_lt]
    push_cast
    linarith
  omega

theorem le_mathRound (z : Rat) (n : Int) (h : (n : Rat) - 1 / 2 ≤ z) : n ≤ mathRound z := by
  unfold mathRound
  rw [Int.le_floor]
  linarith

theorem roundedProduct_eq (x : Rat) (n : Int) (hx : |x| ≤ 2 ^ 40)
    (h1 : (n : Rat) - 1 / 2 ≤ x * 200) (h2 : x * 200 ≤ n + 1 / 4) :
    mathRound (roundValue (x * 200)) = n := by
  have hq : |x * 200| < (2 : Rat) ^ (53 - ((2 : Nat) : Int)) := by
    rw [abs_mul]
    have : (2 : Rat) ^ (53 - ((2 : Nat) : Int)) = 2 ^ 51 := by norm_num
    rw [this]
    have h200 : |(200 : Rat)| = 200 := by norm_num
    rw [h200]
    have : (2 : Rat) ^ 40 * 200 < 2 ^ 51 := by norm_num
    nlinarith [abs_nonneg x]
  have hlo := (roundValue_grid (x * 200) 2 (4 * n - 2) (by omega) hq).2
    (by push_cast; linarith)
  have hhi := (roundValue_grid (x * 200) 2 (4 * n + 1) (by omega) hq).1
    (by push_cast; linarith)
  push_cast at hlo hhi
  apply le_antisymm
  · unfold mathRound
    have : ⌊roundValue (x * 200) + 1 / 2⌋ < n + 1 := by
      rw [Int.floor_lt]
      push_cast
      linarith
    omega
  · apply le_mathRound
    linarith

theorem mathRound_le_of_lt (z : Rat) (n : Int) (h : z < n + 1 / 2) : mathRound z ≤ n := by
  unfold mathRound
  have : ⌊z + 1 / 2⌋ < n + 1 := by
    rw [Int.floor_lt]
    push_cast
    linarith
  omega

theorem roundedProduct_lt (x y : Rat) (hx : |x| ≤ 2 ^ 20) (hy : |y| ≤ 2 ^ 20)
    (h : x + 1 / 200 + 1 / 10 ^ 9 ≤ y) :
    mathRound (roundValue (x * 200)) < mathRound (roundValue (y * 200)) := by
  have hb : ∀ t : Rat, |t| ≤ 2 ^ 20 → |t * 200| < (2 : Rat) ^ (53 - ((24 : Nat) : Int)) := by
    intro t ht
    rw [abs_mul]
    have : (2 : Rat) ^ (53 - ((24 : Nat) : Int)) = 2 ^ 29 := by norm_num
    rw [this]
    have h200 : |(200 : Rat)| = 200 := by norm_num
    rw [h200]
    have : (2 : Rat) ^ 20 * 200 < 2 ^ 29 := by norm_num
    nlinarith [abs_nonneg t]
  have hn1 : ((mathRound (x * 200) : Int) : Rat) ≤ x * 200 + 1 / 2 := Int.floor_le _
  have hn2 : x * 200 + 1 / 2 < (mathRound (x * 200) : Int) + 1 := Int.lt_floor_add_one _
  generalize mathRound (x * 200) = n at hn1 hn2
  have hp : x * 200 + 1 + 1 / 2 ^ 24 ≤ y * 200 := by
    have : (1 : Rat) / 2 ^ 24 ≤ 200 * (1 / 10 ^ 9) := by norm_num
    linarith
  rcases le_or_lt (x * 200) ((n : Rat) + 1 / 2 - 1 / 2 ^ 24) with hA | hB
  · have h1 := (roundValue_grid (x * 200) 24 ((2 * n + 1) * 2 ^ 23 - 1) (by omega) (hb x hx)).1
      (by
        have : (((2 * n + 1) * 2 ^ 23 - 1 : Int) : Rat) / 2 ^ 24 = (n : Rat) + 1 / 2 - 1 / 2 ^ 24 := by
          push_cast
          field_simp
          ring
        rw [this]
        exact hA)
    have h1' : (((2 * n + 1) * 2 ^ 23 - 1 : Int) : Rat) / 2 ^ 24 = (n : Rat) + 1 / 2 - 1 / 2 ^ 24 := by
      push_cast
      field_simp
      ring
    rw [h1'] at h1
    have h2' : (((2 * n + 1) * 2 ^ 23 : Int) : Rat) / 2 ^ 24 = (n : Rat) + 1 / 2 := by
      push_cast
      field_simp
      ring
    have h2 := (roundValue_grid (y * 200) 24 ((2 * n + 1) * 2 ^ 23) (by omega) (hb y hy)).2
      (by rw [h2']; linarith)
    rw [h2'] at h2
    have hpos : (0 : Rat) < 1 / 2 ^ 24 := by norm_num
    have r1 := mathRound_le_of_lt (roundValue (x * 200)) n (by linarith)
    have r2 := le_mathRound (roundValue (y * 200)) (n + 1) (by push_cast; linarith)
    omega
  · have h1' : (((2 * n + 1) * 2 ^ 23 : Int) : Rat) / 2 ^ 24 = (n : Rat) + 1 / 2 := by
      push_cast
      field_simp
      ring
    have h1 := (roundValue_grid (x * 200) 24 ((2 * n + 1) * 2 ^ 23) (by omega) (hb x hx)).1
      (by rw [h1']; linarith)
    rw [h1'] at h1
    have h2' : (((2 * n + 3) * 2 ^ 23 : Int) : Rat) / 2 ^ 24 = (n : Rat) + 3 / 2 := by
      push_cast
      field_simp
      ring
    have h2 := (roundValue_grid (y * 200) 24 ((2 * n + 3) * 2 ^ 23) (by omega) (hb y hy)).2
      (by rw [h2']; linarith)
    rw [h2'] at h2
    have r1 := mathRound_le (roundValue (x * 200)) (n + 1) (by push_cast; linarith)
    have r2 := le_mathRound (roundValue (y * 200)) (n + 2) (by push_cast; linarith)
    omega

theorem roundedProduct_abs_le (x : Rat) (hx : |x| ≤ 2 ^ 40) :
    |((mathRound (roundValue (x * 200)) : Int) : Rat)| ≤ 2 ^ 48 := by
  have hq : |x * 200| ≤ ((2 ^ 48 : Int) : Rat) := by
    rw [abs_mul]
    have h200 : |(200 : Rat)| = 200 := by norm_num
    rw [h200]
    push_cast
    have : (2 : Rat) ^ 40 * 200 ≤ 2 ^ 48 := by norm_num
    nlinarith [abs_nonneg x]
  have h := abs_le.1 (roundValue_abs_le (x * 200) (2 ^ 48) (by norm_num) hq)
  have h1 := mathRound_le (roundValue (x * 200)) (2 ^ 48) h.2
  have h2 := le_mathRound (roundValue (x * 200)) (-2 ^ 48) (by push_cast at h ⊢; linarith)
  rw [abs_le]
  constructor
  · exact_mod_cast h2
  · exact_mod_cast h1

theorem roundValue_div200_lt (n1 n2 : Int) (h : n1 < n2) (h1 : |(n1 : Rat)| ≤ 2 ^ 48)
    (h2 : |(n2 : Rat)| ≤ 2 ^ 48) :
    roundValue ((n1 : Rat) / 200) < roundValue ((n2 : Rat) / 200) := by
  have hb : ∀ n : Int, |(n : Rat)| ≤ 2 ^ 48 →
      |(n : Rat) / 200| < (2 : Rat) ^ (53 - ((9 : Nat) : Int)) := by
    intro n hn
    rw [abs_div]
    have : (2 : Rat) ^ (53 - ((9 : Nat) : Int)) = 2 ^ 44 := by norm_num
    rw [this]
    have h200 : |(200 : Rat)| = 200 := by norm_num
    rw [h200, div_lt_iff₀ (by norm_num)]
    have : (2 : Rat) ^ 48 < 2 ^ 44 * 200 := by norm_num
    linarith
  have hc1 := Int.le_ceil ((n1 : Rat) / 200 * 512)
  have hc2 := Int.ceil_lt_add_one ((n1 : Rat) / 200 * 512)
  have hn : (n1 : Rat) + 1 ≤ n2 := by exact_mod_cast h
  have hlo := (roundValue_grid ((n1 : Rat) / 200) 9 ⌈(n1 : Rat) / 200 * 512⌉ (by omega)
    (hb n1 h1)).1 (by norm_num; linarith)
  have hhi := (roundValue_grid ((n2 : Rat) / 200) 9 (⌈(n1 : Rat) / 200 * 512⌉ + 1) (by omega)
    (hb n2 h2)).2 (by push_cast; norm_num; linarith)
  push_cast at hlo hhi
  have : (⌈(n1 : Rat) / 200 * 512⌉ : Rat) / 2 ^ 9 < ((⌈(n1 : Rat) / 200 * 512⌉ : Rat) + 1) / 2 ^ 9 := by
    norm_num
    linarith
  linarith

theorem roundCorner_of_bounded (x : Rat) (hx : |x| ≤ 2 ^ 40) :
    roundCorner x
      = JsNumber.finite (roundValue (((mathRound (roundValue (x * 200)) : Int) : Rat) / 200)) := by
  have hq : |x * 200| ≤ 2 ^ 52 := by
    rw [abs_mul]
    have h200 : |(200 : Rat)| = 200 := by norm_num
    rw [h200]
    have : (2 : Rat) ^ 40 * 200 ≤ 2 ^ 52 := by norm_num
    nlinarith [abs_nonneg x]
  have hn := roundedProduct_abs_le x hx
  have hd : |((mathRound (roundValue (x * 200)) : Int) : Rat) / 200| ≤ 2 ^ 52 := by
    rw [abs_div]
    have h200 : |(200 : Rat)| = 200 := by norm_num
    rw [h200, div_le_iff₀ (by norm_num)]
    have : (2 : Rat) ^ 48 ≤ 2 ^ 52 * 200 := by norm_num
    linarith
  unfold roundCorner
  rw [roundBinary64_finite _ hq]
  show roundBinary64 _ = _
  rw [roundBinary64_finite _ hd]

theorem roundCorner_eq_iff (x y : Rat) (hx : |x| ≤ 2 ^ 40) (hy : |y| ≤ 2 ^ 40) :
    roundCorner x = roundCorner y
      ↔ mathRound (roundValue (x * 200)) = mathRound (roundValue (y * 200)) := by
  rw [roundCorner_of_bounded x hx, roundCorner_of_bounded y hy]
  constructor
  · intro h
    have hv := JsNumber.finite.inj h
    rcases lt_trichotomy (mathRound (roundValue (x * 200))) (mathRound (roundValue (y * 200)))
      with hlt | heq | hgt
    · have := roundValue_div200_lt _ _ hlt (roundedProduct_abs_le x hx)
        (roundedProduct_abs_le y hy)
      linarith
    · exact heq
    · have := roundValue_div200_lt _ _ hgt (roundedProduct_abs_le y hy)
        (roundedProduct_abs_le x hx)
      linarith
  · intro h
    rw [h]

theorem pow_twenty_le : (2 : Rat) ^ 20 ≤ 2 ^ 40 := by norm_num

theorem roundCorner_ne_of_dist (x y : Rat) (hx : |x| ≤ 2 ^ 20) (hy : |y| ≤ 2 ^ 20)
    (h : 1 / 200 + 1 / 10 ^ 9 ≤ |x - y|) : roundCorner x ≠ roundCorner y := by
  rw [Ne, roundCorner_eq_iff x y (hx.trans pow_twenty_le) (hy.trans pow_twenty_le)]
  rcases le_abs.1 h with h1 | h1
  · have := roundedProduct_lt y x hy hx (by linarith)
    omega
  · have := roundedProduct_lt x y hx hy (by linarith)
    omega

theorem quantumExponent_eq (q : Rat) (e : Int) (h1 : (2 : Rat) ^ e ≤ |q|)
    (h2 : |q| < (2 : Rat) ^ (e + 1)) (he : -1022 ≤ e) : quantumExponent q = e - 52 := by
  have hpos : 0 < |q| := lt_of_lt_of_le (zpow_pos (by norm_num) e) h1
  have ha : e ≤ Int.log 2 |q| :=
    (Int.zpow_le_iff_le_log (by norm_num : 1 < 2) hpos).1 (by simpa using h1)
  have hb : Int.log 2 |q| < e + 1 :=
    (Int.lt_zpow_iff_log_lt (by norm_num : 1 < 2) hpos).1 (by simpa using h2)
  unfold quantumExponent
  have : Int.log 2 |q| = e := by omega
  rw [this, max_eq_left he]

theorem roundHalfEven_near (z : Rat) (m : Int) (h1 : (m : Rat) - 1 / 2 < z)
    (h2 : z < m + 1 / 2) : roundHalfEven z = m := by
  unfold roundHalfEven
  rcases lt_or_le z m with hlt | hge
  · have hf : ⌊z⌋ = m - 1 := by
      rw [Int.floor_eq_iff]
      push_cast
      constructor <;> linarith
    rw [hf]
    push_cast
    rw [if_neg (by linarith), if_pos (by linarith)]
    omega
  · have hf : ⌊z⌋ = m := by
      rw [Int.floor_eq_iff]
      constructor <;> linarith
    rw [hf, if_pos (by linarith)]

theorem roundHalfEven_tie_below (z : Rat) (m : Int) (h : z = (m : Rat) - 1 / 2)
    (heven : m % 2 = 0) : roundHalfEven z = m := by
  unfold roundHalfEven
  have hf : ⌊z⌋ = m - 1 := by
    rw [Int.floor_eq_iff]
    push_cast
    constructor <;> linarith
  rw [hf]
  push_cast
  rw [if_neg (by linarith), if_neg (by linarith), if_neg (by omega)]
  omega

theorem roundValue_eq (q : Rat) (e m : Int) (h1 : (2 : Rat) ^ e ≤ |q|)
    (h2 : |q| < (2 : Rat) ^ (e + 1)) (he : -1022 ≤ e)
    (hm : roundHalfEven (q / (2 : Rat) ^ (e - 52)) = m) :
    roundValue q = (m : Rat) * (2 : Rat) ^ (e - 52) := by
  unfold roundValue
  rw [quantumExponent_eq q e h1 h2 he, hm]

theorem roundValue_near (q : Rat) (hq : |q| ≤ 2 ^ 30) :
    q - 1 / 2 ^ 20 ≤ roundValue q ∧ roundValue q ≤ q + 1 / 2 ^ 20 := by
  have hlt : |q| < (2 : Rat) ^ (53 - ((20 : Nat) : Int)) := by
    have : (2 : Rat) ^ (53 - ((20 : Nat) : Int)) = 2 ^ 33 := by norm_num
    rw [this]
    have : (2 : Rat) ^ 30 < 2 ^ 33 := by norm_num
    linarith
  have hf1 := Int.floor_le (q * 2 ^ 20)
  have hf2 := Int.lt_floor_add_one (q * 2 ^ 20)
  have hp : (0 : Rat) < 2 ^ 20 := by norm_num
  have hlo := (roundValue_grid q 20 ⌊q * 2 ^ 20⌋ (by omega) hlt).2
    (by rw [div_le_iff₀ hp]; exact hf1)
  have hhi := (roundValue_grid q 20 (⌊q * 2 ^ 20⌋ + 1) (by omega) hlt).1
    (by rw [le_div_iff₀ hp]; push_cast; exact hf2.le)
  push_cast at hhi
  have h3 : q - 1 / 2 ^ 20 ≤ (⌊q * 2 ^ 20⌋ : Rat) / 2 ^ 20 := by
    rw [le_div_iff₀ hp]
    have : (q - 1 / 2 ^ 20) * 2 ^ 20 = q * 2 ^ 20 - 1 := by field_simp
    rw [this]
    linarith
  have h4 : ((⌊q * 2 ^ 20⌋ : Rat) + 1) / 2 ^ 20 ≤ q + 1 / 2 ^ 20 := by
    rw [div_le_iff₀ hp]
    have : (q + 1 / 2 ^ 20) * 2 ^ 20 = q * 2 ^ 20 + 1 := by field_simp
    rw [this]
    linarith
  constructor <;> linarith

theorem sample_near (c d : Rat) (hc : |c| ≤ 100) (hd : |d| ≤ 100) :
    |roundValue (numberLiteral c + numberLiteral d) - (c + d)| ≤ 3 / 2 ^ 20
      ∧ |numberLiteral c - c| ≤ 1 / 2 ^ 20 := by
  have hc' := abs_le.1 hc
  have hd' := abs_le.1 hd
  have h1 := roundValue_near c (by rw [abs_le]; constructor <;> norm_num <;> linarith)
  have h2 := roundValue_near d (by rw [abs_le]; constructor <;> norm_num <;> linarith)
  have h30 : (1 : Rat) / 2 ^ 20 ≤ 1 := by norm_num
  have h3 := roundValue_near (numberLiteral c + numberLiteral d) (by
    unfold numberLiteral
    rw [abs_le]
    constructor <;> norm_num <;> linarith)
  unfold numberLiteral at h3 ⊢
  constructor
  · rw [abs_le]
    constructor <;> linarith
  · rw [abs_le]
    constructor <;> linarith

theorem literal_product (c : Rat) (n : Int) (hc : |c| ≤ 100)
    (h1 : (n : Rat) - 2 / 5 ≤ c * 200) (h2 : c * 200 ≤ n + 9 / 40) :
    |numberLiteral c| ≤ 2 ^ 20 ∧ mathRound (roundValue (numberLiteral c * 200)) = n := by
  have hn := abs_le.1 (sample_near c 0 hc (by norm_num)).2
  have hc' := abs_le.1 hc
  have he : (1 : Rat) / 2 ^ 20 ≤ 1 / 1000000 := by norm_num
  have hb : |numberLiteral c| ≤ 2 ^ 20 := by
    rw [abs_le]
    constructor <;> norm_num <;> linarith
  exact ⟨hb, roundedProduct_eq _ n (hb.trans pow_twenty_le) (by linarith) (by linarith)⟩

theorem shifted_product (c d : Rat) (n : Int) (hc : |c| ≤ 100) (hd : |d| ≤ 100)
    (h1 : (n : Rat) - 2 / 5 ≤ (c + d) * 200) (h2 : (c + d) * 200 ≤ n + 9 / 40) :
    |roundValue (numberLiteral c + numberLiteral d)| ≤ 2 ^ 20
      ∧ mathRound (roundValue (roundValue (numberLiteral c + numberLiteral d) * 200)) = n := by
  have hn := abs_le.1 (sample_near c d hc hd).1
  have hc' := abs_le.1 hc
  have hd' := abs_le.1 hd
  have he : (3 : Rat) / 2 ^ 20 ≤ 3 / 1000000 := by norm_num
  have hb : |roundValue (numberLiteral c + numberLiteral d)| ≤ 2 ^ 20 := by
    rw [abs_le]
    constructor <;> norm_num <;> linarith
  exact ⟨hb, roundedProduct_eq _ n (hb.trans pow_twenty_le) (by linarith) (by linarith)⟩

theorem sampleBounds_products :
    sampleBounds.within (2 ^ 20)
      ∧ mathRound (roundValue (sampleBounds.south * 200)) = 6200
      ∧ mathRound (roundValue (sampleBounds.west * 200)) = 6940
      ∧ mathRound (roundValue (sampleBounds.north * 200)) = 6220
      ∧ mathRound (roundValue (sampleBounds.east * 200)) = 6980 := by
  have hs := literal_product 31 6200 (by norm_num [abs_le]) (by norm_num) (by norm_num)
  have hw := literal_product 34.7 6940 (by norm_num [abs_le]) (by norm_num) (by norm_num)
  have hn := literal_product 31.1 6220 (by norm_num [abs_le]) (by norm_num) (by norm_num)
  have he := literal_product 34.9 6980 (by norm_num [abs_le]) (by norm_num) (by norm_num)
  exact ⟨⟨hs.1, hw.1, hn.1, he.1⟩, hs.2, hw.2, hn.2, he.2⟩

theorem shiftBounds_products (d : Rat) (k : Int) (hd : |d| ≤ 100)
    (h1 : (k : Rat) - 2 / 5 ≤ d * 200) (h2 : d * 200 ≤ k + 9 / 40) :
    (shiftBounds sampleBounds (numberLiteral d)).within (2 ^ 20)
      ∧ mathRound (roundValue ((shiftBounds sampleBounds (numberLiteral d)).south * 200))
          = 6200 + k
      ∧ mathRound (roundValue ((shiftBounds sampleBounds (numberLiteral d)).west * 200))
          = 6940 + k
      ∧ mathRound (roundValue ((shiftBounds sampleBounds (numberLiteral d)).north * 200))
          = 6220 + k
      ∧ mathRound (roundValue ((shiftBounds sampleBounds (numberLiteral d)).east * 200))
          = 6980 + k := by
  have hs := shifted_product 31 d (6200 + k) (by norm_num [abs_le]) hd
    (by push_cast; linarith) (by push_cast; linarith)
  have hw := shifted_product 34.7 d (6940 + k) (by norm_num [abs_le]) hd
    (by push_cast; norm_num; linarith) (by push_cast; norm_num; linarith)
  have hn := shifted_product 31.1 d (6220 + k) (by norm_num [abs_le]) hd
    (by push_cast; norm_num; linarith) (by push_cast; norm_num; linarith)
  have he := shifted_product 34.9 d (6980 + k) (by norm_num [abs_le]) hd
    (by push_cast; norm_num; linarith) (by push_cast; norm_num; linarith)
  exact ⟨⟨hs.1, hw.1, hn.1, he.1⟩, hs.2, hw.2, hn.2, he.2⟩

theorem bboxKey_eq_iff (zoom : Rat) (b1 b2 : LngLatBounds) (h1 : b1.within (2 ^ 40))
    (h2 : b2.within (2 ^ 40)) :
    bboxKey zoom b1 = bboxKey zoom b2
      ↔ mathRound (roundValue (b1.south * 200)) = mathRound (roundValue (b2.south * 200))
        ∧ mathRound (roundValue (b1.west * 200)) = mathRound (roundValue (b2.west * 200))
        ∧ mathRound (roundValue (b1.north * 200)) = mathRound (roundValue (b2.north * 200))
        ∧ mathRound (roundValue (b1.east * 200)) = mathRound (roundValue (b2.east * 200)) := by
  simp only [bboxKey, List.cons.injEq, true_and, and_true]
  rw [roundCorner_eq_iff _ _ h1.1 h2.1, roundCorner_eq_iff _ _ h1.2.1 h2.2.1,
    roundCorner_eq_iff _ _ h1.2.2.1 h2.2.2.1, roundCorner_eq_iff _ _ h1.2.2.2 h2.2.2.2]

theorem within_mono (b : LngLatBounds) (l1 l2 : Rat) (h : l1 ≤ l2) (hb : b.within l1) :
    b.within l2 :=
  ⟨hb.1.trans h, hb.2.1.trans h, hb.2.2.1.trans h, hb.2.2.2.trans h⟩

theorem bboxKey_ne_of_dist (zoom1 zoom2 : Rat) (b1 b2 : LngLatBounds)
    (h1 : b1.within (2 ^ 20)) (h2 : b2.within (2 ^ 20))
    (h : 1 / 200 + 1 / 10 ^ 9 ≤ |b1.south - b2.south|
      ∨ 1 / 200 + 1 / 10 ^ 9 ≤ |b1.west - b2.west|
      ∨ 1 / 200 + 1 / 10 ^ 9 ≤ |b1.north - b2.north|
      ∨ 1 / 200 + 1 / 10 ^ 9 ≤ |b1.east - b2.east|) :
    bboxKey zoom1 b1 ≠ bboxKey zoom2 b2 := by
  intro heq
  simp only [bboxKey, List.cons.injEq, and_true] at heq
  obtain ⟨_, hs, hw, hn, he⟩ := heq
  rcases h with h | h | h | h
  · exact roundCorner_ne_of_dist _ _ h1.1 h2.1 h hs
  · exact roundCorner_ne_of_dist _ _ h1.2.1 h2.2.1 h hw
  · exact roundCorner_ne_of_dist _ _ h1.2.2.1 h2.2.2.1 h hn
  · exact roundCorner_ne_of_dist _ _ h1.2.2.2 h2.2.2.2 h he

theorem sample_shift_dist (d : Rat) (hd : |d| ≤ 100) (h : 1 / 100 ≤ d) :
    1 / 200 + 1 / 10 ^ 9
      ≤ |sampleBounds.south - (shiftBounds sampleBounds (numberLiteral d)).south| := by
  have hn := abs_le.1 (sample_near 31 d (by norm_num [abs_le]) hd).1
  have hm := abs_le.1 (sample_near 31 d (by norm_num [abs_le]) hd).2
  have he : (1 : Rat) / 2 ^ 20 ≤ 1 / 1000000 := by norm_num
  have he3 : (3 : Rat) / 2 ^ 20 ≤ 3 / 1000000 := by norm_num
  show 1 / 200 + 1 / 10 ^ 9
    ≤ |numberLiteral 31 - roundValue (numberLiteral 31 + numberLiteral d)|
  rw [abs_sub_comm]
  apply le_trans _ (le_abs_self _)
  linarith

theorem nearTie_values :
    numberLiteral (-0.6425000000000001) = -361695345073193 / 562949953421312
      ∧ numberLiteral (-0.6375000000000001) = -5742089524897383 / 9007199254740992
      ∧ roundValue (numberLiteral (-0.6425000000000001) * 200) = -257 / 2
      ∧ roundValue (numberLiteral (-0.6375000000000001) * 200)
          = -8972014882652161 / 70368744177664 := by
  have hx : numberLiteral (-0.6425000000000001) = -361695345073193 / 562949953421312 := by
    unfold numberLiteral
    rw [roundValue_eq _ (-1) (-5787125521171088) (by norm_num [abs_of_neg])
      (by norm_num [abs_of_neg]) (by norm_num)
      (roundHalfEven_near _ _ (by norm_num) (by norm_num))]
    norm_num
  have hy : numberLiteral (-0.6375000000000001) = -5742089524897383 / 9007199254740992 := by
    unfold numberLiteral
    rw [roundValue_eq _ (-1) (-5742089524897383) (by norm_num [abs_of_neg])
      (by norm_num [abs_of_neg]) (by norm_num)
      (roundHalfEven_near _ _ (by norm_num) (by norm_num))]
    norm_num
  refine ⟨hx, hy, ?_, ?_⟩
  · rw [hx, roundValue_eq _ 7 (-4521191813414912) (by norm_num [abs_of_neg])
      (by norm_num [abs_of_neg]) (by norm_num)
      (roundHalfEven_tie_below _ _ (by norm_num) (by norm_num))]
    norm_num
  · rw [hy, roundValue_eq _ 6 (-8972014882652161) (by norm_num [abs_of_neg])
      (by norm_num [abs_of_neg]) (by norm_num)
      (roundHalfEven_near _ _ (by norm_num) (by norm_num))]
    norm_num

/-- C11 (counterexample): the numbers denoted by `-0.6425000000000001` and
`-0.6375000000000001` differ by more than 1/200 degree, yet `bboxKey` gives the same key for
two boxes that differ in that corner only. The binary64 product of the first with 200 is
exactly `-128.5`, which `Math.round` takes upwards to `-128`; the product of the second is
just below `-127.5` and goes to `-128` too. -/
theorem bboxKey_shared_beyond_step :
    numberLiteral (-0.6425000000000001) = -361695345073193 / 562949953421312
      ∧ numberLiteral (-0.6375000000000001) = -5742089524897383 / 9007199254740992
      ∧ 1 / 200 < |numberLiteral (-0.6425000000000001) - numberLiteral (-0.6375000000000001)|
      ∧ roundValue (numberLiteral (-0.6425000000000001) * 200) = -257 / 2
      ∧ mathRound (roundValue (numberLiteral (-0.6425000000000001) * 200)) = -128
      ∧ mathRound (roundValue (numberLiteral (-0.6375000000000001) * 200)) = -128
      ∧ ∀ zoom : Rat, bboxKey zoom (nearTieBounds (-0.6425000000000001))
          = bboxKey zoom (nearTieBounds (-0.6375000000000001)) := by
  obtain ⟨hx, hy, hpx, hpy⟩ := nearTie_values
  have hrx : mathRound (roundValue (numberLiteral (-0.6425000000000001) * 200)) = -128 := by
    rw [hpx]
    unfold mathRound
    norm_num
  have hry : mathRound (roundValue (numberLiteral (-0.6375000000000001) * 200)) = -128 := by
    rw [hpy]
    unfold mathRound
    rw [Int.floor_eq_iff]
    norm_num
  refine ⟨hx, hy, ?_, hpx, hrx, hry, ?_⟩
  · rw [hx, hy]
    norm_num [abs_of_neg]
  · intro zoom
    have hc : roundCorner (numberLiteral (-0.6425000000000001))
        = roundCorner (numberLiteral (-0.6375000000000001)) := by
      unfold roundCorner
      rw [roundBinary64_finite _ (by rw [hx]; norm_num [abs_of_neg]),
        roundBinary64_finite _ (by rw [hy]; norm_num [abs_of_neg])]
      show JsNumber.over (JsNumber.finite _) 200 = JsNumber.over (JsNumber.finite _) 200
      rw [hrx, hry]
    simp only [bboxKey, nearTieBounds, hc]

/-- C11 (amended): in binary64 arithmetic, for every zoom and every two bounding boxes whose
corners are at most `2^20` in magnitude, `bboxKey` gives the same key exactly when
`Math.round(x * 200)` is the same integer for each corner of the first box and the
corresponding corner of the second (as for `{s:31.0,w:34.7,n:31.1,e:34.9}` at zoom 12.34 and
its copies moved by 0.001 and by -0.001 degree), and it gives different keys, whatever the
zooms, when some pair of corresponding corners differs by at least `1/200 + 10^-9` degree
(as for a copy moved by 0.5 degree). -/
theorem bboxKey_stable (zoom : Rat) (b1 b2 : LngLatBounds) (h1 : b1.within (2 ^ 20))
    (h2 : b2.within (2 ^ 20)) :
    (bboxKey zoom b1 = bboxKey zoom b2
        ↔ mathRound (roundValue (b1.south * 200)) = mathRound (roundValue (b2.south * 200))
          ∧ mathRound (roundValue (b1.west * 200)) = mathRound (roundValue (b2.west * 200))
          ∧ mathRound (roundValue (b1.north * 200)) = mathRound (roundValue (b2.north * 200))
          ∧ mathRound (roundValue (b1.east * 200)) = mathRound (roundValue (b2.east * 200)))
      ∧ (∀ zoom2 : Rat,
          (1 / 200 + 1 / 10 ^ 9 ≤ |b1.south - b2.south|
            ∨ 1 / 200 + 1 / 10 ^ 9 ≤ |b1.west - b2.west|
            ∨ 1 / 200 + 1 / 10 ^ 9 ≤ |b1.north - b2.north|
            ∨ 1 / 200 + 1 / 10 ^ 9 ≤ |b1.east - b2.east|) →
          bboxKey zoom b1 ≠ bboxKey zoom2 b2)
      ∧ bboxKey (numberLiteral 12.34) sampleBounds
          = bboxKey (numberLiteral 12.34) (shiftBounds sampleBounds (numberLiteral 0.001))
      ∧ bboxKey (numberLiteral 12.34) sampleBounds
          = bboxKey (numberLiteral 12.34) (shiftBounds sampleBounds (numberLiteral (-0.001)))
      ∧ bboxKey (numberLiteral 12.34) sampleBounds
          ≠ bboxKey (numberLiteral 12.34) (shiftBounds sampleBounds (numberLiteral 0.5)) := by
  obtain ⟨hsw, hs1, hs2, hs3, hs4⟩ := sampleBounds_products
  have hsw' := within_mono _ _ _ pow_twenty_le hsw
  refine ⟨bboxKey_eq_iff zoom b1 b2 (within_mono _ _ _ pow_twenty_le h1)
      (within_mono _ _ _ pow_twenty_le h2),
    fun zoom2 h => bboxKey_ne_of_dist zoom zoom2 b1 b2 h1 h2 h, ?_, ?_, ?_⟩
  · obtain ⟨hw, h1, h2, h3, h4⟩ := shiftBounds_products 0.001 0 (by norm_num [abs_le])
      (by norm_num) (by norm_num)
    rw [bboxKey_eq_iff _ _ _ hsw' (within_mono _ _ _ pow_twenty_le hw), hs1, hs2, hs3, hs4,
      h1, h2, h3, h4]
    simp
  · obtain ⟨hw, h1, h2, h3, h4⟩ := shiftBounds_products (-0.001) 0 (by norm_num [abs_le])
      (by norm_num) (by norm_num)
    rw [bboxKey_eq_iff _ _ _ hsw' (within_mono _ _ _ pow_twenty_le hw), hs1, hs2, hs3, hs4,
      h1, h2, h3, h4]
    simp
  · obtain ⟨hw, _⟩ := shiftBounds_products 0.5 100 (by norm_num [abs_le])
      (by norm_num) (by norm_num)
    exact bboxKey_ne_of_dist _ _ _ _ hsw hw
      (Or.inl (sample_shift_dist 0.5 (by norm_num [abs_le]) (by norm_num)))

/-- Witness for `bboxKey_stable`: the sample box and its copy moved by one degree have
different keys at zoom 12.34 and 12. -/
theorem bboxKey_stable_witness :
    bboxKey (numberLiteral 12.34) sampleBounds
      ≠ bboxKey 12 (shiftBounds sampleBounds (numberLiteral 1)) :=
  (bboxKey_stable (numberLiteral 12.34) sampleBounds (shiftBounds sampleBounds (numberLiteral 1))
    sampleBounds_products.1
    (shiftBounds_products 1 200 (by norm_num [abs_le]) (by norm_num) (by norm_num)).1).2.1 12
    (Or.inl (sample_shift_dist 1 (by norm_num [abs_le]) (by norm_num)))


/-! ### The effect of `cacheSet` and `cacheGet` -/

/-- The scan started from `(k, t)`: it either keeps `(k, t)`, every scanned timestamp being at
least `t`, or it ends on the first scanned entry of minimum timestamp, which lies below `t`. -/
theorem foldl_oldestStep_split (m : BboxCache) (k : String) (t : Int) :
    (m.foldl oldestStep (some k, some t) = (some k, some t) ∧ ∀ p ∈ m, t ≤ p.2.t)
      ∨ ∃ pre k0 e0 post, m = pre ++ (k0, e0) :: post
          ∧ m.foldl oldestStep (some k, some t) = (some k0, some e0.t)
          ∧ e0.t < t ∧ (∀ p ∈ pre, e0.t < p.2.t) ∧ (∀ p ∈ post, e0.t ≤ p.2.t) := by
  induction m generalizing k t with
  | nil => exact Or.inl ⟨rfl, by simp⟩
  | cons q rest ih =>
      simp only [List.foldl_cons]
      by_cases hq : q.2.t < t
      · have hstep : oldestStep (some k, some t) q = (some q.1, some q.2.t) := by
          simp [oldestStep, hq]
        rw [hstep]
        rcases ih q.1 q.2.t with ⟨h1, h2⟩ | ⟨pre, k0, e0, post, h1, h2, h3, h4, h5⟩
        · exact Or.inr ⟨[], q.1, q.2, rest, rfl, h1, hq, by simp, h2⟩
        · refine Or.inr ⟨q :: pre, k0, e0, post, by rw [h1]; rfl, h2, by omega, ?_, h5⟩
          intro p hp
          rcases List.mem_cons.1 hp with h | h
          · rw [h]; exact h3
          · exact h4 p h
      · have hstep : oldestStep (some k, some t) q = (some k, some t) := by
          simp [oldestStep, hq]
        rw [hstep]
        rcases ih k t with ⟨h1, h2⟩ | ⟨pre, k0, e0, post, h1, h2, h3, h4, h5⟩
        · refine Or.inl ⟨h1, ?_⟩
          intro p hp
          rcases List.mem_cons.1 hp with h | h
          · rw [h]; omega
          · exact h2 p h
        · refine Or.inr ⟨q :: pre, k0, e0, post, by rw [h1]; rfl, h2, h3, ?_, h5⟩
          intro p hp
          rcases List.mem_cons.1 hp with h | h
          · rw [h]; omega
          · exact h4 p h

/-- On a non-empty map the scan of `cacheSet` finds the first entry, in iteration order, among
those of minimum timestamp. -/
theorem findOldest_split (m : BboxCache) (hm : m ≠ []) :
    ∃ pre k0 e0 post, m = pre ++ (k0, e0) :: post
      ∧ (findOldest m).1 = some k0
      ∧ (∀ p ∈ pre, e0.t < p.2.t) ∧ (∀ p ∈ post, e0.t ≤ p.2.t) := by
  cases m with
  | nil => exact absurd rfl hm
  | cons q rest =>
      unfold findOldest
      simp only [List.foldl_cons]
      have h0 : oldestStep (none, none) q = (some q.1, some q.2.t) := rfl
      rw [h0]
      rcases foldl_oldestStep_split rest q.1 q.2.t with
        ⟨h1, h2⟩ | ⟨pre, k0, e0, post, h1, h2, h3, h4, h5⟩
      · exact ⟨[], q.1, q.2, rest, rfl, by rw [h1], by simp, h2⟩
      · refine ⟨q :: pre, k0, e0, post, by rw [h1]; rfl, by rw [h2], ?_, h5⟩
        intro p hp
        rcases List.mem_cons.1 hp with h | h
        · rw [h]; exact h3
        · exact h4 p h

/-- In a map without repeated keys, deleting the key of an entry removes that entry only. -/
theorem assocDelete_split {β : Type} (pre post : Assoc β) (k : String) (v : β)
    (hnd : ((pre ++ (k, v) :: post).map Prod.fst).Nodup) :
    assocDelete (pre ++ (k, v) :: post) k = pre ++ post := by
  rw [List.map_append, List.map_cons, List.nodup_append] at hnd
  obtain ⟨_, h2, h3⟩ := hnd
  have hpre : ∀ p ∈ pre, p.1 ≠ k := by
    intro p hp he
    exact h3 (List.mem_map.2 ⟨p, hp, he⟩) (List.mem_cons_self _ _)
  have hpost : ∀ p ∈ post, p.1 ≠ k := by
    intro p hp he
    have := (List.nodup_cons.1 h2).1
    exact this (List.mem_map.2 ⟨p, hp, he⟩)
  unfold assocDelete
  rw [List.filter_append, List.filter_cons]
  simp only [ne_eq, not_true_eq_false, decide_False, Bool.false_eq_true, if_false]
  rw [List.filter_eq_self.2 (fun p hp => by simpa using hpre p hp),
    List.filter_eq_self.2 (fun p hp => by simpa using hpost p hp)]

/-- C12 (as stated, refuted): a `cacheSet` under the new key `"z"` at clock time 5 on a cache
of twenty-five entries of timestamp 10 evicts the entry it has just inserted, so afterwards
there is no entry for `"z"`; and on a cache of twenty-five entries whose oldest is stored
under the empty key, a `cacheSet` under a new key leaves twenty-six entries, nothing being
deleted although the size exceeds 25. -/
theorem cacheSet_evicts_own_entry :
    assocGet (cacheSet fullCache "z" emptyCollection 5) "z" = none
      ∧ (assocSet fullCache "z" ⟨emptyCollection, 5⟩).length = 26
      ∧ (cacheSet emptyKeyCache "z" emptyCollection 2).length = 26
      ∧ cacheSet emptyKeyCache "z" emptyCollection 2
          = assocSet emptyKeyCache "z" ⟨emptyCollection, 2⟩ := by
  decide

/-- C12 (amended): for every cache whose keys are non-empty and every `cacheSet(key, value)`
under a non-empty key at clock time `now`: the insertion stores `value` with timestamp `now`
under `key`; if the size after insertion is at most 25 nothing is deleted; if it exceeds 25
exactly one entry is deleted, the first in iteration order among those of minimum timestamp,
every other entry staying as it is, and the entry for `key` afterwards holds `value` with
timestamp `now` unless it is itself that deleted entry. -/
theorem cacheSet_spec (c : BboxCache) (key : String) (gj : FeatureCollection) (now : Int)
    (hnd : (c.map Prod.fst).Nodup) (hne : ∀ p ∈ c, p.1 ≠ "") (hkey : key ≠ "") :
    assocGet (assocSet c key ⟨gj, now⟩) key = some ⟨gj, now⟩
      ∧ ((assocSet c key ⟨gj, now⟩).length ≤ CACHE_MAX →
          cacheSet c key gj now = assocSet c key ⟨gj, now⟩)
      ∧ ((assocSet c key ⟨gj, now⟩).length > CACHE_MAX →
          ∃ pre k0 e0 post, assocSet c key ⟨gj, now⟩ = pre ++ (k0, e0) :: post
            ∧ (∀ p ∈ pre, e0.t < p.2.t) ∧ (∀ p ∈ post, e0.t ≤ p.2.t)
            ∧ cacheSet c key gj now = pre ++ post
            ∧ (k0 ≠ key → assocGet (cacheSet c key gj now) key = some ⟨gj, now⟩)) := by
  have hget := assocGet_assocSet_self c key (⟨gj, now⟩ : CacheEntry)
  have hnd1 := assocSet_keys_nodup c key ⟨gj, now⟩ hnd
  have hne1 : ∀ p ∈ assocSet c key ⟨gj, now⟩, p.1 ≠ "" := by
    intro p hp
    rcases mem_assocSet _ _ _ _ hp with h | h
    · rw [h]; exact hkey
    · exact hne p h
  refine ⟨hget, ?_, ?_⟩
  · intro hle
    unfold cacheSet
    simp only
    rw [if_neg (by omega)]
  · intro hgt
    have hnil : assocSet c key ⟨gj, now⟩ ≠ [] := by
      intro h; rw [h] at hgt; simp at hgt
    obtain ⟨pre, k0, e0, post, hsplit, hfo, hpre, hpost⟩ := findOldest_split _ hnil
    have hk0 : k0 ≠ "" := hne1 (k0, e0) (by rw [hsplit]; simp)
    have hdel : assocDelete (assocSet c key ⟨gj, now⟩) k0 = pre ++ post := by
      rw [hsplit]
      apply assocDelete_split
      rw [← hsplit]; exact hnd1
    have hcs : cacheSet c key gj now = pre ++ post := by
      unfold cacheSet
      simp only
      rw [if_pos hgt, hfo]
      simp only [hk0, ne_eq, not_false_eq_true, if_true]
      exact hdel
    refine ⟨pre, k0, e0, post, hsplit, hpre, hpost, hcs, ?_⟩
    intro hk
    rw [hcs, ← hdel, assocGet_assocDelete, if_neg hk]
    exact hget

/-- Witness for `cacheSet_spec`: a twenty-sixth key inserted at time 11 into `fullCache`
evicts the entry under `"a"` and keeps its own. -/
theorem cacheSet_spec_witness :
    assocGet (assocSet fullCache "z" ⟨emptyCollection, 11⟩) "z"
        = some ⟨emptyCollection, 11⟩
      ∧ assocGet (cacheSet fullCache "z" emptyCollection 11) "z" = some ⟨emptyCollection, 11⟩
      ∧ assocGet (cacheSet fullCache "z" emptyCollection 11) "a" = none :=
  ⟨(cacheSet_spec fullCache "z" emptyCollection 11 (by decide) (by decide) (by decide)).1,
   by decide, by decide⟩

theorem assocSet_of_not_mem {β : Type} (m : Assoc β) (k : String) (v : β)
    (h : ∀ p ∈ m, p.1 ≠ k) : assocSet m k v = m ++ [(k, v)] := by
  induction m with
  | nil => rfl
  | cons q rest ih =>
      obtain ⟨k', v'⟩ := q
      have hk : k' ≠ k := h (k', v') (List.mem_cons_self _ _)
      simp only [assocSet, hk, if_false, List.cons_append]
      rw [ih (fun p hp => h p (List.mem_cons_of_mem _ hp))]

/-- C13: for every cache (a `Map`, so no key occurs twice) and every key, `cacheGet` of an
absent key leaves the cache as it is; `cacheGet` of an expired entry removes that entry and
leaves every other entry in place; `cacheGet` of a fresh entry returns its collection and
only moves the entry, with its value and timestamp, to the last position, the other entries
keeping their relative order. -/
theorem cacheGet_frame (c : BboxCache) (key : String) (now : Int)
    (hnd : (c.map Prod.fst).Nodup) :
    (assocGet c key = none → cacheGet c key now = (c, none))
      ∧ (∀ e, assocGet c key = some e →
          ∃ pre post, c = pre ++ (key, e) :: post
            ∧ (now - e.t > CACHE_TTL_MS → cacheGet c key now = (pre ++ post, none))
            ∧ (now - e.t ≤ CACHE_TTL_MS →
                cacheGet c key now = (pre ++ post ++ [(key, e)], some e.gj))) := by
  refine ⟨?_, ?_⟩
  · intro h
    unfold cacheGet
    rw [h]
  · intro e he
    obtain ⟨pre, post, hsplit⟩ := List.append_of_mem (assocGet_some_mem c key e he)
    have hdel : assocDelete c key = pre ++ post := by
      rw [hsplit]
      apply assocDelete_split
      rw [← hsplit]; exact hnd
    have hfree : ∀ p ∈ pre ++ post, p.1 ≠ key := by
      intro p hp
      rw [← hdel] at hp
      exact (mem_assocDelete _ _ _ hp).2
    refine ⟨pre, post, hsplit, ?_, ?_⟩
    · intro hexp
      unfold cacheGet
      rw [he]
      simp only
      rw [if_pos hexp, hdel]
    · intro hfresh
      unfold cacheGet
      rw [he]
      simp only
      rw [if_neg (by omega), hdel, assocSet_of_not_mem _ _ _ hfree]

/-- Witness for `cacheGet_frame`: a fresh read of `"a"` in `fullCache` moves that entry from
the first to the last position. -/
theorem cacheGet_frame_witness :
    cacheGet fullCache "a" 20
      = (fullCache.tail ++ [("a", ⟨emptyCollection, 10⟩)], some emptyCollection) := by
  obtain ⟨pre, post, h1, _, h3⟩ :=
    (cacheGet_frame fullCache "a" 20 (by decide)).2 ⟨emptyCollection, 10⟩ (by decide)
  rw [h3 (by decide)]
  have hpre : pre = [] := by
    cases pre with
    | nil => rfl
    | cons q pre' =>
        have hq : q = ("a", ⟨emptyCollection, 10⟩) := by
          have := congrArg List.head? h1
          simpa [fullCache, sampleKeys] using this.symm
        have hnd : (fullCache.map Prod.fst).Nodup := by decide
        rw [h1, hq] at hnd
        simp at hnd
  subst hpre
  have hpost : post = fullCache.tail := by
    have := congrArg List.tail h1
    simpa using this.symm
  rw [hpost]
  rfl

/-! ### The guards and the failure path of the coordinator -/

/-- C14 (the code at the failing inputs): the guards of `loadEducationForView` are tested
when it is called, not in the timer callback. In `disabledWhilePending` the timer is still
pending after the layer has been switched off; when it fires with `eduEnabled` false the
callback looks the key up and starts a fetch, and when the fetch resolves its collection is
handed to `ensureEducationLayers`, so the source exists again while the layer is disabled. In
`zoomedOutWhilePending` the timer set at zoom 12 fires at zoom 8 and starts a fetch. -/
theorem timer_ignores_guards :
    (runApp samplePlatform (initialApp AMENITY_CATEGORIES)
          (disabledWhilePending.take 3)).edu.eduEnabled = false
      ∧ (runApp samplePlatform (initialApp AMENITY_CATEGORIES)
          (disabledWhilePending.take 3)).edu.loadTimer = true
      ∧ (runApp samplePlatform (initialApp AMENITY_CATEGORIES)
          (disabledWhilePending.take 3)).edu.map.source = none
      ∧ (liveFetches (runApp samplePlatform (initialApp AMENITY_CATEGORIES)
          (disabledWhilePending.take 4)).edu).map Fetch.key = ["k"]
      ∧ (runApp samplePlatform (initialApp AMENITY_CATEGORIES)
          disabledWhilePending).edu.eduEnabled = false
      ∧ (runApp samplePlatform (initialApp AMENITY_CATEGORIES)
          disabledWhilePending).edu.map.source = some schoolCollection
      ∧ (runApp samplePlatform (initialApp AMENITY_CATEGORIES)
          disabledWhilePending).edu.currentEduGeoJSON = schoolCollection
      ∧ (runApp samplePlatform (initialApp AMENITY_CATEGORIES)
          (zoomedOutWhilePending.take 4)).edu.loadTimer = true
      ∧ (runApp samplePlatform (initialApp AMENITY_CATEGORIES)
          zoomedOutWhilePending).edu.zoom = 8
      ∧ (liveFetches (runApp samplePlatform (initialApp AMENITY_CATEGORIES)
          zoomedOutWhilePending).edu).map Fetch.key = ["k"] := by
  decide

theorem assocGet_cacheGet_of_miss (c : BboxCache) (key : String) (now : Int)
    (h : (cacheGet c key now).2 = none) : assocGet (cacheGet c key now).1 key = none := by
  unfold cacheGet at h ⊢
  cases hg : assocGet c key with
  | none => simp only; exact hg
  | some hit =>
      rw [hg] at h
      simp only at h ⊢
      split
      · simp only [assocGet_assocDelete, if_true]
      · rename_i hfresh
        rw [if_neg hfresh] at h
        exact absurd h (by simp)

theorem timerFires_of_miss (s : EduState) (key : String) (now : Int)
    (h : (cacheGet s.bboxCache key now).2 = none) :
    (timerFires s key now).currentEduGeoJSON = s.currentEduGeoJSON
      ∧ (timerFires s key now).filteredEduGeoJSON = s.filteredEduGeoJSON
      ∧ (timerFires s key now).map = s.map
      ∧ (timerFires s key now).bboxCache = (cacheGet s.bboxCache key now).1
      ∧ (timerFires s key now).inflightController = some s.fetches.length
      ∧ (⟨s.fetches.length, key, false, false⟩ : Fetch) ∈ (timerFires s key now).fetches := by
  cases hcg : cacheGet s.bboxCache key now with
  | mk c r =>
      rw [hcg] at h
      simp only at h
      subst h
      unfold timerFires
      simp [hcg]

/-- C15: for every state and every view evaluation whose fetch fails (with any error, so with
every non-cancellation error): the timer callback, which misses the cache and starts the
fetch, and the rejection of that fetch leave `currentEduGeoJSON`, `filteredEduGeoJSON` and the
renderer (education source and layers) exactly as they were, and afterwards the cache has no
entry for the key of the view; more generally the rejection of any fetch changes none of
these nor the cache. -/
theorem fetch_failure_keeps_state (s : EduState) (key : String) (now : Int) (err : JsError)
    (hmiss : (cacheGet s.bboxCache key now).2 = none) :
    (fetchRejects (timerFires s key now) s.fetches.length err).currentEduGeoJSON
        = s.currentEduGeoJSON
      ∧ (fetchRejects (timerFires s key now) s.fetches.length err).filteredEduGeoJSON
        = s.filteredEduGeoJSON
      ∧ (fetchRejects (timerFires s key now) s.fetches.length err).map = s.map
      ∧ assocGet (fetchRejects (timerFires s key now) s.fetches.length err).bboxCache key
        = none
      ∧ (∀ (s' : EduState) (id : Nat),
          (fetchRejects s' id err).currentEduGeoJSON = s'.currentEduGeoJSON
            ∧ (fetchRejects s' id err).filteredEduGeoJSON = s'.filteredEduGeoJSON
            ∧ (fetchRejects s' id err).map = s'.map
            ∧ (fetchRejects s' id err).bboxCache = s'.bboxCache) := by
  have ht := timerFires_of_miss s key now hmiss
  have hframe : ∀ (s' : EduState) (id : Nat),
      (fetchRejects s' id err).currentEduGeoJSON = s'.currentEduGeoJSON
        ∧ (fetchRejects s' id err).filteredEduGeoJSON = s'.filteredEduGeoJSON
        ∧ (fetchRejects s' id err).map = s'.map
        ∧ (fetchRejects s' id err).bboxCache = s'.bboxCache := by
    intro s' id
    unfold fetchRejects
    split <;> exact ⟨rfl, rfl, rfl, rfl⟩
  have hf := hframe (timerFires s key now) s.fetches.length
  refine ⟨by rw [hf.1, ht.1], by rw [hf.2.1, ht.2.1], by rw [hf.2.2.1, ht.2.2.1], ?_, hframe⟩
  rw [hf.2.2.2, ht.2.2.2.1]
  exact assocGet_cacheGet_of_miss _ _ _ hmiss

/-- Witness for `fetch_failure_keeps_state`: in the state that renders `schoolCollection`, an
evaluation of the uncached view `"k"` whose fetch is rejected by the network leaves that
collection rendered. -/
theorem fetch_failure_keeps_state_witness :
    (cacheGet (ensureEducationLayers (initialState AMENITY_CATEGORIES)
        schoolCollection).bboxCache "k" 0).2 = none
      ∧ (fetchRejects (timerFires
          (ensureEducationLayers (initialState AMENITY_CATEGORIES) schoolCollection) "k" 0)
          (ensureEducationLayers (initialState AMENITY_CATEGORIES)
            schoolCollection).fetches.length
          ⟨"TypeError", "Failed to fetch"⟩).map
        = (ensureEducationLayers (initialState AMENITY_CATEGORIES) schoolCollection).map :=
  ⟨by decide,
   (fetch_failure_keeps_state
      (ensureEducationLayers (initialState AMENITY_CATEGORIES) schoolCollection) "k" 0
      ⟨"TypeError", "Failed to fetch"⟩ (by decide)).2.2.1⟩

/-! ### Idempotence of the layer lifecycle -/

theorem removeLayer_labels_inv (r : Renderer) (h : RendererInv r) :
    RendererInv (r.removeLayer EDU_LABELS_LAYER)
      ∧ EDU_LABELS_LAYER ∉ (r.removeLayer EDU_LABELS_LAYER).layers
      ∧ (r.removeLayer EDU_LABELS_LAYER).source = r.source := by
  obtain ⟨ha, hn, he, hc⟩ := h
  refine ⟨⟨?_, ?_, he, ?_⟩, ?_, rfl⟩
  · intro hs id hid hmem
    exact ha hs id hid (List.mem_filter.1 hmem).1
  · exact hn.filter _
  · intro hs
    obtain ⟨h1, h2, h3⟩ := hc hs
    simp only [Renderer.removeLayer, List.mem_filter]
    exact ⟨⟨h1, by decide⟩, ⟨h2, by decide⟩, ⟨h3, by decide⟩⟩
  · simp [Renderer.removeLayer, List.mem_filter]

theorem addLayer_of_not_mem (r : Renderer) (id : String) (h : id ∉ r.layers) :
    r.addLayer id = { r with layers := r.layers ++ [id] } := by
  unfold Renderer.addLayer
  rw [if_neg h]

theorem addLayer_labels_inv (r : Renderer) (h : RendererInv r) (hs : r.source ≠ none)
    (hl : EDU_LABELS_LAYER ∉ r.layers) : RendererInv (r.addLayer EDU_LABELS_LAYER) := by
  obtain ⟨_, hn, he, hc⟩ := h
  rw [addLayer_of_not_mem r _ hl]
  refine ⟨fun h0 => absurd h0 hs, ?_, he, ?_⟩
  · exact List.Nodup.append hn (List.nodup_singleton _) (by simpa using hl)
  · intro _
    obtain ⟨h1, h2, h3⟩ := hc hs
    exact ⟨List.mem_append_left _ h1, List.mem_append_left _ h2, List.mem_append_left _ h3⟩

theorem addOrUpdateEduLabels_inv (r : Renderer) (h : RendererInv r) :
    RendererInv (addOrUpdateEduLabels r) := by
  have key : ∀ r1 : Renderer, RendererInv r1 → EDU_LABELS_LAYER ∉ r1.layers →
      RendererInv (if r1.source.isSome then r1.addLayer EDU_LABELS_LAYER else r1) := by
    intro r1 h1 hl
    split
    · rename_i hs
      exact addLayer_labels_inv r1 h1 (by intro h0; rw [h0] at hs; simp at hs) hl
    · exact h1
  unfold addOrUpdateEduLabels
  simp only
  split
  · obtain ⟨h1, h2, _⟩ := removeLayer_labels_inv r h
    exact key _ h1 h2
  · rename_i hg
    exact key r h (by simpa [Renderer.getLayer] using hg)

theorem setData_inv (r : Renderer) (d : FeatureCollection) (h : RendererInv r) :
    RendererInv (r.setData d) := by
  unfold Renderer.setData
  cases hs : r.source with
  | none => exact h
  | some d0 =>
      obtain ⟨_, hn, he, hc⟩ := h
      exact ⟨fun h0 => by simp at h0, hn, he, fun _ => hc (by rw [hs]; simp)⟩

theorem labelsToggle_inv (r : Renderer) (b : Bool) (h : RendererInv r) :
    RendererInv (if b then (if r.getLayer EDU_LABELS_LAYER then r else addOrUpdateEduLabels r)
      else (if r.getLayer EDU_LABELS_LAYER then r.removeLayer EDU_LABELS_LAYER else r)) := by
  split
  · split
    · exact h
    · exact addOrUpdateEduLabels_inv r h
  · split
    · exact (removeLayer_labels_inv r h).1
    · exact h

theorem applyAmenityFilter_inv (s : EduState) (h : RendererInv s.map) :
    RendererInv (applyAmenityFilter s).map := by
  unfold applyAmenityFilter
  split
  · exact h
  · simp only
    exact labelsToggle_inv _ _ (setData_inv _ _ h)

/-- Creating the source and the layers in a renderer that has no education source. -/
theorem addEduLayers_addSource_inv (r : Renderer) (gj : FeatureCollection) (b : Bool)
    (h : RendererInv r) (hs : r.source = none) :
    RendererInv (addEduLayers (r.addSource gj) b) := by
  obtain ⟨ha, hn, he, _⟩ := h
  have hC : EDU_CLUSTER_LAYER ∉ r.layers := ha hs _ (by decide)
  have hN : EDU_CLUSTER_COUNT ∉ r.layers := ha hs _ (by decide)
  have hP : EDU_POINTS_LAYER ∉ r.layers := ha hs _ (by decide)
  have hsrc : r.addSource gj = ⟨some gj, r.layers, r.errors⟩ := by
    unfold Renderer.addSource; rw [hs]
  have h3 : RendererInv ⟨some gj,
      r.layers ++ [EDU_CLUSTER_LAYER] ++ [EDU_CLUSTER_COUNT] ++ [EDU_POINTS_LAYER],
      r.errors⟩ := by
    refine ⟨fun h0 => by simp at h0, ?_, he, fun _ => by simp⟩
    show (r.layers ++ [EDU_CLUSTER_LAYER] ++ [EDU_CLUSTER_COUNT] ++ [EDU_POINTS_LAYER]).Nodup
    rw [List.append_assoc, List.append_assoc]
    refine List.Nodup.append hn (by decide) ?_
    intro a ha1 ha2
    simp only [List.singleton_append, List.mem_cons, List.mem_singleton, List.not_mem_nil,
      or_false] at ha2
    rcases ha2 with h | h | h
    · exact hC (h ▸ ha1)
    · exact hN (h ▸ ha1)
    · exact hP (h ▸ ha1)
  have hadd1 : (⟨some gj, r.layers, r.errors⟩ : Renderer).addLayer EDU_CLUSTER_LAYER
      = ⟨some gj, r.layers ++ [EDU_CLUSTER_LAYER], r.errors⟩ :=
    addLayer_of_not_mem _ _ hC
  have hadd2 : (⟨some gj, r.layers ++ [EDU_CLUSTER_LAYER], r.errors⟩ :
      Renderer).addLayer EDU_CLUSTER_COUNT
      = ⟨some gj, r.layers ++ [EDU_CLUSTER_LAYER] ++ [EDU_CLUSTER_COUNT], r.errors⟩ := by
    apply addLayer_of_not_mem
    show EDU_CLUSTER_COUNT ∉ r.layers ++ [EDU_CLUSTER_LAYER]
    rw [List.mem_append, not_or]
    exact ⟨hN, by decide⟩
  have hadd3 : (⟨some gj, r.layers ++ [EDU_CLUSTER_LAYER] ++ [EDU_CLUSTER_COUNT], r.errors⟩ :
      Renderer).addLayer EDU_POINTS_LAYER
      = ⟨some gj, r.layers ++ [EDU_CLUSTER_LAYER] ++ [EDU_CLUSTER_COUNT]
          ++ [EDU_POINTS_LAYER], r.errors⟩ := by
    apply addLayer_of_not_mem
    show EDU_POINTS_LAYER ∉ r.layers ++ [EDU_CLUSTER_LAYER] ++ [EDU_CLUSTER_COUNT]
    rw [List.mem_append, List.mem_append, not_or, not_or]
    exact ⟨⟨hP, by decide⟩, by decide⟩
  rw [hsrc]
  unfold addEduLayers
  have hg : (⟨some gj, r.layers, r.errors⟩ : Renderer).getLayer EDU_CLUSTER_LAYER = false := by
    simpa [Renderer.getLayer] using hC
  rw [hg]
  simp only [Bool.false_eq_true, if_false]
  rw [hadd1, hadd2, hadd3]
  split
  · exact addOrUpdateEduLabels_inv _ h3
  · exact h3

theorem ensureEducationLayers_inv (s : EduState) (gj : FeatureCollection)
    (h : RendererInv s.map) : RendererInv (ensureEducationLayers s gj).map := by
  unfold ensureEducationLayers
  simp only
  apply applyAmenityFilter_inv
  simp only
  cases hs : s.map.source with
  | none => exact addEduLayers_addSource_inv _ _ _ h hs
  | some d => exact setData_inv _ _ h

theorem removeLayer_of_not_mem (r : Renderer) (id : String) (h : id ∉ r.layers) :
    r.removeLayer id = r := by
  obtain ⟨src, layers, errors⟩ := r
  simp only [Renderer.removeLayer, Renderer.mk.injEq, true_and, and_true]
  rw [List.filter_eq_self]
  intro l hl
  simp only [ne_eq, decide_eq_true_eq]
  intro e
  exact h (e ▸ hl)

theorem foldl_removeLayer (ids : List String) (r : Renderer) :
    (ids.foldl (fun r id => if r.getLayer id then r.removeLayer id else r) r)
      = ⟨r.source, r.layers.filter (fun l => decide (l ∉ ids)), r.errors⟩ := by
  induction ids generalizing r with
  | nil => simp
  | cons id rest ih =>
      have hstep : (if r.getLayer id then r.removeLayer id else r) = r.removeLayer id := by
        split
        · rfl
        · rename_i hg
          exact (removeLayer_of_not_mem r id (by simpa [Renderer.getLayer] using hg)).symm
      simp only [List.foldl_cons, hstep, ih]
      simp only [Renderer.removeLayer, List.filter_filter, Renderer.mk.injEq, true_and,
        and_true]
      apply List.filter_congr
      intro l _
      simp only [List.mem_cons, not_or, ne_eq, Bool.decide_and, Bool.and_comm]

theorem removeEducationLayers_map (s : EduState) :
    (removeEducationLayers s).map
      = ⟨none, s.map.layers.filter (fun l => decide (l ∉ eduLayerIds)), s.map.errors⟩ := by
  unfold removeEducationLayers
  simp only
  have h := foldl_removeLayer eduLayerIds s.map
  unfold eduLayerIds at h
  rw [h]
  cases hs : s.map.source <;> simp [Renderer.removeSource, eduLayerIds, hs]

theorem removeEducationLayers_inv (s : EduState) (h : RendererInv s.map) :
    RendererInv (removeEducationLayers s).map := by
  rw [removeEducationLayers_map]
  obtain ⟨_, hn, he, _⟩ := h
  refine ⟨?_, hn.filter _, he, fun h0 => absurd rfl h0⟩
  intro _ id hid hmem
  have := (List.mem_filter.1 hmem).2
  simp only [decide_eq_true_eq] at this
  exact this hid

theorem clearEducationData_map (s : EduState) :
    (clearEducationData s).map = (removeEducationLayers s).map := by
  unfold clearEducationData
  simp only
  split <;> rfl

theorem loadEducationForView_inv (s : EduState) (h : RendererInv s.map) :
    RendererInv (loadEducationForView s).map := by
  unfold loadEducationForView
  split
  · exact removeEducationLayers_inv s h
  · split
    · exact removeEducationLayers_inv s h
    · exact h

theorem coordStep_inv (e : CoordEvent) (s : EduState) (h : RendererInv s.map) :
    RendererInv (e.step s).map := by
  cases e with
  | timerFires key now =>
      simp only [CoordEvent.step, timerFires]
      split
      · exact ensureEducationLayers_inv _ _ h
      · exact h
  | fetchResolves id gj now =>
      simp only [CoordEvent.step, fetchResolves]
      split
      · exact h
      · exact ensureEducationLayers_inv _ _ h
  | fetchRejects id err =>
      simp only [CoordEvent.step, fetchRejects]
      split <;> exact h

theorem setShowLabelsState_inv (a : AppState) (v : Bool) (h : RendererInv a.edu.map) :
    RendererInv (setShowLabelsState a v).edu.map := by
  unfold setShowLabelsState
  simp only
  split
  · exact addOrUpdateEduLabels_inv _ h
  · split
    · exact (removeLayer_labels_inv _ h).1
    · exact h

theorem setEduEnabledState_inv (a : AppState) (v : Bool) (h : RendererInv a.edu.map) :
    RendererInv (setEduEnabledState a v).edu.map := by
  unfold setEduEnabledState
  simp only
  split
  · exact removeEducationLayers_inv _ h
  · exact loadEducationForView_inv _ h

theorem setBase_inv (a : AppState) (name : String) (h : RendererInv a.edu.map) :
    RendererInv (setBase a name).edu.map := by
  unfold setBase
  split
  · exact ⟨fun _ id _ hm => by simp at hm, List.nodup_nil, h.2.2.1, fun h0 => absurd rfl h0⟩
  · exact h

theorem applyProjection_edu (a : AppState) (proj : String) :
    (applyProjection a proj).edu = a.edu := rfl

theorem setProjectionMode_edu (a : AppState) (mode : String) :
    (setProjectionMode a mode).edu = a.edu := by
  unfold setProjectionMode
  simp only
  split <;> rfl

theorem onIdle_edu (a : AppState) : (onIdle a).edu = a.edu := by
  unfold onIdle
  have : ∀ (l : List String) (b : AppState), (l.foldl applyProjection b).edu = b.edu := by
    intro l
    induction l with
    | nil => intro b; rfl
    | cons x rest ih => intro b; simp only [List.foldl_cons]; rw [ih]; rfl
  exact this _ a

theorem restoreEducation_inv (e : EduState) (h : RendererInv e.map) :
    RendererInv (restoreEducation e).map := by
  have hA : ∀ e : EduState, RendererInv e.map → RendererInv (if e.eduEnabled = true
      then ensureEducationLayers e e.currentEduGeoJSON else e).map := by
    intro e h
    split
    · exact ensureEducationLayers_inv _ _ h
    · exact h
  have hB : ∀ e : EduState, RendererInv e.map → RendererInv (if e.showLabels = true
      then { e with map := addOrUpdateEduLabels e.map } else e).map := by
    intro e h
    split
    · exact addOrUpdateEduLabels_inv _ h
    · exact h
  have hC : ∀ e : EduState, RendererInv e.map → RendererInv (if e.eduEnabled = true
      then loadEducationForView e else e).map := by
    intro e h
    split
    · exact loadEducationForView_inv _ h
    · exact h
  exact hC _ (hB _ (hA _ h))

theorem baseStyleLoaded_inv (pf : Platform) (a : AppState) (h : RendererInv a.edu.map) :
    RendererInv (baseStyleLoaded pf a).edu.map := by
  unfold baseStyleLoaded writeHash
  simp only
  apply restoreEducation_inv
  split <;> exact h

theorem onStyleLoad_inv (pf : Platform) (a : AppState) (h : RendererInv a.edu.map) :
    RendererInv (onStyleLoad pf a).edu.map := by
  have hiter : ∀ (n : Nat) (b : AppState), RendererInv b.edu.map →
      RendererInv (Nat.iterate (baseStyleLoaded pf) n b).edu.map := by
    intro n
    induction n with
    | zero => intro b hb; exact hb
    | succ n ih =>
        intro b hb
        rw [Function.iterate_succ_apply]
        exact ih _ (baseStyleLoaded_inv pf b hb)
  unfold onStyleLoad
  simp only
  apply hiter
  split <;> exact h

theorem readHash_inv (pf : Platform) (a : AppState) (h : RendererInv a.edu.map) :
    RendererInv (readHash pf a).edu.map := by
  unfold readHash
  cases a.locationHash with
  | none => exact h
  | some p =>
      simp only
      apply setEduEnabledState_inv
      apply setShowLabelsState_inv
      rw [setProjectionMode_edu]
      have h1 : RendererInv (match (assocGet p "lng").bind pf.parseFloat,
          (assocGet p "lat").bind pf.parseFloat, (assocGet p "z").bind pf.parseFloat with
        | some lng, some lat, some z => jumpTo a (lng, lat) z
        | _, _, _ => a).edu.map := by
        split
        · exact h
        · exact h
      generalize (match (assocGet p "lng").bind pf.parseFloat,
          (assocGet p "lat").bind pf.parseFloat, (assocGet p "z").bind pf.parseFloat with
        | some lng, some lat, some z => jumpTo a (lng, lat) z
        | _, _, _ => a) = a1 at h1
      split
      · split
        · exact h1
        · exact setBase_inv _ _ h1
      · exact h1

theorem appOp_inv (pf : Platform) (op : AppOp) (a : AppState) (h : RendererInv a.edu.map) :
    RendererInv (op.run pf a).edu.map := by
  cases op with
  | ensure gj => exact ensureEducationLayers_inv _ _ h
  | removeLayers => exact removeEducationLayers_inv _ h
  | clearData =>
      show RendererInv (clearEducationData a.edu).map
      rw [clearEducationData_map]
      exact removeEducationLayers_inv _ h
  | toggleAmenity selection => exact applyAmenityFilter_inv _ h
  | updateLabels => exact addOrUpdateEduLabels_inv _ h
  | loadForView => exact loadEducationForView_inv _ h
  | coord e => exact coordStep_inv e _ h
  | setShowLabels v => exact setShowLabelsState_inv a v h
  | setEduEnabled v => exact setEduEnabledState_inv a v h
  | setBase name => exact setBase_inv a name h
  | styleLoad => exact onStyleLoad_inv pf a h
  | idle =>
      show RendererInv (onIdle a).edu.map
      rw [onIdle_edu]; exact h
  | moveTo center zoom => exact h
  | setHash hash => exact h
  | readHash => exact readHash_inv pf a h
  | writeHash => exact h

theorem runApp_inv (pf : Platform) (ops : List AppOp) (a : AppState)
    (h : RendererInv a.edu.map) : RendererInv (runApp pf a ops).edu.map := by
  induction ops generalizing a with
  | nil => exact h
  | cons op rest ih =>
      unfold runApp
      simp only [List.foldl_cons]
      exact ih _ (appOp_inv pf op a h)

theorem initialApp_inv (selection : List String) :
    RendererInv (initialApp selection).edu.map :=
  ⟨fun _ id _ hm => by simp [initialApp, initialState] at hm, List.nodup_nil, rfl,
    fun h0 => absurd rfl h0⟩

/-- A state that already shows `gj`, filtered, is a fixed point of `ensureEducationLayers`. -/
theorem ensureEducationLayers_fixed (t : EduState) (gj : FeatureCollection)
    (hcur : t.currentEduGeoJSON = gj)
    (hfil : t.filteredEduGeoJSON = filterGeoJSONByAmenity gj t.selection)
    (hsrc : t.map.source = some (filterGeoJSONByAmenity gj t.selection))
    (hev : t.eventsBound = true)
    (hlab : t.map.getLayer EDU_LABELS_LAYER = t.showLabels) :
    ensureEducationLayers t gj = t := by
  obtain ⟨cur, fil, eb, lt, ic, cache, ⟨src, layers, errs⟩, sel, sl, ee, zoom, fetches⟩ := t
  simp only at hcur hfil hsrc hev hlab
  subst hcur hfil hsrc hev
  cases sl with
  | true =>
      simp only [ensureEducationLayers, applyAmenityFilter, Renderer.setData, hlab, if_true]
  | false =>
      simp only [ensureEducationLayers, applyAmenityFilter, Renderer.setData, hlab,
        Bool.false_eq_true, if_false]

theorem addLayer_mem (r : Renderer) (id : String) : id ∈ (r.addLayer id).layers := by
  unfold Renderer.addLayer
  split
  · assumption
  · simp

/-- After `applyAmenityFilter` with a source present, the label layer exists exactly when
`showLabels` is set. -/
theorem applyAmenityFilter_labels (s : EduState) (d : FeatureCollection)
    (h : s.map.source = some d) :
    (applyAmenityFilter s).map.getLayer EDU_LABELS_LAYER = s.showLabels
      ∧ (applyAmenityFilter s).showLabels = s.showLabels
      ∧ (applyAmenityFilter s).eventsBound = s.eventsBound := by
  unfold applyAmenityFilter
  rw [h]
  refine ⟨?_, rfl, rfl⟩
  simp only
  have hsd : ∀ x, (s.map.setData x).source = some x := by
    intro x; simp [Renderer.setData, h]
  cases hsl : s.showLabels with
  | true =>
      simp only [if_true]
      split
      · assumption
      · rename_i hg
        unfold addOrUpdateEduLabels
        simp only [hg, Bool.false_eq_true, if_false, hsd, Option.isSome_some, if_true]
        simpa [Renderer.getLayer] using addLayer_mem _ _
  | false =>
      simp only [Bool.false_eq_true, if_false]
      split
      · simp [Renderer.getLayer, Renderer.removeLayer, List.mem_filter]
      · rename_i hg
        simpa using hg

theorem ensureEducationLayers_as_filter (s : EduState) (gj : FeatureCollection) :
    ∃ (t : EduState) (d : FeatureCollection),
      ensureEducationLayers s gj = applyAmenityFilter t ∧ t.map.source = some d
        ∧ t.showLabels = s.showLabels ∧ t.eventsBound = true := by
  refine ⟨{ s with currentEduGeoJSON := gj
                   map := (match s.map.source with
                     | some _ => s.map.setData gj
                     | none => addEduLayers (s.map.addSource gj) s.showLabels)
                   eventsBound := true }, gj, rfl, ?_, rfl, rfl⟩
  cases h : s.map.source with
  | none => simp [addEduLayers_source, Renderer.addSource, h]
  | some d => simp [Renderer.setData, h]

theorem ensureEducationLayers_twice (s : EduState) (gj : FeatureCollection) :
    ensureEducationLayers (ensureEducationLayers s gj) gj = ensureEducationLayers s gj := by
  have hspec := ensureEducationLayers_spec s gj
  obtain ⟨t, d, ht, hd, hsl, hev⟩ := ensureEducationLayers_as_filter s gj
  have hlab := applyAmenityFilter_labels t d hd
  apply ensureEducationLayers_fixed
  · exact hspec.1
  · rw [hspec.2.2.1, hspec.2.1]
  · rw [hspec.2.2.2, hspec.2.1]
  · rw [ht, hlab.2.2, hev]
  · rw [ht, hlab.1, hlab.2.1]

/-- C16: with the renderer modelled by the education source and the ids of the layers, where
adding an existing id is counted as an error: in every state reachable from the initial page
by the events of the page, and for every collection, `ensureEducationLayers` adds no source
or layer that already exists (no error is counted); afterwards the source exists, the
cluster, cluster-count and point layers exist and no layer id occurs twice; and calling it
twice in a row with the same collection gives the same renderer and module state as calling
it once (this last fact holds in every state). -/
theorem ensureEducationLayers_idempotent (pf : Platform) (selection : List String)
    (ops : List AppOp) (gj : FeatureCollection) :
    (ensureEducationLayers (runApp pf (initialApp selection) ops).edu gj).map.errors
        = (runApp pf (initialApp selection) ops).edu.map.errors
      ∧ (ensureEducationLayers (runApp pf (initialApp selection) ops).edu gj).map.errors = 0
      ∧ (ensureEducationLayers (runApp pf (initialApp selection) ops).edu gj).map.layers.Nodup
      ∧ (ensureEducationLayers (runApp pf (initialApp selection) ops).edu gj).map.source
          = some (filterGeoJSONByAmenity gj
              (runApp pf (initialApp selection) ops).edu.selection)
      ∧ (∀ id ∈ [EDU_CLUSTER_LAYER, EDU_CLUSTER_COUNT, EDU_POINTS_LAYER],
          (ensureEducationLayers (runApp pf (initialApp selection) ops).edu gj).map.layers.count
            id = 1)
      ∧ (∀ s : EduState,
          ensureEducationLayers (ensureEducationLayers s gj) gj
            = ensureEducationLayers s gj) := by
  have hinv := runApp_inv pf ops (initialApp selection) (initialApp_inv selection)
  have hens := ensureEducationLayers_inv _ gj hinv
  have hspec := ensureEducationLayers_spec (runApp pf (initialApp selection) ops).edu gj
  obtain ⟨_, hn, he, hc⟩ := hens
  refine ⟨by rw [he, hinv.2.2.1], he, hn, hspec.2.2.2, ?_,
    fun s => ensureEducationLayers_twice s gj⟩
  have hmem := hc (by rw [hspec.2.2.2]; simp)
  intro id hid
  simp only [List.mem_cons, List.mem_singleton, List.not_mem_nil, or_false] at hid
  rcases hid with h | h | h
  · rw [h]; exact List.count_eq_one_of_mem hn hmem.1
  · rw [h]; exact List.count_eq_one_of_mem hn hmem.2.1
  · rw [h]; exact List.count_eq_one_of_mem hn hmem.2.2

/-! ### The location hash -/

theorem loadEducationForView_fields (s : EduState) :
    (loadEducationForView s).zoom = s.zoom
      ∧ (loadEducationForView s).showLabels = s.showLabels
      ∧ (loadEducationForView s).eduEnabled = s.eduEnabled := by
  unfold loadEducationForView removeEducationLayers
  split
  · exact ⟨rfl, rfl, rfl⟩
  · split <;> exact ⟨rfl, rfl, rfl⟩

theorem setEduEnabledState_fields (a : AppState) (v : Bool) :
    (setEduEnabledState a v).center = a.center
      ∧ (setEduEnabledState a v).edu.zoom = a.edu.zoom
      ∧ (setEduEnabledState a v).currentProjection = a.currentProjection
      ∧ (setEduEnabledState a v).activeStyle = a.activeStyle
      ∧ (setEduEnabledState a v).edu.showLabels = a.edu.showLabels
      ∧ (setEduEnabledState a v).edu.eduEnabled = v := by
  unfold setEduEnabledState
  refine ⟨rfl, ?_, rfl, rfl, ?_, ?_⟩
  · show (if (!v) = true then _ else _ : EduState).zoom = _
    split
    · rfl
    · exact (loadEducationForView_fields _).1
  · show (if (!v) = true then _ else _ : EduState).showLabels = _
    split
    · rfl
    · exact (loadEducationForView_fields _).2.1
  · show (if (!v) = true then _ else _ : EduState).eduEnabled = _
    split
    · rfl
    · exact (loadEducationForView_fields _).2.2

theorem setProjectionMode_fields (a : AppState) (mode : String) :
    (setProjectionMode a mode).center = a.center
      ∧ (setProjectionMode a mode).currentProjection = a.currentProjection
      ∧ (setProjectionMode a mode).activeStyle = a.activeStyle := by
  unfold setProjectionMode
  simp only
  split <;> exact ⟨rfl, rfl, rfl⟩

theorem setBase_currentProjection (a : AppState) (name : String) :
    (setBase a name).currentProjection = a.currentProjection := by
  unfold setBase
  split <;> rfl

theorem baseStyleLoaded_currentProjection (pf : Platform) (a : AppState) :
    (baseStyleLoaded pf a).currentProjection = a.currentProjection := by
  unfold baseStyleLoaded writeHash
  simp only
  split <;> rfl

theorem onStyleLoad_currentProjection (pf : Platform) (a : AppState) :
    (onStyleLoad pf a).currentProjection = a.currentProjection := by
  have hiter : ∀ (n : Nat) (b : AppState),
      (Nat.iterate (baseStyleLoaded pf) n b).currentProjection = b.currentProjection := by
    intro n
    induction n with
    | zero => intro b; rfl
    | succ n ih =>
        intro b
        rw [Function.iterate_succ_apply, ih, baseStyleLoaded_currentProjection]
  unfold onStyleLoad
  simp only
  rw [hiter]
  split <;> rfl

theorem onIdle_currentProjection (a : AppState) :
    (onIdle a).currentProjection = a.currentProjection := by
  unfold onIdle
  have : ∀ (l : List String) (b : AppState),
      (l.foldl applyProjection b).currentProjection = b.currentProjection := by
    intro l
    induction l with
    | nil => intro b; rfl
    | cons x rest ih => intro b; simp only [List.foldl_cons]; rw [ih]; rfl
  exact this _ a

theorem readHash_currentProjection (pf : Platform) (a : AppState) :
    (readHash pf a).currentProjection = a.currentProjection := by
  unfold readHash
  cases a.locationHash with
  | none => rfl
  | some p =>
      simp only
      rw [(setEduEnabledState_fields _ _).2.2.1]
      show (setProjectionMode _ _).currentProjection = _
      rw [(setProjectionMode_fields _ _).2.1]
      have h1 : (match (assocGet p "lng").bind pf.parseFloat,
          (assocGet p "lat").bind pf.parseFloat, (assocGet p "z").bind pf.parseFloat with
        | some lng, some lat, some z => jumpTo a (lng, lat) z
        | _, _, _ => a).currentProjection = a.currentProjection := by
        split <;> rfl
      split
      · split
        · exact h1
        · rw [setBase_currentProjection]; exact h1
      · exact h1

theorem appOp_currentProjection (pf : Platform) (op : AppOp) (a : AppState) :
    (op.run pf a).currentProjection = a.currentProjection := by
  cases op with
  | ensure gj => rfl
  | removeLayers => rfl
  | clearData => rfl
  | toggleAmenity selection => rfl
  | updateLabels => rfl
  | loadForView => rfl
  | coord e => rfl
  | setShowLabels v => rfl
  | setEduEnabled v => rfl
  | setBase name => exact setBase_currentProjection a name
  | styleLoad => exact onStyleLoad_currentProjection pf a
  | idle => exact onIdle_currentProjection a
  | moveTo center zoom => rfl
  | setHash hash => rfl
  | readHash => exact readHash_currentProjection pf a
  | writeHash => rfl

/-- In every page reachable from the initial one, `getProjectionMode()` answers
`mercator`: nothing assigns `state.currentProjection`. -/
theorem getProjectionMode_const (pf : Platform) (selection : List String)
    (ops : List AppOp) :
    getProjectionMode (runApp pf (initialApp selection) ops) = "mercator" := by
  have h : ∀ (ops : List AppOp) (a : AppState),
      (runApp pf a ops).currentProjection = a.currentProjection := by
    intro ops
    induction ops with
    | nil => intro a; rfl
    | cons op rest ih =>
        intro a
        unfold runApp
        simp only [List.foldl_cons]
        exact (ih _).trans (appOp_currentProjection pf op a)
  exact h ops _

/-- C17 (the code at the failing input): from the hash
`lng=34.78000&lat=31.80000&z=8.00&proj=globe&base=osm&labels=0&edu=1`, `readHash` sets the
centre, the zoom, the base style and the two flags, but `getProjectionMode()` still answers
`mercator`, because `setProjectionMode` never assigns `state.currentProjection`; the
following `writeHash` therefore writes `proj=mercator`, and the hash differs from the
input. In no reachable page does `getProjectionMode()` answer anything but `mercator`, so
`writeHash` never writes `proj=globe`. -/
theorem readHash_loses_projection :
    (readHash samplePlatform sampleHashPage).center = (mkRat 3478 100, mkRat 318 10)
      ∧ (readHash samplePlatform sampleHashPage).edu.zoom = 8
      ∧ (readHash samplePlatform sampleHashPage).activeStyle = some "osm"
      ∧ (readHash samplePlatform sampleHashPage).edu.showLabels = false
      ∧ (readHash samplePlatform sampleHashPage).edu.eduEnabled = true
      ∧ getProjectionMode (readHash samplePlatform sampleHashPage) = "mercator"
      ∧ (writeHash samplePlatform (readHash samplePlatform sampleHashPage)).locationHash
          = some [("lng", "34.78000"), ("lat", "31.80000"), ("z", "8.00"),
              ("proj", "mercator"), ("base", "osm"), ("labels", "0"), ("edu", "1")]
      ∧ (writeHash samplePlatform (readHash samplePlatform sampleHashPage)).locationHash
          ≠ some sampleHash
      ∧ getProjectionMode (onIdle (onStyleLoad samplePlatform
          (readHash samplePlatform sampleHashPage))) = "mercator"
      ∧ (onIdle (onStyleLoad samplePlatform
          (readHash samplePlatform sampleHashPage))).mapProjection = "globe"
      ∧ (∀ (pf : Platform) (selection : List String) (ops : List AppOp),
          getProjectionMode (runApp pf (initialApp selection) ops) = "mercator"
            ∧ assocGet ((writeHash pf (runApp pf (initialApp selection) ops)).locationHash.getD
                []) "proj" = some "mercator") := by
  have hgen : ∀ (pf : Platform) (selection : List String) (ops : List AppOp),
      getProjectionMode (runApp pf (initialApp selection) ops) = "mercator"
        ∧ assocGet ((writeHash pf (runApp pf (initialApp selection) ops)).locationHash.getD
            []) "proj" = some "mercator" := by
    intro pf selection ops
    have h := getProjectionMode_const pf selection ops
    refine ⟨h, ?_⟩
    unfold writeHash
    simp [h, assocGet, ALLOWED_PROJECTIONS]
  refine ⟨?_, ?_, ?_, ?_, ?_, ?_, ?_, ?_, ?_, ?_, hgen⟩ <;> decide

/-- C18 (as stated, refuted): on `switchedOffPage` the hash `#x=1` carries none of the
recognised keys, yet `readHash` switches the labels and the education layer on again and
applies the mercator projection: a missing `labels` or `edu` key reads as "on" and a missing
`proj` key as `mercator`. -/
theorem readHash_malformed_not_noop :
    switchedOffPage.edu.showLabels = false
      ∧ switchedOffPage.edu.eduEnabled = false
      ∧ switchedOffPage.mapProjection = "globe"
      ∧ (readHash samplePlatform switchedOffPage).edu.showLabels = true
      ∧ (readHash samplePlatform switchedOffPage).edu.eduEnabled = true
      ∧ (readHash samplePlatform switchedOffPage).mapProjection = "mercator"
      ∧ readHash samplePlatform switchedOffPage ≠ switchedOffPage := by
  decide

theorem hashProjection_mem (p : Assoc String) : hashProjection p ∈ ALLOWED_PROJECTIONS := by
  unfold hashProjection
  simp only
  split
  · assumption
  · decide

theorem hashProjection_of_invalid (p : Assoc String)
    (h : ∀ v, assocGet p "proj" = some v → asciiLower v ∉ ALLOWED_PROJECTIONS) :
    hashProjection p = "mercator" := by
  unfold hashProjection
  simp only
  split
  · rename_i hmem
    cases hv : assocGet p "proj" with
    | none => rw [hv] at hmem; rfl
    | some v =>
        rw [hv] at hmem
        by_cases h0 : v = ""
        · subst h0
          rfl
        · simp only [if_neg h0] at hmem
          exact absurd hmem (h v hv)
  · rfl

theorem hashProjection_of_valid (p : Assoc String) (v : String)
    (hv : assocGet p "proj" = some v) (h : asciiLower v ∈ ALLOWED_PROJECTIONS) :
    hashProjection p = asciiLower v := by
  have h0 : v ≠ "" := by
    intro h0
    subst h0
    exact absurd h (by decide)
  unfold hashProjection
  simp only [hv, if_neg h0, if_pos h]

theorem setProjectionMode_applied (a : AppState) (mode : String)
    (hmode : mode ∈ ALLOWED_PROJECTIONS) :
    (a.styleLoaded = true →
        (setProjectionMode a mode).mapProjection = mode
          ∧ (setProjectionMode a mode).idleCallbacks = a.idleCallbacks)
      ∧ (a.styleLoaded = false →
        (setProjectionMode a mode).mapProjection = a.mapProjection
          ∧ (setProjectionMode a mode).idleCallbacks = a.idleCallbacks ++ [mode]) := by
  have hne : mode ≠ "" := by
    intro h
    rw [h] at hmode
    exact absurd hmode (by decide)
  unfold setProjectionMode
  simp only [if_neg hne]
  constructor
  · intro hs
    simp [hs, applyProjection, hmode]
  · intro hs
    simp [hs]

/-- C18 (amended): with an empty location hash `readHash` is a no-op. With a hash in which
`lng`, `lat` and `z` are not all finite numbers, `base` is missing or names no property of
`STYLES`, and `labels` and `edu` are missing (whatever `proj` is), `readHash` leaves the
centre, the zoom, the projection mode and the base style as they were and sets `showLabels`
and `eduEnabled` to true, whatever they were before. It hands to the map the projection
`hashProjection p`, which is the lower-cased `proj` when that is `mercator` or `globe` and
`mercator` when `proj` is missing or names neither: with the style loaded the map takes that projection at once, otherwise
the map keeps its projection and the call is deferred to the next `idle` event. -/
theorem readHash_malformed (pf : Platform) (a : AppState) :
    (a.locationHash = none → readHash pf a = a)
      ∧ (∀ p, a.locationHash = some p →
          ((assocGet p "lng").bind pf.parseFloat = none
            ∨ (assocGet p "lat").bind pf.parseFloat = none
            ∨ (assocGet p "z").bind pf.parseFloat = none) →
          (∀ b, assocGet p "base" = some b → b ∉ STYLE_NAMES ∧ b ∉ OBJECT_PROTOTYPE_KEYS) →
          assocGet p "labels" = none → assocGet p "edu" = none →
          (readHash pf a).center = a.center
            ∧ (readHash pf a).edu.zoom = a.edu.zoom
            ∧ getProjectionMode (readHash pf a) = getProjectionMode a
            ∧ (readHash pf a).activeStyle = a.activeStyle
            ∧ (readHash pf a).edu.showLabels = true
            ∧ (readHash pf a).edu.eduEnabled = true
            ∧ hashProjection p ∈ ALLOWED_PROJECTIONS
            ∧ ((∀ v, assocGet p "proj" = some v → asciiLower v ∉ ALLOWED_PROJECTIONS) →
                hashProjection p = "mercator")
            ∧ (∀ v, assocGet p "proj" = some v → asciiLower v ∈ ALLOWED_PROJECTIONS →
                hashProjection p = asciiLower v)
            ∧ (a.styleLoaded = true →
                (readHash pf a).mapProjection = hashProjection p
                  ∧ (readHash pf a).idleCallbacks = a.idleCallbacks)
            ∧ (a.styleLoaded = false →
                (readHash pf a).mapProjection = a.mapProjection
                  ∧ (readHash pf a).idleCallbacks = a.idleCallbacks ++ [hashProjection p])) := by
  refine ⟨?_, ?_⟩
  · intro h
    unfold readHash
    rw [h]
  · intro p hp hnum hbase hlabels hedu
    have h1 : (match (assocGet p "lng").bind pf.parseFloat,
        (assocGet p "lat").bind pf.parseFloat, (assocGet p "z").bind pf.parseFloat with
      | some lng, some lat, some z => jumpTo a (lng, lat) z
      | _, _, _ => a) = a := by
      rcases hnum with h | h | h <;> rw [h] <;> split <;> simp_all
    have h2 : (match assocGet p "base" with
      | some base => if base = "" then a else setBase a base
      | none => a) = a := by
      cases hb : assocGet p "base" with
      | none => rfl
      | some b =>
          simp only
          split
          · rfl
          · unfold setBase
            have := hbase b hb
            rw [if_neg (by rw [not_or]; exact this)]
    have hread : readHash pf a
        = setEduEnabledState (setShowLabelsState (setProjectionMode a (hashProjection p))
            (decide ((none : Option String) ≠ some "0")))
          (decide ((none : Option String) ≠ some "0")) := by
      unfold readHash hashProjection
      rw [hp]
      simp only [h1, h2, hlabels, hedu]
    have hE := setEduEnabledState_fields
      (setShowLabelsState (setProjectionMode a (hashProjection p))
        (decide ((none : Option String) ≠ some "0")))
      (decide ((none : Option String) ≠ some "0"))
    have hP := setProjectionMode_fields a (hashProjection p)
    have hA := setProjectionMode_applied a (hashProjection p) (hashProjection_mem p)
    rw [hread]
    refine ⟨?_, ?_, ?_, ?_, ?_, ?_, hashProjection_mem p, hashProjection_of_invalid p,
      hashProjection_of_valid p, ?_, ?_⟩
    · rw [hE.1]; exact hP.1
    · rw [hE.2.1]
      show (setProjectionMode a _).edu.zoom = a.edu.zoom
      rw [setProjectionMode_edu]
    · show (setEduEnabledState _ _).currentProjection = a.currentProjection
      rw [hE.2.2.1]; exact hP.2.1
    · rw [hE.2.2.2.1]; exact hP.2.2
    · rw [hE.2.2.2.2.1]; rfl
    · rw [hE.2.2.2.2.2]; rfl
    · intro hs
      exact hA.1 hs
    · intro hs
      exact hA.2 hs

/-- Witness for `readHash_malformed`: the hash `#x=1` on `switchedOffPage`, whose style is
loaded and whose map shows the globe. -/
theorem readHash_malformed_witness :
    (readHash samplePlatform switchedOffPage).center = switchedOffPage.center
      ∧ (readHash samplePlatform switchedOffPage).edu.zoom = switchedOffPage.edu.zoom
      ∧ getProjectionMode (readHash samplePlatform switchedOffPage)
          = getProjectionMode switchedOffPage
      ∧ (readHash samplePlatform switchedOffPage).activeStyle = switchedOffPage.activeStyle
      ∧ (readHash samplePlatform switchedOffPage).edu.showLabels = true
      ∧ (readHash samplePlatform switchedOffPage).edu.eduEnabled = true
      ∧ switchedOffPage.mapProjection = "globe"
      ∧ (readHash samplePlatform switchedOffPage).mapProjection = "mercator" :=
  have h := (readHash_malformed samplePlatform switchedOffPage).2 [("x", "1")] (by rfl)
    (Or.inl (by rfl)) (fun b hb => by simp [assocGet] at hb) (by rfl) (by rfl)
  ⟨h.1, h.2.1, h.2.2.1, h.2.2.2.1, h.2.2.2.2.1, h.2.2.2.2.2.1, by decide,
    (h.2.2.2.2.2.2.2.2.2.1 (by decide)).1⟩

/-! ### The security helpers -/

theorem esc_data (s : String) : (esc s).data = s.data.flatMap escChar := by
  have hchar : ∀ c : Char,
      (((((if c = '&' then "&amp;".data else [c]).flatMap
          (fun ch => if ch = '<' then "&lt;".data else [ch])).flatMap
          (fun ch => if ch = '>' then "&gt;".data else [ch])).flatMap
          (fun ch => if ch = '"' then "&quot;".data else [ch])).flatMap
          (fun ch => if ch = '\'' then "&#39;".data else [ch])) = escChar c := by
    intro c
    unfold escChar
    by_cases h1 : c = '&'
    · subst h1; decide
    · by_cases h2 : c = '<'
      · subst h2; decide
      · by_cases h3 : c = '>'
        · subst h3; decide
        · by_cases h4 : c = '"'
          · subst h4; decide
          · by_cases h5 : c = '\''
            · subst h5; decide
            · simp [h1, h2, h3, h4, h5]
  unfold esc replaceAllChar
  simp only
  induction s.data with
  | nil => rfl
  | cons c l ih =>
      simp only [List.flatMap_cons, List.flatMap_append] at ih ⊢
      rw [ih, hchar]

theorem wellEscaped_escChar_append (c : Char) (l : List Char) (h : wellEscaped l = true) :
    wellEscaped (escChar c ++ l) = true := by
  unfold escChar
  by_cases h1 : c = '&'
  · simp [h1, wellEscaped, entityTails, h]
  · by_cases h2 : c = '<'
    · simp [h2, wellEscaped, entityTails, h]
    · by_cases h3 : c = '>'
      · simp [h3, wellEscaped, entityTails, h]
      · by_cases h4 : c = '"'
        · simp [h4, wellEscaped, entityTails, h]
        · by_cases h5 : c = '\''
          · simp [h5, wellEscaped, entityTails, h]
          · simp [h1, h2, h3, h4, h5, wellEscaped, h]

theorem wellEscaped_esc (s : String) : wellEscaped (esc s).data = true := by
  rw [esc_data]
  induction s.data with
  | nil => rfl
  | cons c l ih =>
      rw [List.flatMap_cons]
      exact wellEscaped_escChar_append c _ ih


/-- What the check `wellEscaped` says: none of the four characters occurs, and every
ampersand is followed by the rest of one of the five entities. -/
theorem wellEscaped_sound (l : List Char) (h : wellEscaped l = true) :
    (∀ c ∈ l, c ≠ '<' ∧ c ≠ '>' ∧ c ≠ '"' ∧ c ≠ '\'')
      ∧ (∀ pre post, l = pre ++ '&' :: post → ∃ e ∈ entityTails, e <+: post) := by
  induction l with
  | nil =>
      refine ⟨by simp, ?_⟩
      intro pre post hl
      simp at hl
  | cons x xs ih =>
      simp only [wellEscaped, Bool.and_eq_true] at h
      obtain ⟨hx, hxs⟩ := h
      obtain ⟨ih1, ih2⟩ := ih hxs
      refine ⟨?_, ?_⟩
      · intro c hc
        rcases List.mem_cons.1 hc with hcx | hcx
        · subst hcx
          by_cases hamp : c = '&'
          · subst hamp; decide
          · have hx' : ((¬c = '<' ∧ ¬c = '>') ∧ ¬c = '"') ∧ ¬c = '\'' := by
              simpa [hamp] using hx
            exact ⟨hx'.1.1.1, hx'.1.1.2, hx'.1.2, hx'.2⟩
        · exact ih1 c hcx
      · intro pre post hl
        cases pre with
        | nil =>
            simp only [List.nil_append, List.cons.injEq] at hl
            obtain ⟨hx1, hx2⟩ := hl
            subst hx1 hx2
            simp only [if_true, List.any_eq_true] at hx
            obtain ⟨e, he, hpre⟩ := hx
            exact ⟨e, he, List.isPrefixOf_iff_prefix.1 hpre⟩
        | cons y pre' =>
            simp only [List.cons_append, List.cons.injEq] at hl
            exact ih2 pre' post hl.2

theorem joinStrings_append (a b : List String) :
    joinStrings (a ++ b) = joinStrings a ++ joinStrings b := by
  induction a with
  | nil => simp [joinStrings]
  | cons x xs ih =>
      simp only [joinStrings, List.cons_append, List.foldr_cons] at ih ⊢
      rw [ih, String.append_assoc]

theorem joinStrings_cons (x : String) (xs : List String) :
    joinStrings (x :: xs) = x ++ joinStrings xs := rfl

theorem joinStrings_nil : joinStrings [] = "" := rfl

theorem addressSegs_text (street house city : String) :
    joinStrings ((addressSegs street house city).map Seg.text)
      = addressText street house city := by
  unfold addressSegs addressText
  by_cases h1 : street = "" <;> by_cases h2 : house = "" <;> by_cases h3 : city = "" <;>
    simp [h1, h2, h3, joinStrings, Seg.text, String.intercalate, String.intercalate.go,
      String.append_assoc]

theorem addressSegs_ok (street house city : String)
    (hs : ∃ x, street = esc x) (hh : ∃ x, house = esc x) (hc : ∃ x, city = esc x) :
    ∀ seg ∈ addressSegs street house city, SegOk seg := by
  intro seg hseg
  unfold addressSegs at hseg
  have hsp : SegOk (Seg.lit " ") := by unfold SegOk TEMPLATE_PIECES; decide
  have hcm : SegOk (Seg.lit ", ") := by unfold SegOk TEMPLATE_PIECES; decide
  have hall : seg = Seg.val street ∨ seg = Seg.val house ∨ seg = Seg.val city
      ∨ seg = Seg.lit " " ∨ seg = Seg.lit ", " := by
    rw [List.mem_append] at hseg
    rcases hseg with h | h
    · split at h
      · split at h <;> simp at h
        · tauto
        · tauto
      · split at h <;> simp at h
        tauto
    · split at h
      · rw [List.mem_append] at h
        rcases h with h | h
        · split at h <;> simp at h
          tauto
        · simp at h; tauto
      · simp at h
  rcases hall with h | h | h | h | h <;> rw [h]
  · exact hs
  · exact hh
  · exact hc
  · exact hsp
  · exact hcm

theorem row3_text (c : Prop) [Decidable c] (a v b : String) :
    joinStrings ((if c then [Seg.lit a, Seg.val v, Seg.lit b] else []).map Seg.text)
      = joinStrings (if c then [a ++ v ++ b] else []) := by
  split <;> simp [joinStrings, Seg.text, String.append_assoc]

theorem row5_text (c : Prop) [Decidable c] (a v b d : String) :
    joinStrings
        ((if c then [Seg.lit a, Seg.val v, Seg.lit b, Seg.val v, Seg.lit d] else []).map
          Seg.text)
      = joinStrings (if c then [a ++ v ++ b ++ v ++ d] else []) := by
  split <;> simp [joinStrings, Seg.text, String.append_assoc]

theorem rowAddress_text (c : Prop) [Decidable c] (a b street house city : String) :
    joinStrings
        ((if c then [Seg.lit a] ++ addressSegs street house city ++ [Seg.lit b]
          else []).map Seg.text)
      = joinStrings (if c then [a ++ addressText street house city ++ b] else []) := by
  split
  · rw [List.map_append, List.map_append, joinStrings_append, joinStrings_append,
      addressSegs_text]
    simp [joinStrings, Seg.text, String.append_assoc]
  · rfl

theorem rowsSegs_text (p : Assoc JsVal) :
    joinStrings ((rowsSegs p).map Seg.text) = joinStrings (popupRows p) := by
  simp only [rowsSegs, popupRows, List.map_append, joinStrings_append, row3_text, row5_text,
    rowAddress_text]

theorem popupSegs_text (p : Assoc JsVal) :
    joinStrings ((popupSegs p).map Seg.text) = formatEduPopup p := by
  unfold popupSegs formatEduPopup
  rw [List.map_append, List.map_append, joinStrings_append, joinStrings_append]
  have hmid : joinStrings ((if joinStrings (popupRows p) != "" then rowsSegs p
        else [Seg.lit "<div>No additional data</div>"]).map Seg.text)
      = (if joinStrings (popupRows p) != "" then joinStrings (popupRows p)
          else "<div>No additional data</div>") := by
    split
    · exact rowsSegs_text p
    · simp [joinStrings, Seg.text]
  rw [hmid]
  simp [joinStrings, Seg.text, String.append_assoc]

theorem segOk_lit (t : String) (h : t ∈ TEMPLATE_PIECES) : SegOk (Seg.lit t) := h

theorem segOk_val (x : String) : SegOk (Seg.val (esc x)) := ⟨x, rfl⟩

theorem rowsSegs_ok (p : Assoc JsVal) : ∀ seg ∈ rowsSegs p, SegOk seg := by
  have h3 : ∀ (c : Prop) [Decidable c] (a x b : String), a ∈ TEMPLATE_PIECES →
      b ∈ TEMPLATE_PIECES →
      ∀ seg ∈ (if c then [Seg.lit a, Seg.val (esc x), Seg.lit b] else []), SegOk seg := by
    intro c _ a x b ha hb seg hseg
    split at hseg
    · simp only [List.mem_cons, List.mem_singleton, List.not_mem_nil, or_false] at hseg
      rcases hseg with h | h | h <;> rw [h]
      · exact ha
      · exact segOk_val x
      · exact hb
    · simp at hseg
  have h5 : ∀ (c : Prop) [Decidable c] (a x b d : String), a ∈ TEMPLATE_PIECES →
      b ∈ TEMPLATE_PIECES → d ∈ TEMPLATE_PIECES →
      ∀ seg ∈ (if c then [Seg.lit a, Seg.val (esc x), Seg.lit b, Seg.val (esc x), Seg.lit d]
        else []), SegOk seg := by
    intro c _ a x b d ha hb hd seg hseg
    split at hseg
    · simp only [List.mem_cons, List.mem_singleton, List.not_mem_nil, or_false] at hseg
      rcases hseg with h | h | h | h | h <;> rw [h]
      · exact ha
      · exact segOk_val x
      · exact hb
      · exact segOk_val x
      · exact hd
    · simp at hseg
  intro seg hseg
  simp only [rowsSegs, List.mem_append] at hseg
  rcases hseg with ((((((h | h) | h) | h) | h) | h) | h)
  · exact h3 _ _ _ _ (by decide) (by decide) seg h
  · split at h
    · simp only [List.mem_append, List.mem_singleton] at h
      rcases h with (h | h) | h
      · rw [h]; exact segOk_lit _ (by decide)
      · exact addressSegs_ok _ _ _ ⟨_, rfl⟩ ⟨_, rfl⟩ ⟨_, rfl⟩ seg h
      · rw [h]; exact segOk_lit _ (by decide)
    · simp at h
  · exact h3 _ _ _ _ (by decide) (by decide) seg h
  · exact h5 _ _ _ _ _ (by decide) (by decide) (by decide) seg h
  · exact h5 _ _ _ _ _ (by decide) (by decide) (by decide) seg h
  · exact h5 _ _ _ _ _ (by decide) (by decide) (by decide) seg h
  · exact h3 _ _ _ _ (by decide) (by decide) seg h

/-- C19: for every tag map `p`, the HTML returned by `formatEduPopup(p)` is a sequence of
pieces, each either one of the texts of the fixed template or an output of `esc`; and every
output of `esc` holds none of the characters `<`, `>`, `"`, `'` and holds `&` only as the
first character of one of the entities `&amp;`, `&lt;`, `&gt;`, `&quot;`, `&#39;`. So those
characters occur in the popup only where the template puts them. -/
theorem formatEduPopup_escaped (p : Assoc JsVal) :
    (∃ segs : List Seg, formatEduPopup p = joinStrings (segs.map Seg.text)
        ∧ ∀ seg ∈ segs, SegOk seg)
      ∧ (∀ x : String,
          (∀ c ∈ (esc x).data, c ≠ '<' ∧ c ≠ '>' ∧ c ≠ '"' ∧ c ≠ '\'')
            ∧ (∀ pre post, (esc x).data = pre ++ '&' :: post →
                ∃ e ∈ ["amp;", "lt;", "gt;", "quot;", "#39;"], e.data <+: post)) := by
  refine ⟨⟨popupSegs p, (popupSegs_text p).symm, ?_⟩, ?_⟩
  · intro seg hseg
    simp only [popupSegs, List.mem_append, List.mem_cons, List.mem_singleton,
      List.not_mem_nil, or_false] at hseg
    rcases hseg with ((h | h | h) | h) | h
    · rw [h]; exact segOk_lit _ (by decide)
    · rw [h]; exact segOk_val _
    · rw [h]; exact segOk_lit _ (by decide)
    · split at h
      · exact rowsSegs_ok p seg h
      · simp only [List.mem_singleton] at h
        rw [h]; exact segOk_lit _ (by decide)
    · rw [h]; exact segOk_lit _ (by decide)
  · intro x
    obtain ⟨h1, h2⟩ := wellEscaped_sound _ (wellEscaped_esc x)
    refine ⟨h1, ?_⟩
    intro pre post hsplit
    obtain ⟨e, he, hpre⟩ := h2 pre post hsplit
    simp only [entityTails, List.mem_cons, List.mem_singleton, List.not_mem_nil,
      or_false] at he
    rcases he with h | h | h | h | h
    · subst h; exact ⟨"amp;", by simp, hpre⟩
    · subst h; exact ⟨"lt;", by simp, hpre⟩
    · subst h; exact ⟨"gt;", by simp, hpre⟩
    · subst h; exact ⟨"quot;", by simp, hpre⟩
    · subst h; exact ⟨"#39;", by simp, hpre⟩

/-- The test `hasScheme` holds exactly of the strings that begin with a non-empty run of word
characters followed by a colon. -/
theorem hasScheme_iff (t : String) :
    hasScheme t = true ↔ ∃ w rest, t.data = w ++ ':' :: rest ∧ w ≠ []
      ∧ ∀ c ∈ w, isWordChar c = true := by
  unfold hasScheme
  constructor
  · intro h
    simp only [Bool.and_eq_true, Bool.not_eq_true', beq_iff_eq] at h
    obtain ⟨h1, h2⟩ := h
    obtain ⟨rest, hrest⟩ := List.head?_eq_some_iff.1 h2
    refine ⟨t.data.takeWhile isWordChar, rest, ?_, ?_, ?_⟩
    · rw [← hrest, List.takeWhile_append_dropWhile]
    · intro h0; rw [h0] at h1; simp at h1
    · intro c hc
      exact List.mem_takeWhile_imp hc
  · rintro ⟨w, rest, hsplit, hw, hall⟩
    have hcolon : isWordChar ':' = false := by decide
    have htake : (w ++ ':' :: rest).takeWhile isWordChar = w := by
      rw [List.takeWhile_append_of_pos hall]
      simp [List.takeWhile_cons, hcolon]
    have hdrop : (w ++ ':' :: rest).dropWhile isWordChar = ':' :: rest := by
      rw [List.dropWhile_append_of_pos hall]
      simp [List.dropWhile_cons, hcolon]
    rw [hsplit, htake, hdrop]
    cases w with
    | nil => exact absurd rfl hw
    | cons c w' => simp

/-- C20: for every input string `u`, `safeUrl(u)` is the empty string or a string that starts
with `http://` or `https://`; and every input that, after trimming, begins with a run of word
characters followed by a colon without beginning with `http://` or `https://` (as
`javascript:` and `data:` do) is rejected with the empty string. -/
theorem safeUrl_scheme (u : String) :
    (safeUrl u = "" ∨ "http://".data <+: (safeUrl u).data
        ∨ "https://".data <+: (safeUrl u).data)
      ∧ ((∃ w rest, (jsTrim u).data = w ++ ':' :: rest ∧ w ≠ []
            ∧ ∀ c ∈ w, isWordChar c = true) →
          ¬ "http://".data <+: (jsTrim u).data → ¬ "https://".data <+: (jsTrim u).data →
          safeUrl u = "")
      ∧ safeUrl "javascript:alert(1)" = ""
      ∧ safeUrl "  data:text/html,x" = ""
      ∧ safeUrl "HTTP://example.org" = ""
      ∧ safeUrl "example.org/a" = "https://example.org/a"
      ∧ safeUrl " http://example.org " = "http://example.org" := by
  refine ⟨?_, ?_, by decide, by decide, by decide, by decide, by decide⟩
  · unfold safeUrl
    simp only
    split
    · exact Or.inl rfl
    · split
      · rename_i h
        simp only [Bool.or_eq_true, jsStartsWith, List.isPrefixOf_iff_prefix] at h
        rcases h with h | h
        · exact Or.inr (Or.inl h)
        · exact Or.inr (Or.inr h)
      · split
        · exact Or.inl rfl
        · right; right
          rw [String.data_append]
          exact List.prefix_append _ _
  · intro hs h1 h2
    have hsch := (hasScheme_iff (jsTrim u)).2 hs
    have hstart : ¬ (jsStartsWith (jsTrim u) "http://"
        || jsStartsWith (jsTrim u) "https://") = true := by
      simp only [Bool.or_eq_true, jsStartsWith, List.isPrefixOf_iff_prefix, not_or]
      exact ⟨h1, h2⟩
    unfold safeUrl
    simp only
    by_cases h0 : jsTrim u = ""
    · rw [if_pos h0]
    · rw [if_neg h0, if_neg hstart, if_pos hsch]

/-- Witness for `safeUrl_scheme`: `vbscript:x` begins with the scheme `vbscript:`. -/
theorem safeUrl_scheme_witness : safeUrl "vbscript:x" = "" :=
  (safeUrl_scheme "vbscript:x").2.1
    ⟨"vbscript".data, ['x'], by decide, by decide, by decide⟩ (by decide) (by decide)

/-! ### Reading back what was just stored -/

theorem assocSet_length_of_mem {β : Type} (m : Assoc β) (k : String) (v : β)
    (h : k ∈ m.map Prod.fst) : (assocSet m k v).length = m.length := by
  have hk := congrArg List.length (assocSet_keys m k v)
  rw [if_pos h] at hk
  simpa using hk

/-- Under a clock that does not go backwards, `cacheSet` on a cache of at most `CACHE_MAX`
entries keeps the entry it inserts. -/
theorem cacheSet_keeps_new (c : BboxCache) (k : String) (v : FeatureCollection) (T : Int)
    (hlen : c.length ≤ CACHE_MAX) (hclock : ∀ p ∈ c, p.2.t ≤ T) :
    assocGet (cacheSet c k v T) k = some ⟨v, T⟩ := by
  have hget := assocGet_assocSet_self c k (⟨v, T⟩ : CacheEntry)
  unfold cacheSet
  simp only
  split
  · rename_i hgt
    have hnil : assocSet c k ⟨v, T⟩ ≠ [] := by
      intro h; rw [h] at hgt; simp at hgt
    obtain ⟨pre, k0, e0, post, hsplit, hfo, hpre, _⟩ := findOldest_split _ hnil
    have hk0 : k0 ≠ k := by
      intro hk
      subst hk
      by_cases hmem : k0 ∈ c.map Prod.fst
      · rw [assocSet_length_of_mem c k0 _ hmem] at hgt
        omega
      · have hnot : ∀ p ∈ c, p.1 ≠ k0 := fun p hp he => hmem (List.mem_map.2 ⟨p, hp, he⟩)
        rw [assocSet_of_not_mem c k0 _ hnot] at hsplit hgt
        have hc : c ≠ [] := by
          intro h0
          rw [h0] at hgt
          simp [CACHE_MAX] at hgt
        obtain ⟨q, hq⟩ := List.exists_mem_of_ne_nil c hc
        rcases List.append_eq_append_iff.1 hsplit with ⟨a, h1, h2⟩ | ⟨b, h1, h2⟩
        · cases a with
          | nil =>
              simp only [List.nil_append, List.cons.injEq, Prod.mk.injEq, true_and] at h2
              have hq' : q ∈ pre := by rw [h1]; simpa using hq
              have := hpre q hq'
              have := hclock q hq
              rw [← h2.1] at *
              simp only at *
              omega
          | cons x a' =>
              have := congrArg List.length h2
              simp at this
        · cases b with
          | nil =>
              simp only [List.nil_append, List.cons.injEq, Prod.mk.injEq, true_and] at h2
              have hq' : q ∈ pre := by rw [h1] at hq; simpa using hq
              have := hpre q hq'
              have := hclock q hq
              rw [h2.1] at *
              simp only at *
              omega
          | cons x b' =>
              simp only [List.cons_append, List.cons.injEq] at h2
              have hx : x ∈ c := by rw [h1]; simp
              exact hnot x hx (by rw [← h2.1])
    rw [hfo]
    simp only
    split
    · rw [assocGet_assocDelete, if_neg hk0]
      exact hget
    · exact hget
  · exact hget

/-- A `cacheGet` that finds the entry of `k` fresh, or that reads another key, leaves the
entry of `k` as it is. -/
theorem cacheGet_keeps_entry (c : BboxCache) (k k' : String) (e : CacheEntry) (now : Int)
    (h : assocGet c k = some e) (hfresh : now - e.t ≤ CACHE_TTL_MS) :
    assocGet (cacheGet c k' now).1 k = some e := by
  unfold cacheGet
  by_cases hk : k' = k
  · subst hk
    rw [h]
    simp only
    rw [if_neg (by omega)]
    exact assocGet_assocSet_self _ _ _
  · cases hg : assocGet c k' with
    | none => exact h
    | some hit =>
        simp only
        split
        · rw [assocGet_assocDelete, if_neg hk]; exact h
        · rw [assocGet_assocSet_ne _ _ _ _ hk, assocGet_assocDelete, if_neg hk]; exact h

theorem runGets_keeps_entry (gets : List (String × Int)) (c : BboxCache) (k : String)
    (e : CacheEntry) (h : assocGet c k = some e)
    (hfresh : ∀ g ∈ gets, g.2 - e.t ≤ CACHE_TTL_MS) :
    assocGet (runCacheOps c (gets.map (fun g => CacheOp.get g.1 g.2))) k = some e := by
  induction gets generalizing c with
  | nil => exact h
  | cons g rest ih =>
      unfold runCacheOps
      simp only [List.map_cons, List.foldl_cons]
      apply ih
      · exact cacheGet_keeps_entry c k g.1 e g.2 h (hfresh g (List.mem_cons_self _ _))
      · intro g' hg'
        exact hfresh g' (List.mem_cons_of_mem _ hg')

/-- C24: under a clock that never goes backwards (every stored timestamp is at most `T`, every
intermediate read is at most as late as the final one) and for every cache of at most 25
entries: after `cacheSet(k, v)` at time `T` the cache holds `v` with timestamp `T` under `k`,
so the entry just inserted is not the one its own `cacheSet` evicts; and after any `cacheGet`
calls, with no `cacheSet` in between, `cacheGet(k)` at a time not later than
`T + CACHE_TTL_MS` returns `v`. -/
theorem cacheSet_then_cacheGet (c : BboxCache) (k : String) (v : FeatureCollection)
    (T now : Int) (gets : List (String × Int))
    (hlen : c.length ≤ CACHE_MAX) (hclock : ∀ p ∈ c, p.2.t ≤ T)
    (hgets : ∀ g ∈ gets, g.2 ≤ now) (hnow : now ≤ T + CACHE_TTL_MS) :
    assocGet (cacheSet c k v T) k = some ⟨v, T⟩
      ∧ (cacheGet (runCacheOps (cacheSet c k v T)
            (gets.map (fun g => CacheOp.get g.1 g.2))) k now).2 = some v := by
  have h1 := cacheSet_keeps_new c k v T hlen hclock
  refine ⟨h1, ?_⟩
  have h2 := runGets_keeps_entry gets _ k ⟨v, T⟩ h1 (by
    intro g hg
    have := hgets g hg
    simp only
    omega)
  unfold cacheGet
  rw [h2]
  simp only
  rw [if_neg (by omega)]

/-- Witness for `cacheSet_then_cacheGet`: a twenty-sixth key stored at time 10 in `fullCache`
(all of whose entries have timestamp 10) and read back, after a read of `"b"`, at the last
moment of its life. -/
theorem cacheSet_then_cacheGet_witness :
    (cacheGet (runCacheOps (cacheSet fullCache "z" schoolCollection 10)
        ([("b", 20)].map (fun g => CacheOp.get g.1 g.2))) "z" (10 + CACHE_TTL_MS)).2
      = some schoolCollection :=
  (cacheSet_then_cacheGet fullCache "z" schoolCollection 10 (10 + CACHE_TTL_MS) [("b", 20)]
    (by decide) (by decide) (by decide) (by decide)).2

/-! ### The names of authorities -/

theorem collapseWhitespace_append (b : Bool) (x y : List Char) :
    ∃ b', collapseWhitespace b (x ++ y)
      = collapseWhitespace b x ++ collapseWhitespace b' y := by
  induction x generalizing b with
  | nil => exact ⟨b, by simp [collapseWhitespace]⟩
  | cons c r ih =>
    by_cases hc : isJsWhitespace c = true
    · cases b
      · obtain ⟨b', h⟩ := ih true
        exact ⟨b', by simp [collapseWhitespace, hc, h]⟩
      · obtain ⟨b', h⟩ := ih true
        exact ⟨b', by simp [collapseWhitespace, hc, h]⟩
    · obtain ⟨b', h⟩ := ih false
      exact ⟨b', by simp [collapseWhitespace, hc, h]⟩

theorem collapseWhitespace_length_le (b : Bool) (l : List Char) :
    (collapseWhitespace b l).length ≤ l.length := by
  induction l generalizing b with
  | nil => simp [collapseWhitespace]
  | cons c r ih =>
    have h1 := ih true
    have h2 := ih false
    simp only [collapseWhitespace]
    split
    · split
      · simp only [List.length_cons]; omega
      · simp only [List.length_cons]; omega
    · simp only [List.length_cons]; omega

theorem collapseWhitespace_flag (b : Bool) (l : List Char)
    (h : ∀ c, l.head? = some c → isJsWhitespace c = false) :
    collapseWhitespace b l = collapseWhitespace false l := by
  cases l with
  | nil => simp [collapseWhitespace]
  | cons c r => simp [collapseWhitespace, h c rfl]

theorem collapseWhitespace_idem (l : List Char) : ∀ b,
    collapseWhitespace false (collapseWhitespace b l) = collapseWhitespace b l
      ∧ collapseWhitespace true (collapseWhitespace true l) = collapseWhitespace true l := by
  induction l with
  | nil => intro b; simp [collapseWhitespace]
  | cons c r ih =>
    intro b
    have hsp : isJsWhitespace ' ' = true := by decide
    by_cases hc : isJsWhitespace c = true
    · cases b
      · simp [collapseWhitespace, hc, hsp, (ih true).2]
      · simp [collapseWhitespace, hc, (ih true).1, (ih true).2]
    · simp [collapseWhitespace, hc, (ih false).1]

theorem collapseWhitespace_mem_ws (b : Bool) (l : List Char) (c : Char)
    (hmem : c ∈ collapseWhitespace b l) (hws : isJsWhitespace c = true) : c = ' ' := by
  induction l generalizing b with
  | nil => simp [collapseWhitespace] at hmem
  | cons a r ih =>
    simp only [collapseWhitespace] at hmem
    split at hmem
    · split at hmem
      · exact ih true hmem
      · rcases List.mem_cons.1 hmem with h | h
        · exact h
        · exact ih true h
    · rename_i ha
      rcases List.mem_cons.1 hmem with h | h
      · subst h; exact absurd hws ha
      · exact ih false h

theorem collapseWhitespace_fixed_split (x y : List Char)
    (h : collapseWhitespace false (x ++ y) = x ++ y) :
    collapseWhitespace false x = x ∧ ∃ b', collapseWhitespace b' y = y := by
  obtain ⟨b', hb⟩ := collapseWhitespace_append false x y
  rw [hb] at h
  have h1 := collapseWhitespace_length_le false x
  have h2 := collapseWhitespace_length_le b' y
  have hlen : (collapseWhitespace false x).length = x.length := by
    have := congrArg List.length h
    simp only [List.length_append] at this
    omega
  obtain ⟨ha, hb2⟩ := List.append_inj h hlen
  exact ⟨ha, b', hb2⟩

theorem collapseWhitespace_no_double (x rest : List Char) (c d : Char)
    (h : collapseWhitespace false (x ++ c :: d :: rest) = x ++ c :: d :: rest)
    (hc : isJsWhitespace c = true) : isJsWhitespace d = false := by
  obtain ⟨_, b', hb⟩ := collapseWhitespace_fixed_split x (c :: d :: rest) h
  by_contra hd
  have hd' : isJsWhitespace d = true := by simpa using hd
  have hlen := congrArg List.length hb
  have h1 := collapseWhitespace_length_le true rest
  cases b' <;> simp [collapseWhitespace, hc, hd'] at hlen <;> omega

theorem head_dropWhile_false (p : Char → Bool) (l : List Char) (c : Char)
    (h : (l.dropWhile p).head? = some c) : p c = false := by
  induction l with
  | nil => simp at h
  | cons a r ih =>
    simp only [List.dropWhile] at h
    split at h
    · exact ih h
    · simp only [List.head?_cons, Option.some.injEq] at h
      subst h
      assumption

theorem dropWhile_of_head (p : Char → Bool) (l : List Char)
    (h : ∀ c, l.head? = some c → p c = false) : l.dropWhile p = l := by
  cases l with
  | nil => rfl
  | cons a r => simp [List.dropWhile, h a rfl]

theorem dropWhile_keeps (p : Char → Bool) (a b : List Char) (c : Char) (hc : p c = false) :
    ∃ y, (a ++ c :: b).dropWhile p = y ++ c :: b := by
  induction a with
  | nil => exact ⟨[], by simp [List.dropWhile, hc]⟩
  | cons a0 r ih =>
    by_cases h0 : p a0 = true
    · obtain ⟨y, hy⟩ := ih
      exact ⟨y, by simp [List.dropWhile, h0, hy]⟩
    · exact ⟨a0 :: r, by simp [List.dropWhile, h0]⟩

theorem jsTrim_data_spec (l : List Char) :
    (∃ a z, l = a ++ (jsTrim ⟨l⟩).data ++ z)
      ∧ (∀ c, (jsTrim ⟨l⟩).data.head? = some c → isJsWhitespace c = false)
      ∧ (∀ c, (jsTrim ⟨l⟩).data.getLast? = some c → isJsWhitespace c = false) := by
  have hsplit : l.dropWhile isJsWhitespace = (jsTrim ⟨l⟩).data
      ++ ((l.dropWhile isJsWhitespace).reverse.takeWhile isJsWhitespace).reverse := by
    show _ = ((l.dropWhile isJsWhitespace).reverse.dropWhile isJsWhitespace).reverse ++ _
    rw [← List.reverse_append, List.takeWhile_append_dropWhile, List.reverse_reverse]
  refine ⟨⟨l.takeWhile isJsWhitespace,
    ((l.dropWhile isJsWhitespace).reverse.takeWhile isJsWhitespace).reverse, ?_⟩, ?_, ?_⟩
  · rw [List.append_assoc, ← hsplit, List.takeWhile_append_dropWhile]
  · intro c hc
    apply head_dropWhile_false isJsWhitespace l c
    rw [hsplit]
    cases ht : (jsTrim ⟨l⟩).data with
    | nil => rw [ht] at hc; simp at hc
    | cons a r => rw [ht] at hc; simpa using hc
  · intro c hc
    have hrev : (jsTrim ⟨l⟩).data.getLast?
        = ((l.dropWhile isJsWhitespace).reverse.dropWhile isJsWhitespace).head? := by
      show (List.reverse _).getLast? = _
      rw [List.getLast?_reverse]
    rw [hrev] at hc
    exact head_dropWhile_false _ _ _ hc

theorem jsTrim_data_of_trimmed (l : List Char)
    (hh : ∀ c, l.head? = some c → isJsWhitespace c = false)
    (hl : ∀ c, l.getLast? = some c → isJsWhitespace c = false) :
    (jsTrim ⟨l⟩).data = l := by
  show ((l.dropWhile isJsWhitespace).reverse.dropWhile isJsWhitespace).reverse = l
  rw [dropWhile_of_head _ l hh,
    dropWhile_of_head _ l.reverse (by simpa [List.head?_reverse] using hl),
    List.reverse_reverse]

theorem jsTrim_data_keeps (x r : List Char) (c : Char) (hc : isJsWhitespace c = false)
    (hx : ∀ a, (x ++ [c]).head? = some a → isJsWhitespace a = false) :
    ∃ y, (jsTrim ⟨x ++ c :: r⟩).data = x ++ c :: y := by
  have h1 : (x ++ c :: r).dropWhile isJsWhitespace = x ++ c :: r := by
    apply dropWhile_of_head
    intro a ha
    apply hx a
    cases x with
    | nil => simpa using ha
    | cons x0 xs => simpa using ha
  obtain ⟨y, hy⟩ := dropWhile_keeps isJsWhitespace r.reverse x.reverse c hc
  refine ⟨y.reverse, ?_⟩
  show (((x ++ c :: r).dropWhile isJsWhitespace).reverse.dropWhile isJsWhitespace).reverse = _
  rw [h1]
  have h2 : (x ++ c :: r).reverse = r.reverse ++ c :: x.reverse := by simp
  rw [h2, hy]
  simp

theorem norm_fixed_spec (n : String) (h : norm n = n) :
    collapseWhitespace false n.data = n.data
      ∧ (∀ c, n.data.head? = some c → isJsWhitespace c = false)
      ∧ (∀ c, n.data.getLast? = some c → isJsWhitespace c = false) := by
  have hd : (jsTrim ⟨collapseWhitespace false n.data⟩).data = n.data := congrArg String.data h
  obtain ⟨⟨a, z, hsplit⟩, hh, hl⟩ := jsTrim_data_spec (collapseWhitespace false n.data)
  rw [hd] at hsplit hh hl
  refine ⟨?_, hh, hl⟩
  have hfix := (collapseWhitespace_idem n.data false).1
  rw [hsplit] at hfix
  obtain ⟨h1, _⟩ := collapseWhitespace_fixed_split _ _ hfix
  obtain ⟨_, b', h2⟩ := collapseWhitespace_fixed_split _ _ h1
  rw [← collapseWhitespace_flag b' n.data hh]
  exact h2

theorem fixed_ws_is_space (l : List Char) (hfix : collapseWhitespace false l = l) (c : Char)
    (hmem : c ∈ l) (hws : isJsWhitespace c = true) : c = ' ' :=
  collapseWhitespace_mem_ws false l c (by rw [hfix]; exact hmem) hws

theorem stripWordWs_word_space (w : String) (rest : List Char) :
    stripWordWs w (w.data ++ ' ' :: rest) = some (rest.dropWhile isJsWhitespace) := by
  have hp : w.data.isPrefixOf (w.data ++ ' ' :: rest) = true :=
    List.isPrefixOf_iff_prefix.2 (List.prefix_append _ _)
  have hsp : isJsWhitespace ' ' = true := by decide
  simp [stripWordWs, hp, hsp]

theorem stripWordWs_some (w : String) (l r : List Char)
    (hsp : ∀ c ∈ l, isJsWhitespace c = true → c = ' ')
    (h : stripWordWs w l = some r) :
    ∃ rest, l = w.data ++ ' ' :: rest ∧ r = rest.dropWhile isJsWhitespace := by
  unfold stripWordWs at h
  split at h
  · rename_i hpre
    obtain ⟨t, rfl⟩ := List.isPrefixOf_iff_prefix.1 hpre
    rw [List.drop_left] at h
    cases t with
    | nil => simp at h
    | cons c rest =>
      simp only at h
      split at h
      · rename_i hc
        have hc' : c = ' ' := hsp c (by simp) hc
        subst hc'
        exact ⟨rest, rfl, (Option.some.inj h).symm⟩
      · simp at h
  · simp at h

theorem stripWordWs_none (w : String) (l : List Char)
    (hsp : ∀ c ∈ l, isJsWhitespace c = true → c = ' ')
    (hnp : (w.data ++ [' ']).isPrefixOf l = false) : stripWordWs w l = none := by
  cases h : stripWordWs w l with
  | none => rfl
  | some r =>
    obtain ⟨rest, hl, _⟩ := stripWordWs_some w l r hsp h
    have : (w.data ++ [' ']).isPrefixOf l = true := by
      rw [hl]
      exact List.isPrefixOf_iff_prefix.2 ⟨rest, by simp⟩
    rw [this] at hnp
    exact absurd hnp (by simp)

theorem stripCouncil_none (l : List Char) (hfix : collapseWhitespace false l = l)
    (hnp : ("מועצה".data ++ ' ' :: ("מקומית".data ++ [' '])).isPrefixOf l = false) :
    (stripWordWs "מועצה" l).bind (stripWordWs "מקומית") = none := by
  have hsp := fixed_ws_is_space l hfix
  cases h1 : stripWordWs "מועצה" l with
  | none => rfl
  | some r1 =>
    obtain ⟨rest, hl, hr1⟩ := stripWordWs_some _ l r1 hsp h1
    have hrest : rest.dropWhile isJsWhitespace = rest := by
      apply dropWhile_of_head
      intro d hd
      cases rest with
      | nil => simp at hd
      | cons d0 rest0 =>
        simp only [List.head?_cons, Option.some.injEq] at hd
        subst hd
        rw [hl] at hfix
        exact collapseWhitespace_no_double _ _ ' ' _ hfix (by decide)
    rw [hrest] at hr1
    subst hr1
    show stripWordWs "מקומית" r1 = none
    cases h2 : stripWordWs "מקומית" r1 with
    | none => rfl
    | some r2 =>
      obtain ⟨rest2, hl2, _⟩ := stripWordWs_some _ r1 r2
        (fun c hc => hsp c (by rw [hl]; simp [hc])) h2
      have : ("מועצה".data ++ ' ' :: ("מקומית".data ++ [' '])).isPrefixOf l = true := by
        rw [hl, hl2]
        exact List.isPrefixOf_iff_prefix.2 ⟨rest2, by simp⟩
      rw [this] at hnp
      exact absurd hnp (by simp)

theorem norm_of_fixed (l : List Char) (hfix : collapseWhitespace false l = l)
    (hh : ∀ c, l.head? = some c → isJsWhitespace c = false)
    (hl : ∀ c, l.getLast? = some c → isJsWhitespace c = false) :
    norm ⟨l⟩ = ⟨l⟩ ∧ jsTrim ⟨l⟩ = ⟨l⟩ := by
  have ht : jsTrim ⟨l⟩ = ⟨l⟩ := congrArg String.mk (jsTrim_data_of_trimmed l hh hl)
  refine ⟨?_, ht⟩
  show jsTrim ⟨collapseWhitespace false l⟩ = _
  rw [hfix, ht]

theorem beforeFirst_of_not_mem (sep : Char) (l : List Char) (h : sep ∉ l) :
    beforeFirst sep ⟨l⟩ = ⟨l⟩ := by
  show String.mk (l.takeWhile (fun c => c != sep)) = _
  congr 1
  apply List.takeWhile_eq_self_iff.2
  intro c hc
  simp only [bne_iff_ne, ne_eq]
  rintro rfl
  exact h hc

theorem beforeFirst_append (sep : Char) (l y : List Char) (h : sep ∉ l) :
    beforeFirst sep ⟨l ++ sep :: y⟩ = ⟨l⟩ := by
  show String.mk ((l ++ sep :: y).takeWhile (fun c => c != sep)) = _
  congr 1
  rw [List.takeWhile_append_of_pos]
  · simp
  · intro c hc
    simp only [bne_iff_ne, ne_eq]
    rintro rfl
    exact h hc

theorem fixed_prefix_append (p n : List Char) (c0 : Char)
    (hp : collapseWhitespace false p = p) (hp0 : p.head? = some c0)
    (hc0 : isJsWhitespace c0 = false)
    (hn : collapseWhitespace false n = n)
    (hnh : ∀ c, n.head? = some c → isJsWhitespace c = false)
    (hnl : ∀ c, n.getLast? = some c → isJsWhitespace c = false) (hne : n ≠ []) :
    collapseWhitespace false (p ++ n) = p ++ n
      ∧ (∀ c, (p ++ n).head? = some c → isJsWhitespace c = false)
      ∧ (∀ c, (p ++ n).getLast? = some c → isJsWhitespace c = false) := by
  refine ⟨?_, ?_, ?_⟩
  · obtain ⟨b', hb⟩ := collapseWhitespace_append false p n
    rw [hb, hp, collapseWhitespace_flag b' n hnh, hn]
  · intro c hc
    cases p with
    | nil => simp at hp0
    | cons a r =>
      simp only [List.cons_append, List.head?_cons, Option.some.injEq] at hc hp0
      rw [← hc, hp0]
      exact hc0
  · intro c hc
    apply hnl c
    rw [List.getLast?_append] at hc
    cases hlast : n.getLast? with
    | none => exact absurd (List.getLast?_eq_none_iff.1 hlast) hne
    | some d => rw [hlast] at hc; simpa using hc


theorem stripWordWs_head_ne (w : String) (l : List Char) (a b : Char)
    (hw : w.data.head? = some a) (hl : l.head? = some b) (hab : a ≠ b) :
    stripWordWs w l = none := by
  have hp : w.data.isPrefixOf l = false := by
    cases hwd : w.data with
    | nil => rw [hwd] at hw; simp at hw
    | cons a0 r =>
      cases l with
      | nil => rfl
      | cons b0 t =>
        rw [hwd] at hw
        simp only [List.head?_cons, Option.some.injEq] at hw hl
        subst hw hl
        simp [List.isPrefixOf, hab]
  simp [stripWordWs, hp]

theorem filter_quotes_of_not_mem (l : List Char)
    (h : '׳' ∉ l ∧ '״' ∉ l ∧ '"' ∉ l) :
    l.filter (fun c => !(c == '׳' || c == '״' || c == '"')) = l := by
  apply List.filter_eq_self.2
  intro c hc
  simp only [Bool.not_eq_true', Bool.or_eq_false_iff, beq_eq_false_iff_ne, ne_eq]
  refine ⟨⟨?_, ?_⟩, ?_⟩
  · rintro rfl; exact h.1 hc
  · rintro rfl; exact h.2.1 hc
  · rintro rfl; exact h.2.2 hc

/-- C21 (counterexample): the empty base name meets every condition of the claim, yet
`normalizeCityName("עיריית " + "")` is `"עיריית"` and `normalizeCityName("מועצה מקומית " + "")`
is `"מועצה מקומית"`: the trailing space is trimmed before the prefixes are looked for. -/
theorem normalizeCityName_empty_base :
    norm "" = "" ∧ '-' ∉ "".data ∧ '–' ∉ "".data
      ∧ '׳' ∉ "".data ∧ '״' ∉ "".data ∧ '"' ∉ "".data
      ∧ jsStartsWith "" "עיריית " = false ∧ jsStartsWith "" "מועצה מקומית " = false
      ∧ jsStartsWith "" "קריית " = false
      ∧ normalizeCityName ("עיריית " ++ "") = "עיריית"
      ∧ normalizeCityName ("מועצה מקומית " ++ "") = "מועצה מקומית"
      ∧ normalizeCityName ("עיריית " ++ "") ≠ "" := by
  decide

/-- C21 (amended): for every base name `n` that `norm` leaves unchanged, without hyphen, en
dash or quote character and not beginning with `"עיריית "`, `"מועצה מקומית "` or `"קריית "`:
if `n` is not empty then `normalizeCityName("עיריית " + n) = n` and
`normalizeCityName("מועצה מקומית " + n) = n`; and, empty or not,
`normalizeCityName(n + "-" + s) = n` for every suffix `s`. -/
theorem normalizeCityName_base (n : String)
    (hnorm : norm n = n)
    (hdash : '-' ∉ n.data ∧ '–' ∉ n.data)
    (hquote : '׳' ∉ n.data ∧ '״' ∉ n.data ∧ '"' ∉ n.data)
    (hpre : jsStartsWith n "עיריית " = false ∧ jsStartsWith n "מועצה מקומית " = false
      ∧ jsStartsWith n "קריית " = false) :
    (n ≠ "" → normalizeCityName ("עיריית " ++ n) = n
        ∧ normalizeCityName ("מועצה מקומית " ++ n) = n)
      ∧ ∀ s : String, normalizeCityName (n ++ "-" ++ s) = n := by
  obtain ⟨hfix, hnh, hnl⟩ := norm_fixed_spec n hnorm
  have hsp := fixed_ws_is_space n.data hfix
  have hdw : n.data.dropWhile isJsWhitespace = n.data := dropWhile_of_head _ _ hnh
  have h6 := filter_quotes_of_not_mem n.data hquote
  have h7 : stripWordWs "קריית" n.data = none := stripWordWs_none _ _ hsp hpre.2.2
  have hcity : stripWordWs "עיריית" n.data = none := stripWordWs_none _ _ hsp hpre.1
  have hcouncil : (stripWordWs "מועצה" n.data).bind (stripWordWs "מקומית") = none :=
    stripCouncil_none n.data hfix hpre.2.1
  have htrim : jsTrim ⟨n.data⟩ = ⟨n.data⟩ :=
    congrArg String.mk (jsTrim_data_of_trimmed n.data hnh hnl)
  refine ⟨fun hne => ⟨?_, ?_⟩, fun s => ?_⟩
  · have hne' : n.data ≠ [] := fun h => hne (String.ext h)
    have happ : "עיריית " ++ n = ⟨"עיריית".data ++ ' ' :: n.data⟩ := String.ext (by simp)
    obtain ⟨hf, hh, hl⟩ := fixed_prefix_append ("עיריית".data ++ [' ']) n.data 'ע'
      (by decide) rfl (by decide) hfix hnh hnl hne'
    simp only [List.append_assoc, List.singleton_append] at hf hh hl
    obtain ⟨hn1, ht1⟩ := norm_of_fixed _ hf hh hl
    have hb1 := beforeFirst_of_not_mem '-' ("עיריית".data ++ ' ' :: n.data)
      (by simp [hdash.1])
    have hb2 := beforeFirst_of_not_mem '–' ("עיריית".data ++ ' ' :: n.data)
      (by simp [hdash.2])
    have h4 : stripWordWs "מועצה" ("עיריית".data ++ ' ' :: n.data) = none :=
      stripWordWs_head_ne _ _ 'מ' 'ע' rfl rfl (by decide)
    have h5 := stripWordWs_word_space "עיריית" n.data
    rw [hdw] at h5
    unfold normalizeCityName
    simp only [happ, hn1, hb1, ht1, hb2, h4, Option.bind, h5, h6, h7]
  · have hne' : n.data ≠ [] := fun h => hne (String.ext h)
    have happ : "מועצה מקומית " ++ n
        = ⟨"מועצה".data ++ ' ' :: ("מקומית".data ++ ' ' :: n.data)⟩ := String.ext (by simp)
    obtain ⟨hf, hh, hl⟩ := fixed_prefix_append ("מועצה מקומית ".data) n.data 'מ'
      (by decide) rfl (by decide) hfix hnh hnl hne'
    have hlist : "מועצה מקומית ".data ++ n.data
        = "מועצה".data ++ ' ' :: ("מקומית".data ++ ' ' :: n.data) := by simp
    rw [hlist] at hf hh hl
    obtain ⟨hn1, ht1⟩ := norm_of_fixed _ hf hh hl
    have hb1 := beforeFirst_of_not_mem '-'
      ("מועצה".data ++ ' ' :: ("מקומית".data ++ ' ' :: n.data)) (by simp [hdash.1])
    have hb2 := beforeFirst_of_not_mem '–'
      ("מועצה".data ++ ' ' :: ("מקומית".data ++ ' ' :: n.data)) (by simp [hdash.2])
    have h4a := stripWordWs_word_space "מועצה" ("מקומית".data ++ ' ' :: n.data)
    rw [dropWhile_of_head isJsWhitespace ("מקומית".data ++ ' ' :: n.data)
      (fun c hc => by
        have : c = 'מ' := (Option.some.inj hc).symm
        subst this
        decide)] at h4a
    have h4b := stripWordWs_word_space "מקומית" n.data
    rw [hdw] at h4b
    unfold normalizeCityName
    simp only [happ, hn1, hb1, ht1, hb2, h4a, Option.bind, h4b, hcity, h6, h7]
  · have happ : n ++ "-" ++ s = ⟨n.data ++ '-' :: s.data⟩ := String.ext (by simp)
    have hcol : collapseWhitespace false (n.data ++ '-' :: s.data)
        = n.data ++ '-' :: collapseWhitespace false s.data := by
      obtain ⟨b', hb⟩ := collapseWhitespace_append false n.data ('-' :: s.data)
      have hd : isJsWhitespace '-' = false := by decide
      rw [hb, hfix]
      simp [collapseWhitespace, hd]
    obtain ⟨y, hy⟩ := jsTrim_data_keeps n.data (collapseWhitespace false s.data) '-'
      (by decide) (fun a ha => by
        cases hnd : n.data with
        | nil =>
          rw [hnd] at ha
          have : a = '-' := (Option.some.inj ha).symm
          subst this
          decide
        | cons c r =>
          rw [hnd] at ha
          exact hnh a (by rw [hnd]; exact ha))
    have hn1 : norm ⟨n.data ++ '-' :: s.data⟩ = ⟨n.data ++ '-' :: y⟩ := by
      apply String.ext
      show (jsTrim ⟨collapseWhitespace false (n.data ++ '-' :: s.data)⟩).data = _
      rw [hcol, hy]
    have hb1 := beforeFirst_append '-' n.data y hdash.1
    have hb2 := beforeFirst_of_not_mem '–' n.data hdash.2
    unfold normalizeCityName
    simp only [happ, hn1, hb1, htrim, hb2, hcouncil, hcity, h6, h7]

/-- Witness for C21 at the base name `כפר סבא`, which gives the two examples of the claim. -/
theorem normalizeCityName_base_witness :
    normalizeCityName "עיריית כפר סבא" = "כפר סבא"
      ∧ normalizeCityName "מועצה מקומית כפר סבא" = "כפר סבא"
      ∧ normalizeCityName "כפר סבא-דרוזי" = "כפר סבא" :=
  have h := normalizeCityName_base "כפר סבא" (by decide) (by decide) (by decide) (by decide)
  ⟨(h.1 (by decide)).1, (h.1 (by decide)).2, h.2 "דרוזי"⟩


/-! ### Duplicated names -/

theorem bboxIndexStep_keeps (featureKey k : String) (index : Assoc Bbox) (f : MuniFeature)
    (bb : Bbox) (h : assocGet index k = some bb) :
    assocGet (bboxIndexStep featureKey index f) k = some bb := by
  unfold bboxIndexStep
  simp only
  split
  · exact h
  · split
    · exact h
    · split
      · exact h
      · rename_i hnone
        rw [assocGet_assocSet_ne]
        · exact h
        · intro hk
          rw [hk, h] at hnone
          exact hnone rfl

theorem bboxIndex_foldl_keeps (featureKey k : String) (feats : List MuniFeature)
    (index : Assoc Bbox) (bb : Bbox) (h : assocGet index k = some bb) :
    assocGet (feats.foldl (bboxIndexStep featureKey) index) k = some bb := by
  induction feats generalizing index with
  | nil => exact h
  | cons f rest ih => exact ih _ (bboxIndexStep_keeps featureKey k index f bb h)

theorem bboxIndexStep_skips (featureKey k : String) (index : Assoc Bbox) (f : MuniFeature)
    (h : assocGet index k = none)
    (hf : (objGet (f.properties.getD []) featureKey).truthy = true →
      normalizeCityName (jsToString (objGet (f.properties.getD []) featureKey)) = k →
      bboxFromCoords f.coordinates = none) :
    assocGet (bboxIndexStep featureKey index f) k = none := by
  unfold bboxIndexStep
  simp only
  split
  · exact h
  · rename_i ht
    split
    · exact h
    · rename_i bb hbb
      split
      · exact h
      · rw [assocGet_assocSet_ne]
        · exact h
        · intro hk
          rw [hf (by simpa using ht) hk] at hbb
          exact absurd hbb (by simp)

theorem bboxIndexStep_adds (featureKey k : String) (index : Assoc Bbox) (f : MuniFeature)
    (bb : Bbox) (h : assocGet index k = none)
    (hname : (objGet (f.properties.getD []) featureKey).truthy = true)
    (hkey : normalizeCityName (jsToString (objGet (f.properties.getD []) featureKey)) = k)
    (hbox : bboxFromCoords f.coordinates = some bb) :
    assocGet (bboxIndexStep featureKey index f) k = some bb := by
  unfold bboxIndexStep
  simp only [hname, hbox, hkey, h]
  simp [assocGet_assocSet_self]

/-- The index of `buildMunicipalBboxIndex` keeps the box of the first feature that has a
name normalising to `k` and a box: later features with that name do not replace it. -/
theorem buildMunicipalBboxIndex_first (featureKey k : String) (before after : List MuniFeature)
    (f : MuniFeature) (bb : Bbox)
    (hbefore : ∀ g ∈ before, (objGet (g.properties.getD []) featureKey).truthy = true →
      normalizeCityName (jsToString (objGet (g.properties.getD []) featureKey)) = k →
      bboxFromCoords g.coordinates = none)
    (hname : (objGet (f.properties.getD []) featureKey).truthy = true)
    (hkey : normalizeCityName (jsToString (objGet (f.properties.getD []) featureKey)) = k)
    (hbox : bboxFromCoords f.coordinates = some bb) :
    assocGet (buildMunicipalBboxIndex (before ++ f :: after) featureKey) k = some bb := by
  unfold buildMunicipalBboxIndex
  rw [List.foldl_append, List.foldl_cons]
  apply bboxIndex_foldl_keeps
  have hnone : ∀ (l : List MuniFeature) (index : Assoc Bbox),
      (∀ g ∈ l, (objGet (g.properties.getD []) featureKey).truthy = true →
        normalizeCityName (jsToString (objGet (g.properties.getD []) featureKey)) = k →
        bboxFromCoords g.coordinates = none) →
      assocGet index k = none →
      assocGet (l.foldl (bboxIndexStep featureKey) index) k = none := by
    intro l
    induction l with
    | nil => intro index _ h; exact h
    | cons g rest ih =>
      intro index hl h
      exact ih _ (fun g' hg' => hl g' (List.mem_cons_of_mem _ hg'))
        (bboxIndexStep_skips featureKey k index g h (hl g (List.mem_cons_self _ _)))
  exact bboxIndexStep_adds featureKey k _ f bb (hnone before [] hbefore rfl) hname hkey hbox

theorem buildMunicipalBboxIndex_first_example :
    assocGet (buildMunicipalBboxIndex haifaFeatures "name") "חיפה" = some ((34, 32), (35, 33)) :=
  buildMunicipalBboxIndex_first "name" "חיפה" [] _ _ _ (by simp) (by decide) (by decide)
    (by decide)

/-- C22: in `loadYouthDeptDB` the LAST row with a duplicated name wins. For the sheet
`duplicateTable`, whose two data rows are both named `חיפה`, `byName` maps `חיפה` to the
second row (number 2), not to the first; the index of `buildMunicipalBboxIndex` and the
rows of `parseYouthDepartmentsFromHtml` do keep the first. -/
theorem loadYouthDeptDB_last_row_wins :
    (loadYouthDeptDB (some duplicateTable)).map (fun db => assocGet db.byName "חיפה")
        = some (some [("מס\"ד", "2"), ("רשות", "חיפה"), ("מחוז", "חיפה")])
      ∧ (loadYouthDeptDB (some duplicateTable)).map (fun db => assocGet db.byName "חיפה")
        ≠ some (some [("מס\"ד", "1"), ("רשות", "חיפה"), ("מחוז", "צפון")])
      ∧ assocGet (buildMunicipalBboxIndex haifaFeatures "name") "חיפה"
        = some ((34, 32), (35, 33))
      ∧ (uniqByCity duplicateCities).map (fun r => r.district) = ["צפון"] := by
  decide

/-! ### The join of the popup -/

/-- C23: the lookup of `getRow` does not normalise as `normalizeName` does. For the sheet
`dashTable`, whose row is named `תל אביב–יפו` with an en dash, `byName` holds the row under
the key written with a hyphen, and `getRow` for a feature whose name is exactly that of
the row finds no record. -/
theorem getRow_misses_dash_name :
    (loadYouthDeptDB (some dashTable)).map (fun db => db.byName)
        = some [("תל אביב-יפו",
            [("מס\"ד", "1"), ("רשות", "תל אביב–יפו"), ("מחוז", "תל אביב")])]
      ∧ objGet dashProperties "name" = JsVal.str "תל אביב–יפו"
      ∧ normalizeName "תל אביב–יפו" = "תל אביב-יפו"
      ∧ (loadYouthDeptDB (some dashTable)).map
          (fun db => getRow db "name" "name" (some dashProperties)) = some (.ok none) := by
  refine ⟨?_, ?_, ?_, rfl⟩ <;> decide

end SchoolMap
